import Mathlib

/-!
# coroutine_lib: the I/O manager and the timer manager

A shallow embedding of `src/hook/ioscheduler.cpp`, `src/iomanager/scheduler.h`
and `src/iomanager/timer.cpp`.

Conventions of the embedding.

* Objects that the C++ code reaches through a pointer (`Scheduler*`,
  `std::shared_ptr<Fiber>`, `std::function<void()>`) are named by a natural
  number; an empty pointer or an empty `std::function` is `none`.
* A call that aborts the process (a failed `assert`, a member access through a
  null pointer, an index outside a vector) returns `Except.error`.
* The result of a system call is an argument of the operation that issues it.
* Locks are not modelled: every operation is one atomic step.
-/

namespace coroutine

/-- Ways in which the process stops instead of returning from a call. -/
inductive Fault where
  | assertion
  | nullDeref
  | outOfRange
  deriving DecidableEq, Repr

/-! ## Scheduler: the task queue (`src/iomanager/scheduler.h`) -/

/-- `Scheduler::ScheduleTask`: a fiber handle or a callable, and the thread pin. -/
structure ScheduleTask where
  fiber : Option Nat
  cb : Option Nat
  thread : Int
  deriving DecidableEq, Repr

/-- `ScheduleTask(std::shared_ptr<Fiber> f, int thr)`. -/
def ScheduleTask.ofFiber (f : Option Nat) (thr : Int) : ScheduleTask :=
  { fiber := f, cb := none, thread := thr }

/-- `ScheduleTask(std::function<void()> f, int thr)`. -/
def ScheduleTask.ofCb (f : Option Nat) (thr : Int) : ScheduleTask :=
  { fiber := none, cb := f, thread := thr }

/-- The part of a `Scheduler` that `scheduleLock` touches: the task queue
`m_tasks`, and the number of calls of the virtual `tickle()` made so far. -/
structure Scheduler where
  m_tasks : List ScheduleTask
  tickles : Nat
  deriving DecidableEq, Repr

/-- `Scheduler::scheduleLock(fc, thread)` after the `ScheduleTask` has been
built from `fc`: `need_tickle` is read before the insertion, the task is pushed
only when it holds a fiber or a callable, and `tickle()` follows `need_tickle`. -/
def Scheduler.scheduleLock (q : Scheduler) (task : ScheduleTask) : Scheduler :=
  let need_tickle := q.m_tasks.isEmpty
  let q1 : Scheduler :=
    if task.fiber.isSome || task.cb.isSome then { q with m_tasks := q.m_tasks ++ [task] } else q
  if need_tickle then { q1 with tickles := q1.tickles + 1 } else q1

/-! ## IOManager (`src/iomanager/ioscheduler.h`, `src/hook/ioscheduler.cpp`) -/

/-- `IOManager::Event::NONE`. -/
def NONE : Nat := 0
/-- `IOManager::Event::READ` (the value of `EPOLLIN`). -/
def READ : Nat := 1
/-- `IOManager::Event::WRITE` (the value of `EPOLLOUT`). -/
def WRITE : Nat := 4

def EPOLLIN : Nat := 0x001
def EPOLLOUT : Nat := 0x004
def EPOLLERR : Nat := 0x008
def EPOLLHUP : Nat := 0x010
def EPOLLET : Nat := 0x80000000

def EPOLL_CTL_ADD : Nat := 1
def EPOLL_CTL_DEL : Nat := 2
def EPOLL_CTL_MOD : Nat := 3

/-- The C expression `a & ~b` on 32-bit words. -/
def andNot (a b : Nat) : Nat := a &&& (0xFFFFFFFF ^^^ b)

/-- The conversion `(int)n` of a `size_t`: the low 32 bits, read in two's complement. -/
def toInt32 (n : Nat) : Int :=
  if n % 4294967296 < 2147483648 then ((n % 4294967296 : Nat) : Int)
  else ((n % 4294967296 : Nat) : Int) - 4294967296

/-- `++` on a `size_t` counter. -/
def incr64 (n : Nat) : Nat := (n + 1) % 18446744073709551616

/-- `--` on a `size_t` counter: `0` wraps to `SIZE_MAX`. -/
def decr64 (n : Nat) : Nat := if n = 0 then 18446744073709551615 else n - 1

/-- `IOManager::FdContext::EventContext`. -/
structure EventContext where
  scheduler : Option Nat
  fiber : Option Nat
  cb : Option Nat
  deriving DecidableEq, Repr

/-- The default-constructed `EventContext`, also what `resetEventContext` leaves. -/
def EventContext.empty : EventContext := { scheduler := none, fiber := none, cb := none }

/-- `IOManager::FdContext` without its mutex. -/
structure FdContext where
  read : EventContext
  write : EventContext
  fd : Int
  events : Nat
  deriving DecidableEq, Repr

/-- The `FdContext` that `contextResize` allocates for slot `i`. -/
def FdContext.fresh (i : Nat) : FdContext :=
  { read := EventContext.empty, write := EventContext.empty, fd := i, events := NONE }

/-- One `epoll_ctl(m_epfd, op, fd, &epevent)` call: the arguments that were passed. -/
structure EpollCtl where
  op : Nat
  fd : Int
  events : Nat
  deriving DecidableEq, Repr

/-- The state of an `IOManager` and of the objects it points to.
`m_fd_contexts` never holds a null slot (`contextResize` fills every slot it
creates), so a slot is its `FdContext`. `epoll` lists the `epoll_ctl` calls
issued so far, oldest first. `schedulers` are the `Scheduler` objects a stored
`Scheduler*` can point to (this manager among them); the pointer is the
position in the list. -/
structure IOManager where
  m_fd_contexts : List FdContext
  m_pending_event_count : Nat
  epoll : List EpollCtl
  schedulers : List Scheduler
  deriving DecidableEq, Repr

/-- The thread-local values `addEvent` reads: `Scheduler::getThis()`, and the
handle and state of the fiber returned by `Fiber::getThis()`. -/
structure ThreadLocal where
  t_scheduler : Option Nat
  t_fiber : Nat
  t_fiber_running : Bool
  deriving DecidableEq, Repr

/-- The call `epoll_ctl(m_epfd, op, fd, &epevent)` with `epevent.events = events`:
the call is recorded; what it returns is supplied by the caller of the model. -/
def IOManager.epoll_ctl (s : IOManager) (op : Nat) (fd : Int) (events : Nat) : IOManager :=
  { s with epoll := s.epoll ++ [EpollCtl.mk op fd events] }

/-- `IOManager::contextResize(size)`: `resize`, then allocate every null slot. -/
def IOManager.contextResize (s : IOManager) (size : Nat) : IOManager :=
  let n := s.m_fd_contexts.length
  { s with m_fd_contexts :=
      if size ≤ n then s.m_fd_contexts.take size
      else s.m_fd_contexts ++ (List.range' n (size - n)).map FdContext.fresh }

/-- The argument `fd * 1.5` of `contextResize`, converted to `size_t`. -/
def growTo (fd : Int) : Nat := (fd * 3 / 2).toNat

/-- `m_fd_contexts[fd]`: undefined outside the vector. -/
def IOManager.ctxAt (s : IOManager) (fd : Int) : Except Fault FdContext :=
  if fd < 0 then .error .outOfRange
  else match s.m_fd_contexts[fd.toNat]? with
    | some c => .ok c
    | none => .error .outOfRange

/-- Write back the `FdContext` that `m_fd_contexts[fd]` points to. -/
def IOManager.setCtx (s : IOManager) (fd : Int) (c : FdContext) : IOManager :=
  { s with m_fd_contexts := s.m_fd_contexts.set fd.toNat c }

/-- `FdContext::getEventContext(event)`; the `assert` admits `READ` and `WRITE` only. -/
def FdContext.getEventContext (c : FdContext) (event : Nat) : Except Fault EventContext :=
  if event = READ then .ok c.read
  else if event = WRITE then .ok c.write
  else .error .assertion

/-- Assignment through the reference returned by `getEventContext(event)`. -/
def FdContext.setEventContext (c : FdContext) (event : Nat) (e : EventContext) : FdContext :=
  if event = READ then { c with read := e }
  else if event = WRITE then { c with write := e }
  else c

/-- `scheduler->scheduleLock(task)` through a stored `Scheduler*`. -/
def scheduleOn (scheds : List Scheduler) (p : Option Nat) (task : ScheduleTask) :
    Except Fault (List Scheduler) :=
  match p with
  | none => .error .nullDeref
  | some i =>
    match scheds[i]? with
    | none => .error .outOfRange
    | some q => .ok (scheds.set i (q.scheduleLock task))

/-- The task `triggerEvent` hands to `scheduleLock`: `scheduleLock(ctx.cb)` when
the callable is set, else `scheduleLock(ctx.fiber)`; the thread pin is the
default `-1`. -/
def EventContext.task (e : EventContext) : ScheduleTask :=
  if e.cb.isSome then ScheduleTask.ofCb e.cb (-1) else ScheduleTask.ofFiber e.fiber (-1)

/-- `FdContext::triggerEvent(event)`. -/
def FdContext.triggerEvent (c : FdContext) (event : Nat) (scheds : List Scheduler) :
    Except Fault (FdContext × List Scheduler) :=
  if c.events = 0 ∨ event = 0 then .error .assertion
  else
    let c1 := { c with events := andNot c.events event }
    match c1.getEventContext event with
    | .error f => .error f
    | .ok ctx =>
      match scheduleOn scheds ctx.scheduler ctx.task with
      | .error f => .error f
      | .ok scheds1 => .ok (c1.setEventContext event EventContext.empty, scheds1)

/-- `IOManager::addEvent(fd, event, cb)`; `_rt` is what `epoll_ctl` returns
(a failure is only logged). The result is the returned status and the new state. -/
def IOManager.addEvent (s : IOManager) (fd : Int) (event : Nat) (cb : Option Nat)
    (tl : ThreadLocal) (_rt : Int) : Except Fault (Int × IOManager) :=
  let s1 := if toInt32 s.m_fd_contexts.length > fd then s else s.contextResize (growTo fd)
  match s1.ctxAt fd with
  | .error f => .error f
  | .ok fd_ctx =>
    if fd_ctx.events &&& event ≠ 0 then .ok (-1, s1)
    else
      let op := if fd_ctx.events ≠ 0 then EPOLL_CTL_MOD else EPOLL_CTL_ADD
      let epevent := EPOLLET ||| fd_ctx.events ||| event
      let s2 := { (s1.epoll_ctl op fd epevent) with
                    m_pending_event_count := incr64 s1.m_pending_event_count }
      let c1 := { fd_ctx with events := fd_ctx.events ||| event }
      match c1.getEventContext event with
      | .error f => .error f
      | .ok event_ctx =>
        if event_ctx.scheduler.isSome ∨ event_ctx.fiber.isSome ∨ event_ctx.cb.isSome then
          .error .assertion
        else
          let e1 := { event_ctx with scheduler := tl.t_scheduler }
          if cb.isSome then
            .ok (0, s2.setCtx fd (c1.setEventContext event { e1 with cb := cb }))
          else if tl.t_fiber_running then
            .ok (0, s2.setCtx fd (c1.setEventContext event { e1 with fiber := some tl.t_fiber }))
          else .error .assertion

/-- `IOManager::delEvent(fd, event)`; `rt` is what `epoll_ctl` returns. On a
failed `epoll_ctl` the code executes `return -1;` in a function returning
`bool`, which is `true`. -/
def IOManager.delEvent (s : IOManager) (fd : Int) (event : Nat) (rt : Int) :
    Except Fault (Bool × IOManager) :=
  if toInt32 s.m_fd_contexts.length > fd then
    match s.ctxAt fd with
    | .error f => .error f
    | .ok fd_ctx =>
      if fd_ctx.events &&& event = 0 then .ok (false, s)
      else
        let new_events := andNot fd_ctx.events event
        let op := if new_events ≠ 0 then EPOLL_CTL_MOD else EPOLL_CTL_DEL
        let s1 := s.epoll_ctl op fd (EPOLLET ||| new_events)
        if rt ≠ 0 then .ok (true, s1)
        else
          let s2 := { s1 with m_pending_event_count := decr64 s1.m_pending_event_count }
          let c1 := { fd_ctx with events := new_events }
          match c1.getEventContext event with
          | .error f => .error f
          | .ok _ => .ok (true, s2.setCtx fd (c1.setEventContext event EventContext.empty))
  else .ok (false, s)

/-- `IOManager::cancelEvent(fd, event)`; `rt` is what `epoll_ctl` returns. -/
def IOManager.cancelEvent (s : IOManager) (fd : Int) (event : Nat) (rt : Int) :
    Except Fault (Bool × IOManager) :=
  if toInt32 s.m_fd_contexts.length > fd then
    match s.ctxAt fd with
    | .error f => .error f
    | .ok fd_ctx =>
      if fd_ctx.events &&& event = 0 then .ok (false, s)
      else
        let new_events := andNot fd_ctx.events event
        let op := if new_events ≠ 0 then EPOLL_CTL_MOD else EPOLL_CTL_DEL
        let s1 := s.epoll_ctl op fd (EPOLLET ||| new_events)
        if rt ≠ 0 then .ok (true, s1)
        else
          let s2 := { s1 with m_pending_event_count := decr64 s1.m_pending_event_count }
          match fd_ctx.triggerEvent event s2.schedulers with
          | .error f => .error f
          | .ok (c1, scheds) => .ok (true, { (s2.setCtx fd c1) with schedulers := scheds })
  else .ok (false, s)

/-- One step of `if(fd_ctx->events & E) { fd_ctx->triggerEvent(E); --m_pending_event_count; }`
when `cond` is the value of the test. -/
def fireIf (cond : Bool) (event : Nat) (st : FdContext × List Scheduler × Nat) :
    Except Fault (FdContext × List Scheduler × Nat) :=
  if cond then
    match st.1.triggerEvent event st.2.1 with
    | .error f => .error f
    | .ok (c1, scheds) => .ok (c1, scheds, decr64 st.2.2)
  else .ok st

/-- `IOManager::cancelAll(fd)`; `rt` is what `epoll_ctl` returns. -/
def IOManager.cancelAll (s : IOManager) (fd : Int) (rt : Int) :
    Except Fault (Bool × IOManager) :=
  if toInt32 s.m_fd_contexts.length > fd then
    match s.ctxAt fd with
    | .error f => .error f
    | .ok fd_ctx =>
      if fd_ctx.events = 0 then .ok (false, s)
      else
        let s1 := s.epoll_ctl EPOLL_CTL_DEL fd 0
        if rt ≠ 0 then .ok (true, s1)
        else
          match fireIf (fd_ctx.events &&& READ ≠ 0) READ
              (fd_ctx, s1.schedulers, s1.m_pending_event_count) with
          | .error f => .error f
          | .ok st1 =>
            match fireIf (st1.1.events &&& WRITE ≠ 0) WRITE st1 with
            | .error f => .error f
            | .ok (c2, scheds, cnt) =>
              if c2.events ≠ 0 then .error .assertion
              else .ok (true, { (s1.setCtx fd c2) with
                                  schedulers := scheds, m_pending_event_count := cnt })
  else .ok (false, s)

/-- One entry of the array filled by `epoll_wait`: the reported bits and the
user data, which is the tickle pipe (`none`) or a pointer to the `FdContext`
in slot `i` (`some i`). -/
structure EpollEvent where
  events : Nat
  data : Option Nat
  deriving DecidableEq, Repr

/-- The set `real_events` that `idle` computes from a reported event. -/
def realEvents (reported registered : Nat) : Nat :=
  let events1 :=
    if reported &&& (EPOLLERR ||| EPOLLHUP) ≠ 0 then
      reported ||| ((EPOLLIN ||| EPOLLOUT) &&& registered)
    else reported
  let real1 := if events1 &&& EPOLLIN ≠ 0 then NONE ||| READ else NONE
  if events1 &&& EPOLLOUT ≠ 0 then real1 ||| WRITE else real1

/-- The body of the `for` loop of `IOManager::idle` for one reported event;
`rt2` is what `epoll_ctl` returns. -/
def IOManager.idleEvent (s : IOManager) (event : EpollEvent) (rt2 : Int) :
    Except Fault IOManager :=
  match event.data with
  | none => .ok s
  | some i =>
    match s.m_fd_contexts[i]? with
    | none => .error .outOfRange
    | some fd_ctx =>
      let real_events := realEvents event.events fd_ctx.events
      if fd_ctx.events &&& real_events = NONE then .ok s
      else
        let left_events := andNot fd_ctx.events real_events
        let op := if left_events ≠ 0 then EPOLL_CTL_MOD else EPOLL_CTL_DEL
        let s1 := s.epoll_ctl op fd_ctx.fd (EPOLLET ||| left_events)
        if rt2 ≠ 0 then .ok s1
        else
          match fireIf (real_events &&& READ ≠ 0) READ
              (fd_ctx, s1.schedulers, s1.m_pending_event_count) with
          | .error f => .error f
          | .ok st1 =>
            match fireIf (real_events &&& WRITE ≠ 0) WRITE st1 with
            | .error f => .error f
            | .ok (c2, scheds, cnt) =>
              .ok { s1 with m_fd_contexts := s1.m_fd_contexts.set i c2,
                            schedulers := scheds, m_pending_event_count := cnt }

/-- The state left by the constructor `IOManager::IOManager`: the read end
`tickle_fd` of the pipe is registered, and `contextResize(32)` has run.
`scheds` are the `Scheduler` objects of the process. -/
def IOManager.new (tickle_fd : Int) (scheds : List Scheduler) : IOManager :=
  (IOManager.mk [] 0 [EpollCtl.mk EPOLL_CTL_ADD tickle_fd (EPOLLIN ||| EPOLLET)] scheds).contextResize 32

/-- The states an `IOManager` can be in: the constructor, then any sequence of
returning calls of `addEvent`, `delEvent`, `cancelEvent`, `cancelAll`, of
reported events processed by `idle`, and of changes of the task queues by
their schedulers. `addEvent` is called with a descriptor for which the table
it may allocate has a size that fits the `int` the code compares it in. -/
inductive Reachable : IOManager → Prop where
  | new (tickle_fd : Int) (scheds : List Scheduler) : Reachable (IOManager.new tickle_fd scheds)
  | addEvent {s s1 : IOManager} {r : Int} (fd : Int) (event : Nat) (cb : Option Nat)
      (tl : ThreadLocal) (rt : Int) :
      Reachable s → growTo fd ≤ 2147483647 →
      s.addEvent fd event cb tl rt = .ok (r, s1) → Reachable s1
  | delEvent {s s1 : IOManager} {r : Bool} (fd : Int) (event : Nat) (rt : Int) :
      Reachable s → s.delEvent fd event rt = .ok (r, s1) → Reachable s1
  | cancelEvent {s s1 : IOManager} {r : Bool} (fd : Int) (event : Nat) (rt : Int) :
      Reachable s → s.cancelEvent fd event rt = .ok (r, s1) → Reachable s1
  | cancelAll {s s1 : IOManager} {r : Bool} (fd : Int) (rt : Int) :
      Reachable s → s.cancelAll fd rt = .ok (r, s1) → Reachable s1
  | idle {s s1 : IOManager} (event : EpollEvent) (rt2 : Int) :
      Reachable s → s.idleEvent event rt2 = .ok s1 → Reachable s1
  | run {s : IOManager} (scheds : List Scheduler) :
      Reachable s → Reachable { s with schedulers := scheds }

/-- The number of directions registered in a mask. -/
def registeredIn (events : Nat) : Nat :=
  (if events &&& READ ≠ 0 then 1 else 0) + (if events &&& WRITE ≠ 0 then 1 else 0)

/-- The number of pairs `(fd, E)`, `E` in `{READ, WRITE}`, with bit `E` set in
the mask of `fd`. -/
def IOManager.registeredPairs (s : IOManager) : Nat :=
  (s.m_fd_contexts.map fun c => registeredIn c.events).sum

/-- The masks built from `READ` and `WRITE`. -/
def IsMask (m : Nat) : Prop := m = 0 ∨ m = 1 ∨ m = 4 ∨ m = 5

instance (m : Nat) : Decidable (IsMask m) := by
  unfold IsMask
  infer_instance

/-- A slot holds a registration: exactly one of the fiber and the callable. -/
def EventContext.Armed (e : EventContext) : Prop :=
  (e.cb.isSome ∧ e.fiber = none) ∨ (e.cb = none ∧ e.fiber.isSome)

/-- The invariant of one `FdContext`: the mask holds no bit other than `READ`
and `WRITE`, the slot of a direction that is not registered is empty, and the
slot of a registered direction holds exactly one of a fiber and a callable. -/
structure CtxOk (c : FdContext) : Prop where
  mask : IsMask c.events
  read : c.events &&& READ = 0 → c.read = EventContext.empty
  write : c.events &&& WRITE = 0 → c.write = EventContext.empty
  read_armed : c.events &&& READ ≠ 0 → c.read.Armed
  write_armed : c.events &&& WRITE ≠ 0 → c.write.Armed

/-- The invariant of the reachable states: the table has at least the 32 slots
of the constructor and a size that fits an `int`, every `FdContext` is
well formed, and the counter is the number of registered directions. -/
structure Inv (s : IOManager) : Prop where
  size_lo : 32 ≤ s.m_fd_contexts.length
  size_hi : s.m_fd_contexts.length ≤ 2147483647
  ctx : ∀ c ∈ s.m_fd_contexts, CtxOk c
  count : s.m_pending_event_count = s.registeredPairs

/-- The task queue of the scheduler at address `p` (empty when there is none). -/
def tasksOf (scheds : List Scheduler) (p : Nat) : List ScheduleTask :=
  match scheds[p]? with
  | some q => q.m_tasks
  | none => []

/-- What firing the slot `e` adds to the queue of the scheduler at address `p`:
its task when `p` is the recorded scheduler, nothing otherwise. -/
def firedOn (e : EventContext) (p : Nat) : List ScheduleTask :=
  if e.scheduler = some p then [e.task] else []

/-- The slot `addEvent` stores for a registration made with `cb` on a thread
whose thread-local values are `tl`. -/
def armedSlot (tl : ThreadLocal) (cb : Option Nat) : EventContext :=
  if cb.isSome then { scheduler := tl.t_scheduler, fiber := none, cb := cb }
  else { scheduler := tl.t_scheduler, fiber := some tl.t_fiber, cb := none }

/-- The `FdContext` of `fd` as `addEvent` finds it: the slot of the table, or
the freshly allocated one when `fd` is beyond the table. -/
def IOManager.ctxOrFresh (s : IOManager) (fd : Int) : FdContext :=
  match s.m_fd_contexts[fd.toNat]? with
  | some c => c
  | none => FdContext.fresh fd.toNat

/-! ### The scenario of `src/iomanager/test.cpp` -/

/-- The manager of `src/iomanager/test.cpp`: one scheduler, the manager itself. -/
def testManager : IOManager := IOManager.new 3 [Scheduler.mk [] 0]

/-- The thread of `main` in `src/iomanager/test.cpp`: the constructor made the
manager the current scheduler, and the main fiber is running. -/
def testThread : ThreadLocal := { t_scheduler := some 0, t_fiber := 0, t_fiber_running := true }

/-- The `FdContext` of descriptor 5 once `READ` is registered with the callable 11. -/
def testReadCtx : FdContext :=
  { read := { scheduler := some 0, fiber := none, cb := some 11 },
    write := EventContext.empty, fd := 5, events := 1 }

/-- The state after `manager.addEvent(sock, READ, cb)` with `sock = 5`, `cb = 11`. -/
def testRead : IOManager :=
  { m_fd_contexts := testManager.m_fd_contexts.set 5 testReadCtx,
    m_pending_event_count := 1,
    epoll := testManager.epoll ++ [EpollCtl.mk EPOLL_CTL_ADD 5 (EPOLLET ||| 1)],
    schedulers := [Scheduler.mk [] 0] }

/-- A thread that neither constructed a scheduler nor runs `Scheduler::run`:
`Scheduler::getThis()` is null there. -/
def orphanThread : ThreadLocal := { t_scheduler := none, t_fiber := 0, t_fiber_running := true }

/-- The state after `manager.addEvent(5, READ, cb)` called on `orphanThread`. -/
def testOrphan : IOManager :=
  { m_fd_contexts := testManager.m_fd_contexts.set 5
      { read := { scheduler := none, fiber := none, cb := some 11 },
        write := EventContext.empty, fd := 5, events := 1 },
    m_pending_event_count := 1,
    epoll := testManager.epoll ++ [EpollCtl.mk EPOLL_CTL_ADD 5 (EPOLLET ||| 1)],
    schedulers := [Scheduler.mk [] 0] }

/-- The state after `manager.addEvent(sock, WRITE, cb)` with `sock = 5`, `cb = 12`. -/
def testWrite : IOManager :=
  { m_fd_contexts := testManager.m_fd_contexts.set 5
      { read := EventContext.empty,
        write := { scheduler := some 0, fiber := none, cb := some 12 }, fd := 5, events := 4 },
    m_pending_event_count := 1,
    epoll := testManager.epoll ++ [EpollCtl.mk EPOLL_CTL_ADD 5 (EPOLLET ||| 4)],
    schedulers := [Scheduler.mk [] 0] }

/-! ## TimerManager (`src/hook/timer.h`, `src/iomanager/timer.cpp`)

A time point of `std::chrono::system_clock` is its count of clock ticks, one
tick being a nanosecond, as an integer. A `Timer` object lives in a heap and a
`std::shared_ptr<Timer>` is its position there. -/

/-- The ticks of `std::chrono::milliseconds(ms)`. -/
def msTicks (ms : Nat) : Int := (ms : Int) * 1000000

/-- `Timer` without the back pointer to its manager. -/
structure Timer where
  m_recurring : Bool
  m_ms : Nat
  m_next : Int
  m_cb : Option Nat
  deriving DecidableEq, Repr

/-- `TimerManager`. `heap` holds the `Timer` objects; `m_timers` lists the
handles held by the `std::set`, in its iteration order. -/
structure TimerManager where
  heap : List Timer
  m_timers : List Nat
  m_tickled : Bool
  m_previousTime : Int
  deriving DecidableEq, Repr

/-- `t->m_next` through a handle (0 for a handle outside the heap). -/
def TimerManager.next (tm : TimerManager) (t : Nat) : Int :=
  match tm.heap[t]? with
  | some x => x.m_next
  | none => 0

/-- `Timer::Comparator::operator()`: `lhs->m_next < rhs->m_next`. -/
def TimerManager.comparator (tm : TimerManager) (lhs rhs : Nat) : Bool :=
  decide (tm.next lhs < tm.next rhs)

/-- `std::set::insert` under `Timer::Comparator`: the handle goes before the
first element it compares less than; when an element is equivalent to it
(neither compares less than the other) nothing is inserted. -/
def TimerManager.setInsert (tm : TimerManager) (t : Nat) : List Nat → List Nat
  | [] => [t]
  | x :: xs =>
    if tm.comparator t x then t :: x :: xs
    else if tm.comparator x t then x :: tm.setInsert t xs
    else x :: xs

/-- `m_timers.insert(t)`. -/
def TimerManager.insert (tm : TimerManager) (t : Nat) : TimerManager :=
  { tm with m_timers := tm.setInsert t tm.m_timers }

/-- `TimerManager::detectClockRollover()`; `now` is the clock reading it takes. -/
def TimerManager.detectClockRollover (tm : TimerManager) (now : Int) : Bool × TimerManager :=
  (decide (now < tm.m_previousTime - msTicks (60 * 60 * 1000)), { tm with m_previousTime := now })

/-- One pass through the body of the `while` loop of `listExpiredCb`, taken
when the loop condition holds for the head `t`, whose object is `temp`. -/
def TimerManager.expireHead (tm : TimerManager) (now : Int) (t : Nat) (temp : Timer)
    (rest : List Nat) (cbs : List (Option Nat)) : TimerManager × List (Option Nat) :=
  let tm1 := { tm with m_timers := rest }
  let cbs1 := cbs ++ [temp.m_cb]
  if temp.m_recurring then
    let tm2 := { tm1 with heap := tm1.heap.set t { temp with m_next := now + msTicks temp.m_ms } }
    (tm2.insert t, cbs1)
  else
    ({ tm1 with heap := tm1.heap.set t { temp with m_cb := none } }, cbs1)

/-- The `while` loop of `listExpiredCb`, run for at most `fuel` passes: `none`
when the loop has not been left after `fuel` passes, `some (.ok _)` when it has
been left, `some (.error _)` when the head of the set points outside the heap. -/
def TimerManager.expireLoop (rollover : Bool) (now : Int) :
    Nat → TimerManager → List (Option Nat) →
      Option (Except Fault (TimerManager × List (Option Nat)))
  | 0, _, _ => none
  | fuel + 1, tm, cbs =>
    match tm.m_timers with
    | [] => some (.ok (tm, cbs))
    | t :: rest =>
      match tm.heap[t]? with
      | none => some (.error .nullDeref)
      | some temp =>
        if rollover || decide (temp.m_next ≤ now) then
          let r := tm.expireHead now t temp rest cbs
          TimerManager.expireLoop rollover now fuel r.1 r.2
        else some (.ok (tm, cbs))

/-- `TimerManager::listExpiredCb(cbs)`: `now` is the clock reading of
`listExpiredCb`, `now2` the one of `detectClockRollover`; the loop is run for
at most `fuel` passes. -/
def TimerManager.listExpiredCb (tm : TimerManager) (now now2 : Int) (fuel : Nat)
    (cbs : List (Option Nat)) : Option (Except Fault (TimerManager × List (Option Nat))) :=
  let r := tm.detectClockRollover now2
  TimerManager.expireLoop r.1 now fuel r.2 cbs

/-! ### Two timer sets -/

/-- Two recurring timers of period 10 ms, due at 5 ms and 6 ms, callables 1 and 2. -/
def twoRecurring : TimerManager :=
  { heap := [Timer.mk true 10 5000000 (some 1), Timer.mk true 10 6000000 (some 2)],
    m_timers := [0, 1], m_tickled := false, m_previousTime := 0 }

/-- One recurring timer of period 10 ms, callable 1, observed last at 2 h. -/
def oneRecurring : TimerManager :=
  { heap := [Timer.mk true 10 7205000000000 (some 1)],
    m_timers := [0], m_tickled := false, m_previousTime := 7200000000000 }

/-- The set `oneRecurring` once the rolled-back clock reading 0 is recorded and
the timer is reinserted at `0 + 10 ms`. -/
def oneRecurringRolled : TimerManager :=
  { heap := [Timer.mk true 10 10000000 (some 1)],
    m_timers := [0], m_tickled := false, m_previousTime := 0 }

/-! ### Timer operations -/

/-- The iterator `m_timers.insert(t).first` as a position in the set: where
the handle is inserted or, when nothing is inserted, where the element
equivalent to it stands. -/
def TimerManager.setInsertAt (tm : TimerManager) (t : Nat) : List Nat → Nat
  | [] => 0
  | x :: xs =>
    if tm.comparator t x then 0
    else if tm.comparator x t then tm.setInsertAt t xs + 1
    else 0

/-- The iterator `m_timers.find(t)` as a position in the set: the first
element that does not compare less than `t`, when `t` does not compare less
than it either; `none` is `end()`. -/
def TimerManager.setFind (tm : TimerManager) (t : Nat) : List Nat → Option Nat
  | [] => none
  | x :: xs =>
    if tm.comparator x t then (tm.setFind t xs).map (· + 1)
    else if tm.comparator t x then none
    else some 0

/-- `Timer::Timer(ms, cb, recurring, manager)`; `now` is the clock reading. -/
def Timer.new (ms : Nat) (cb : Option Nat) (recurring : Bool) (now : Int) : Timer :=
  { m_recurring := recurring, m_ms := ms, m_next := now + msTicks ms, m_cb := cb }

/-- `TimerManager::addTimer(std::shared_ptr<Timer> timer)`. The first
component is `at_front`: whether `onTimerInsertedAtFront()` is called. -/
def TimerManager.addTimerPtr (tm : TimerManager) (timer : Nat) : Bool × TimerManager :=
  let it := tm.setInsertAt timer tm.m_timers
  let tm1 := tm.insert timer
  let at_front := it == 0 && !tm1.m_tickled
  (at_front, if at_front then { tm1 with m_tickled := true } else tm1)

/-- `TimerManager::addTimer(ms, cb, recurring)`: the new handle, whether
`onTimerInsertedAtFront()` is called, and the manager. -/
def TimerManager.addTimer (tm : TimerManager) (ms : Nat) (cb : Option Nat) (recurring : Bool)
    (now : Int) : Nat × Bool × TimerManager :=
  let timer := tm.heap.length
  let tm1 := { tm with heap := tm.heap ++ [Timer.new ms cb recurring now] }
  let r := tm1.addTimerPtr timer
  (timer, r.1, r.2)

/-- `Timer::cancel()` on the timer with handle `t`. -/
def Timer.cancel (tm : TimerManager) (t : Nat) : Except Fault (Bool × TimerManager) :=
  match tm.heap[t]? with
  | none => .error .nullDeref
  | some self =>
    if self.m_cb.isNone then .ok (false, tm)
    else
      let tm1 := { tm with heap := tm.heap.set t { self with m_cb := none } }
      match tm1.setFind t tm1.m_timers with
      | some it => .ok (true, { tm1 with m_timers := tm1.m_timers.eraseIdx it })
      | none => .ok (true, tm1)

/-- `Timer::refresh()` on the timer with handle `t`; `now` is the clock reading. -/
def Timer.refresh (tm : TimerManager) (t : Nat) (now : Int) : Except Fault (Bool × TimerManager) :=
  match tm.heap[t]? with
  | none => .error .nullDeref
  | some self =>
    if self.m_cb.isNone then .ok (false, tm)
    else
      match tm.setFind t tm.m_timers with
      | none => .ok (false, tm)
      | some it =>
        let tm1 := { tm with m_timers := tm.m_timers.eraseIdx it }
        let tm2 := { tm1 with heap := tm1.heap.set t { self with m_next := now + msTicks self.m_ms } }
        .ok (true, tm2.insert t)

/-- `Timer::reset(ms, from_now)` on the timer with handle `t`: the result,
whether `onTimerInsertedAtFront()` is called, and the manager. -/
def Timer.reset (tm : TimerManager) (t : Nat) (ms : Nat) (from_now : Bool) (now : Int) :
    Except Fault (Bool × Bool × TimerManager) :=
  match tm.heap[t]? with
  | none => .error .nullDeref
  | some self =>
    if ms == self.m_ms && !from_now then .ok (true, false, tm)
    else if self.m_cb.isNone then .ok (false, false, tm)
    else
      match tm.setFind t tm.m_timers with
      | none => .ok (false, false, tm)
      | some it =>
        let tm1 := { tm with m_timers := tm.m_timers.eraseIdx it }
        let start := if from_now then now else self.m_next - msTicks self.m_ms
        let tm2 := { tm1 with heap := tm1.heap.set t { self with m_ms := ms, m_next := start + msTicks ms } }
        let r := tm2.addTimerPtr t
        .ok (true, r.1, r.2)

/-- The value `~0ull`. -/
def UINT64_MAX : Nat := 18446744073709551615

/-- `std::chrono::duration_cast<std::chrono::milliseconds>` of a count of
ticks: the quotient truncated towards zero. -/
def toMilliseconds (ticks : Int) : Int := ticks.tdiv 1000000

/-- `static_cast<uint64_t>` of a 64-bit signed count. -/
def toUInt64 (n : Int) : Nat := (n % 18446744073709551616).toNat

/-- `TimerManager::getNextTimer()`; `now` is the clock reading. -/
def TimerManager.getNextTimer (tm : TimerManager) (now : Int) : Except Fault (Nat × TimerManager) :=
  let tm1 := { tm with m_tickled := false }
  match tm1.m_timers with
  | [] => .ok (UINT64_MAX, tm1)
  | t :: _ =>
    match tm1.heap[t]? with
    | none => .error .nullDeref
    | some x =>
      let time := x.m_next
      if now ≥ time then .ok (0, tm1)
      else .ok (toUInt64 (toMilliseconds (time - now)), tm1)

/-- `TimerManager::hasTimer()`. -/
def TimerManager.hasTimer (tm : TimerManager) : Bool := !tm.m_timers.isEmpty

/-- One one-shot timer of period 5 ms, due at 5 ms, callable 1. -/
def oneShot : TimerManager :=
  { heap := [Timer.mk false 5 5000000 (some 1)],
    m_timers := [0], m_tickled := false, m_previousTime := 0 }

/-- The set `twoRecurring` after `cancel()` on its second timer. -/
def twoRecurringCancelled : TimerManager :=
  { heap := [Timer.mk true 10 5000000 (some 1), Timer.mk true 10 6000000 none],
    m_timers := [0], m_tickled := false, m_previousTime := 0 }

/-- Two one-shot timers: period 20 ms due at 25 ms with callable 1, period
10 ms due at 30 ms with callable 2. -/
def refreshTie : TimerManager :=
  { heap := [Timer.mk false 20 25000000 (some 1), Timer.mk false 10 30000000 (some 2)],
    m_timers := [0, 1], m_tickled := false, m_previousTime := 0 }

/-! ## Fiber (`src/hook/fiber.h`, `src/fiber/fiber.cpp`)

The fibers of one OS thread live in a heap and a `Fiber*` is a position in
it; the thread-local pointers `t_fiber`, `t_thread_fiber` and
`t_scheduler_fiber` are kept with the heap. Saved machine contexts are not
part of the state. -/

/-- `Fiber::State`. -/
inductive Fiber.State where
  | READY
  | RUNNING
  | TREM
  deriving DecidableEq, Repr

/-- `Fiber`: the fields the state machine reads and writes. -/
structure Fiber where
  m_state : Fiber.State
  m_stack : Option Nat
  m_cb : Option Nat
  m_run_in_scheduler : Bool
  deriving DecidableEq, Repr

/-- The fibers of one OS thread and the thread-local pointers of `fiber.cpp`. -/
structure FiberThread where
  fibers : List Fiber
  t_fiber : Option Nat
  t_thread_fiber : Option Nat
  t_scheduler_fiber : Option Nat
  deriving DecidableEq, Repr

/-- A thread before any fiber exists: the three pointers are null. -/
def FiberThread.empty : FiberThread :=
  { fibers := [], t_fiber := none, t_thread_fiber := none, t_scheduler_fiber := none }

/-- `Fiber::setThis(f)`. -/
def FiberThread.setThis (s : FiberThread) (f : Option Nat) : FiberThread :=
  { s with t_fiber := f }

/-- `Fiber::setSchedulerFiber(f)`. -/
def FiberThread.setSchedulerFiber (s : FiberThread) (f : Option Nat) : FiberThread :=
  { s with t_scheduler_fiber := f }

/-- `Fiber::Fiber()`, the constructor of the main fiber: `setThis(this)`,
state `RUNNING`, no stack, no callable. The constructor leaves
`m_run_in_scheduler` uninitialised; `junk` is the value it happens to hold. -/
def FiberThread.newMain (s : FiberThread) (junk : Bool) : Nat × FiberThread :=
  (s.fibers.length,
    { s with fibers := s.fibers ++ [Fiber.mk .RUNNING none none junk],
             t_fiber := some s.fibers.length })

/-- `Fiber::Fiber(cb, stacksize, run_in_scheduler)`: state `READY`; `stack` is
what `malloc` returned. -/
def FiberThread.newFiber (s : FiberThread) (cb : Option Nat) (stack : Option Nat)
    (run_in_scheduler : Bool) : Nat × FiberThread :=
  (s.fibers.length,
    { s with fibers := s.fibers ++ [Fiber.mk .READY stack cb run_in_scheduler] })

/-- `Fiber::getThis()`: the current fiber; when there is none the main fiber
is created and becomes the thread fiber and the scheduler fiber. -/
def FiberThread.getThis (s : FiberThread) (junk : Bool) : Nat × FiberThread :=
  match s.t_fiber with
  | some f => (f, s)
  | none =>
    let r := s.newMain junk
    (r.1, { r.2 with t_thread_fiber := some r.1, t_scheduler_fiber := some r.1 })

/-- The fiber whose context `resume()` and `yield()` of the fiber `x` swap
with: `t_scheduler_fiber` when `m_run_in_scheduler`, else `t_thread_fiber`. -/
def FiberThread.switchFiber (s : FiberThread) (x : Fiber) : Option Nat :=
  if x.m_run_in_scheduler then s.t_scheduler_fiber else s.t_thread_fiber

/-- `Fiber::resume()` on the fiber `f`. -/
def Fiber.resume (s : FiberThread) (f : Nat) : Except Fault FiberThread :=
  match s.fibers[f]? with
  | none => .error .nullDeref
  | some x =>
    if x.m_state ≠ .READY then .error .assertion
    else
      let s1 := { s with fibers := s.fibers.set f { x with m_state := .RUNNING } }
      let s2 := s1.setThis (some f)
      match s2.switchFiber x with
      | none => .error .nullDeref
      | some _ => .ok s2

/-- `Fiber::yield()` on the fiber `f`. -/
def Fiber.yield (s : FiberThread) (f : Nat) : Except Fault FiberThread :=
  match s.fibers[f]? with
  | none => .error .nullDeref
  | some x =>
    if ¬ (x.m_state = .RUNNING ∨ x.m_state = .TREM) then .error .assertion
    else
      let s1 := if x.m_state ≠ .TREM
        then { s with fibers := s.fibers.set f { x with m_state := .READY } } else s
      let s2 := s1.setThis (s1.switchFiber x)
      match s1.switchFiber x with
      | none => .error .nullDeref
      | some _ => .ok s2

/-- `Fiber::mainFunc()` from the return of the entry callable on:
`curr->m_cb = nullptr; curr->m_state = TREM; raw_ptr->yield();`. -/
def Fiber.mainFuncReturn (s : FiberThread) (curr : Nat) : Except Fault FiberThread :=
  match s.fibers[curr]? with
  | none => .error .nullDeref
  | some x =>
    Fiber.yield { s with fibers := s.fibers.set curr { x with m_cb := none, m_state := .TREM } } curr

/-- `Fiber::mainFunc()`, the trampoline. `body` is what the entry callable
does to the thread until it returns; calling an empty callable ends the
process. -/
def Fiber.mainFunc (s : FiberThread) (junk : Bool)
    (body : FiberThread → Except Fault FiberThread) : Except Fault FiberThread :=
  let r := s.getThis junk
  match r.2.fibers[r.1]? with
  | none => .error .nullDeref
  | some x =>
    match x.m_cb with
    | none => .error .nullDeref
    | some _ =>
      match body r.2 with
      | .error e => .error e
      | .ok s1 => Fiber.mainFuncReturn s1 r.1

/-- `Fiber::reset(cb)` on the fiber `f`. -/
def Fiber.reset (s : FiberThread) (f : Nat) (cb : Option Nat) : Except Fault FiberThread :=
  match s.fibers[f]? with
  | none => .error .nullDeref
  | some x =>
    if ¬ (x.m_stack ≠ none ∧ x.m_state = .TREM) then .error .assertion
    else .ok { s with fibers := s.fibers.set f { x with m_state := .READY, m_cb := cb } }

/-- How many fibers of the thread have state `RUNNING`. -/
def FiberThread.running (s : FiberThread) : Nat :=
  (s.fibers.filter (fun x => decide (x.m_state = .RUNNING))).length

/-- The states of a thread reached from the creation of its main fiber by
creating fibers, `resume()`, `yield()`, the completion of an entry callable and
`reset()`, on any fiber at any time. -/
inductive FiberReach : FiberThread → Prop
  | main (junk : Bool) : FiberReach (FiberThread.empty.getThis junk).2
  | create {s} (cb stack : Option Nat) (ris : Bool) :
      FiberReach s → FiberReach (s.newFiber cb stack ris).2
  | resume {s s1} (f : Nat) : FiberReach s → Fiber.resume s f = .ok s1 → FiberReach s1
  | yield {s s1} (f : Nat) : FiberReach s → Fiber.yield s f = .ok s1 → FiberReach s1
  | done {s s1} (f : Nat) : FiberReach s → Fiber.mainFuncReturn s f = .ok s1 → FiberReach s1
  | reset {s s1} (f : Nat) (cb : Option Nat) :
      FiberReach s → Fiber.reset s f cb = .ok s1 → FiberReach s1

/-- The states of a thread reached as the library drives its fibers: the main
fiber is created first; fibers are created; `setSchedulerFiber` is called
while the main fiber is current, as the constructor of `Scheduler` does;
`resume()` is called by the fiber whose context it saves, which is the
scheduler fiber for a fiber with `m_run_in_scheduler` and the thread fiber
otherwise; `yield()` and the completion of the entry callable are those of the
current fiber, which is not the main fiber; `reset()` is called on any
fiber. -/
inductive FiberRun : FiberThread → Prop
  | main (junk : Bool) : FiberRun (FiberThread.empty.getThis junk).2
  | create {s} (cb stack : Option Nat) (ris : Bool) :
      FiberRun s → FiberRun (s.newFiber cb stack ris).2
  | setSchedulerFiber {s} (f : Option Nat) : FiberRun s → s.t_fiber = s.t_thread_fiber →
      FiberRun (s.setSchedulerFiber f)
  | resume {s s1} (f : Nat) (x : Fiber) : FiberRun s → s.fibers[f]? = some x →
      s.t_fiber = s.switchFiber x → Fiber.resume s f = .ok s1 → FiberRun s1
  | yield {s s1} (f : Nat) : FiberRun s → s.t_fiber = some f → s.t_thread_fiber ≠ some f →
      Fiber.yield s f = .ok s1 → FiberRun s1
  | done {s s1} (f : Nat) : FiberRun s → s.t_fiber = some f → s.t_thread_fiber ≠ some f →
      Fiber.mainFuncReturn s f = .ok s1 → FiberRun s1
  | reset {s s1} (f : Nat) (cb : Option Nat) :
      FiberRun s → Fiber.reset s f cb = .ok s1 → FiberRun s1

/-- A thread with its main fiber and one fiber created with callable 7. -/
def mainAndOne : FiberThread :=
  ((FiberThread.empty.getThis false).2.newFiber (some 7) (some 1) true).2

/-- The thread `mainAndOne` after `resume()` on its second fiber. -/
def mainAndOneResumed : FiberThread :=
  { fibers := [Fiber.mk .RUNNING none none false, Fiber.mk .RUNNING (some 1) (some 7) true],
    t_fiber := some 1, t_thread_fiber := some 0, t_scheduler_fiber := some 0 }

/-- The thread of a scheduler that uses its caller, while the dispatch fiber
runs a task: the main fiber, the dispatch fiber (created without
`m_run_in_scheduler`, made the scheduler fiber and resumed from the main fiber)
and a task fiber resumed from the dispatch fiber. -/
def callerDispatching : FiberThread :=
  { fibers := [Fiber.mk .RUNNING none none false, Fiber.mk .RUNNING (some 1) (some 7) false,
      Fiber.mk .RUNNING (some 2) (some 8) true],
    t_fiber := some 2, t_thread_fiber := some 0, t_scheduler_fiber := some 1 }

/-- What holds of a thread driven as in `FiberRun`, with current fiber `c` and
the fibers `L` that have resumed one another: the main fiber is fiber 0 and is
the thread fiber; the fibers with state `RUNNING` are those of `L`; and `L` is
the main fiber alone when it is current, the main fiber and `c` when `c` was
resumed from the main fiber (and then `yield()` of `c` goes back to it), or the
main fiber, the scheduler fiber `d` and `c` when `c` was resumed from a
scheduler fiber that is not the main fiber. -/
structure RunInv (s : FiberThread) (c : Nat) (L : List Nat) : Prop where
  thread : s.t_thread_fiber = some 0
  cur : s.t_fiber = some c
  valid : ∀ g ∈ L, g < s.fibers.length
  runs : ∀ g x, s.fibers[g]? = some x → (x.m_state = .RUNNING ↔ g ∈ L)
  count : s.running = L.length
  phase : (c = 0 ∧ L = [0]) ∨
    (c ≠ 0 ∧ L = [0, c] ∧
      ∀ x, s.fibers[c]? = some x → x.m_run_in_scheduler = true →
        s.t_scheduler_fiber = some 0) ∨
    (∃ d, s.t_scheduler_fiber = some d ∧ d ≠ 0 ∧ c ≠ 0 ∧ d ≠ c ∧ L = [0, d, c] ∧
      (∀ x, s.fibers[c]? = some x → x.m_run_in_scheduler = true) ∧
      (∀ x, s.fibers[d]? = some x → x.m_run_in_scheduler = false))

/-! ## Scheduler: the selection step of `run` (`src/scheduler/scheduler.cpp`) -/

/-- `ScheduleTask()` and `ScheduleTask::reset()`: no fiber, no callable, no pin. -/
def ScheduleTask.empty : ScheduleTask :=
  { fiber := none, cb := none, thread := -1 }

/-- The test `it->thread != -1 && it->thread != thread_id` of `run`: the task
is pinned to another worker. -/
def ScheduleTask.pinnedElsewhere (t : ScheduleTask) (thread_id : Int) : Bool :=
  t.thread != -1 && t.thread != thread_id

/-- The scan of the task queue in `Scheduler::run`, from the iterator `it` on:
the argument list is what `it` has yet to visit. A task pinned elsewhere is
skipped and `tickle_me` is set; the first other task must hold a fiber or a
callable, is copied to `task`, erased, and `m_activate_thread_count` is
incremented. After the loop `tickle_me` is also set when `it`, which after the
erasure stands at the task that followed the erased one, is not `end()`. The
result is `task`, the tasks from `it` on that stay in the queue, `tickle_me`
and the active count. -/
def Scheduler.scan (thread_id : Int) :
    List ScheduleTask → Bool → Nat → Except Fault (ScheduleTask × List ScheduleTask × Bool × Nat)
  | [], tickle_me, active => .ok (ScheduleTask.empty, [], tickle_me, active)
  | t :: rest, tickle_me, active =>
    if t.pinnedElsewhere thread_id then
      match Scheduler.scan thread_id rest true active with
      | .ok (task, q, tk, a) => .ok (task, t :: q, tk, a)
      | .error e => .error e
    else if ¬ (t.fiber.isSome ∨ t.cb.isSome) then .error .assertion
    else .ok (t, rest, tickle_me || !rest.isEmpty, active + 1)

/-- The selection step of one pass of the loop of `Scheduler::run` on the
worker `thread_id`: `task.reset()`, the scan under the queue mutex, and
`tickle()` when `tickle_me`. The result is `task`, the active count and the
scheduler. -/
def Scheduler.select (q : Scheduler) (thread_id : Int) (active : Nat) :
    Except Fault (ScheduleTask × Nat × Scheduler) :=
  match Scheduler.scan thread_id q.m_tasks false active with
  | .error e => .error e
  | .ok (task, tasks, tickle_me, a) =>
    let q1 := { q with m_tasks := tasks }
    .ok (task, a, if tickle_me then { q1 with tickles := q1.tickles + 1 } else q1)

/-- A queue of three fiber tasks: the first pinned to worker 7, the others not
pinned. -/
def threeTasks : Scheduler :=
  { m_tasks := [ScheduleTask.ofFiber (some 1) 7, ScheduleTask.ofFiber (some 2) (-1),
      ScheduleTask.ofFiber (some 3) (-1)],
    tickles := 0 }

/-! ## Hooks (`src/hook/fdmanager.h`, `src/hook/fdmanager.cpp`, `src/hook/hook.cpp`)

An `int` that is a descriptor, a result or an error number is an integer; an
`int` that is a word of flags is the natural number of its 32-bit pattern. What
a hook does to the world outside the Fd Manager (calls of the original
functions, of the I/O manager and of the current fiber) is appended to a trace;
what the world answers is an argument of the model. -/

/-- `O_NONBLOCK` (Linux). -/
def O_NONBLOCK : Nat := 0x800
/-- `F_GETFL` (Linux). -/
def F_GETFL : Int := 3
/-- `F_SETFL` (Linux). -/
def F_SETFL : Int := 4
/-- `FIONBIO` (Linux). -/
def FIONBIO : Nat := 0x5421
/-- `SOL_SOCKET` (Linux). -/
def SOL_SOCKET : Int := 1
/-- `SO_RCVTIMEO` (Linux). -/
def SO_RCVTIMEO : Int := 20
/-- `SO_SNDTIMEO` (Linux). -/
def SO_SNDTIMEO : Int := 21
/-- `EINTR` (Linux). -/
def EINTR : Int := 4
/-- `EBADF` (Linux). -/
def EBADF : Int := 9
/-- `EAGAIN` (Linux). -/
def EAGAIN : Int := 11
/-- `ETIMEDOUT` (Linux). -/
def ETIMEDOUT : Int := 110
/-- `EINPROGRESS` (Linux). -/
def EINPROGRESS : Int := 115

/-- `FdCtx`. -/
structure FdCtx where
  m_isInit : Bool
  m_isSocket : Bool
  m_sysNonblock : Bool
  m_userNonblock : Bool
  m_isClosed : Bool
  m_fd : Int
  m_recvTimeout : Nat
  m_sendTimeout : Nat
  deriving DecidableEq, Repr

/-- `FdCtx::FdCtx(fd)` with the `init()` it runs. `stat` is the answer to
`fstat`: `.error e` when it returns -1 with `errno = e`, else `.ok b` with `b`
the value of `S_ISSOCK(st_mode)`. -/
def FdCtx.new (fd : Int) (stat : Except Int Bool) : FdCtx :=
  let isInit := match stat with
    | .error _ => false
    | .ok _ => true
  let isSocket := match stat with
    | .error _ => false
    | .ok b => b
  { m_isInit := isInit, m_isSocket := isSocket, m_sysNonblock := isSocket,
    m_userNonblock := false, m_isClosed := false, m_fd := fd,
    m_recvTimeout := UINT64_MAX, m_sendTimeout := UINT64_MAX }

/-- `FdCtx::setUserNonblock(v)`. -/
def FdCtx.setUserNonblock (c : FdCtx) (v : Bool) : FdCtx := { c with m_userNonblock := v }

/-- `FdCtx::setSysNonblock(v)`. -/
def FdCtx.setSysNonblock (c : FdCtx) (v : Bool) : FdCtx := { c with m_sysNonblock := v }

/-- `FdCtx::setTimeout(type, v)`. -/
def FdCtx.setTimeout (c : FdCtx) (type : Int) (v : Nat) : FdCtx :=
  if type = SO_RCVTIMEO then { c with m_recvTimeout := v } else { c with m_sendTimeout := v }

/-- `FdCtx::getTimeout(type)`. -/
def FdCtx.getTimeout (c : FdCtx) (type : Int) : Nat :=
  if type = SO_RCVTIMEO then c.m_recvTimeout else c.m_sendTimeout

/-- `FdManager`: the table `m_datas`; an empty slot is a null pointer. -/
structure FdManager where
  m_datas : List (Option FdCtx)
  deriving DecidableEq, Repr

/-- `FdManager::FdManager()`: 64 empty slots. -/
def FdManager.new : FdManager := { m_datas := List.replicate 64 none }

/-- The test `m_datas.size() <= fd`, made in `size_t`: a negative `fd` is
converted to a value above every size. -/
def FdManager.beyond (m : FdManager) (fd : Int) : Bool :=
  decide (fd < 0) || decide ((m.m_datas.length : Int) ≤ fd)

/-- `std::vector::resize(n)` on the table. -/
def FdManager.resize (m : FdManager) (n : Nat) : FdManager :=
  { m_datas := m.m_datas.take n ++ List.replicate (n - m.m_datas.length) none }

/-- `FdManager::get(fd, auto_create)`. `ctx` is the object
`std::make_shared<FdCtx>(fd)` builds when the function comes to it; the last
component of the result says whether it did. The table is resized to
`fd * 1.5`, truncated; a store outside the table is a fault, and so is the
resize for a negative `fd`. -/
def FdManager.get (m : FdManager) (fd : Int) (auto_create : Bool) (ctx : FdCtx) :
    Except Fault (Option FdCtx × FdManager × Bool) :=
  if fd = -1 then .ok (none, m, false)
  else if m.beyond fd && !auto_create then .ok (none, m, false)
  else if !m.beyond fd && ((m.m_datas.getD fd.toNat none).isSome || !auto_create) then
    .ok (m.m_datas.getD fd.toNat none, m, false)
  else if fd < 0 then .error .outOfRange
  else
    let m1 := if m.beyond fd then m.resize (fd.toNat * 3 / 2) else m
    if fd.toNat < m1.m_datas.length then
      .ok (some ctx, { m_datas := m1.m_datas.set fd.toNat (some ctx) }, true)
    else .error .outOfRange

/-- `FdManager::del(fd)`; the test `m_datas.size() <= fd` is made in `size_t`. -/
def FdManager.del (m : FdManager) (fd : Int) : FdManager :=
  if m.beyond fd then m else { m_datas := m.m_datas.set fd.toNat none }

/-- The functions `hook.cpp` replaces; `name_f` is the original of `name`. -/
inductive Orig where
  | sleep | usleep | nanosleep | socket | connect | accept
  | read | readv | recv | recvfrom | recvmsg
  | write | writev | send | sendto | sendmsg
  | close | fcntl | ioctl | getsockopt | setsockopt
  deriving DecidableEq, Repr

/-- What a hook does outside the Fd Manager. -/
inductive HookEffect where
  /-- A call `name_f(args...)` of an original function. -/
  | orig (fn : Orig) (args : List Int)
  /-- A call `fstat(fd, &statbuf)`. -/
  | fstat (fd : Int)
  /-- A call `iom->addEvent(fd, event)`. -/
  | addEvent (fd : Int) (event : Nat)
  /-- A call `iom->addConditionTimer(ms, cb, winfo)` for the event of `fd`. -/
  | addConditionTimer (ms : Nat) (fd : Int) (event : Nat)
  /-- A call `iom->addTimer(ms, cb)` whose callable schedules the current fiber. -/
  | addTimer (ms : Nat)
  /-- A call `timer->cancel()` on the timer added last. -/
  | cancelTimer
  /-- A call `iom->cancelAll(fd)`. -/
  | cancelAll (fd : Int)
  /-- A call `iom->cancelEvent(fd, event)`. -/
  | cancelEvent (fd : Int) (event : Nat)
  /-- A call `Fiber::getThis()->yield()`. -/
  | yield
  deriving DecidableEq, Repr

/-- The state the hooks read and write: the thread-local `t_hook_enable`, the
singleton `fdMgr`, `errno`, whether `IOManager::getThis()` is non-null, and the
trace of effects. -/
structure HookWorld where
  t_hook_enable : Bool
  fdMgr : FdManager
  errno : Int
  iom : Option Nat
  trace : List HookEffect
  deriving DecidableEq, Repr

/-- `is_hook_enable()`. -/
def is_hook_enable (w : HookWorld) : Bool := w.t_hook_enable

/-- `set_hook_enable(flag)`. -/
def set_hook_enable (w : HookWorld) (flag : Bool) : HookWorld := { w with t_hook_enable := flag }

/-- The answer of an original function: its result and `errno` after it. -/
structure Answer where
  n : Int
  errno : Int
  deriving DecidableEq, Repr

/-- The call `name_f(args...)`: appended to the trace, `errno` as the original
leaves it. -/
def HookWorld.call (w : HookWorld) (fn : Orig) (args : List Int) (a : Answer) : Int × HookWorld :=
  (a.n, { w with trace := w.trace ++ [.orig fn args], errno := a.errno })

/-- The calls `FdCtx::init()` makes for a new context: `fstat`, and for a
socket `fcntl_f(fd, F_GETFL, 0)`, answered by `flags`, then
`fcntl_f(fd, F_SETFL, flags | O_NONBLOCK)` when the bit is clear. -/
def FdCtx.initTrace (fd : Int) (stat : Except Int Bool) (flags : Nat) : List HookEffect :=
  [.fstat fd] ++
    (if (FdCtx.new fd stat).m_isSocket then
      [.orig .fcntl [fd, F_GETFL, 0]] ++
        (if flags &&& O_NONBLOCK = 0 then [.orig .fcntl [fd, F_SETFL, (flags ||| O_NONBLOCK : Nat)]]
         else [])
     else [])

/-- `fdMgr::getInstance().get(fd, auto_create)` from a hook. When a context
is built, the calls of `init()` go to the trace and a failing `fstat` leaves
its error number in `errno`; `errno` after the `fcntl_f` calls of `init()` is
taken to be unchanged. -/
def HookWorld.get (w : HookWorld) (fd : Int) (auto_create : Bool) (stat : Except Int Bool)
    (flags : Nat) : Except Fault (Option FdCtx × HookWorld) :=
  match w.fdMgr.get fd auto_create (FdCtx.new fd stat) with
  | .error e => .error e
  | .ok (c, m, built) =>
    if built then
      .ok (c, { w with fdMgr := m, trace := w.trace ++ FdCtx.initTrace fd stat flags,
                       errno := match stat with
                         | .error e => e
                         | .ok _ => w.errno })
    else .ok (c, { w with fdMgr := m })

/-- The context `fdMgr::getInstance().get(fd)` returns to a hook: the call
is made without `auto_create`, so that nothing is built and the table is left
as it is. -/
def HookWorld.ctx (w : HookWorld) (fd : Int) : Option FdCtx :=
  match w.fdMgr.get fd false (FdCtx.new fd (.ok false)) with
  | .ok r => r.1
  | .error _ => none

/-- The store through the `std::shared_ptr<FdCtx>` of `fd`: the object in the
table is the one the hook writes. -/
def HookWorld.setCtx (w : HookWorld) (fd : Int) (c : FdCtx) : HookWorld :=
  { w with fdMgr := { m_datas := w.fdMgr.m_datas.set fd.toNat (some c) } }

/-- What the world answers to one call `fun(fd, args...)` made by `do_io`:
the result and `errno`; then, if the hook goes on to them, the result `rt` of
`iom->addEvent` and the value of `tinfo->cancelled` when the fiber is resumed
after its `yield()`. -/
structure Attempt where
  n : Int
  errno : Int
  rt : Int
  cancelled : Int
  deriving DecidableEq, Repr

/-- A hook returning `name_f(args...)`: `none` when the world has no answer
left. -/
def HookWorld.forward (w : HookWorld) (fn : Orig) (args : List Int) :
    List Attempt → Option (Except Fault (Int × HookWorld))
  | [] => none
  | a :: _ => some (.ok (w.call fn args (Answer.mk a.n a.errno)))

/-- `do_io` from the label `retry` on. Each element of the list answers one
call of `fun`; `none` when the answers run out before `do_io` returns. `errno`
after the calls of the I/O manager is taken to be unchanged. -/
def do_io.retry (fd : Int) (fn : Orig) (event : Nat) (args : List Int) (timeout : Nat) :
    List Attempt → HookWorld → Option (Except Fault (Int × HookWorld))
  | [], _ => none
  | a :: env, w =>
    let w1 := { w with trace := w.trace ++ [.orig fn (fd :: args)], errno := a.errno }
    if a.n = -1 ∧ a.errno = EINTR then do_io.retry fd fn event args timeout env w1
    else if a.n = -1 ∧ a.errno = EAGAIN then
      match w1.iom with
      | none => some (.error .nullDeref)
      | some _ =>
        let timer := decide (timeout ≠ UINT64_MAX)
        let w2 := if timer
          then { w1 with trace := w1.trace ++ [.addConditionTimer timeout fd event] } else w1
        let w3 := { w2 with trace := w2.trace ++ [.addEvent fd event] }
        if a.rt ≠ 0 then
          some (.ok (-1, if timer then { w3 with trace := w3.trace ++ [.cancelTimer] } else w3))
        else
          let w4 := { w3 with trace := w3.trace ++ [.yield] }
          let w5 := if timer then { w4 with trace := w4.trace ++ [.cancelTimer] } else w4
          if a.cancelled = ETIMEDOUT then some (.ok (-1, { w5 with errno := a.cancelled }))
          else do_io.retry fd fn event args timeout env w5
    else some (.ok (a.n, w1))

/-- `do_io(fd, fun, hook_fun_name, event, timeout_so, args...)`; `fn` names the
original `fun`, `env` answers its successive calls. -/
def do_io (w : HookWorld) (fd : Int) (fn : Orig) (event : Nat) (timeout_so : Int)
    (args : List Int) (env : List Attempt) : Option (Except Fault (Int × HookWorld)) :=
  if !w.t_hook_enable then w.forward fn (fd :: args) env
  else
    match w.ctx fd with
    | none => w.forward fn (fd :: args) env
    | some ctx =>
      if ctx.m_isClosed then some (.ok (-1, { w with errno := EBADF }))
      else if !ctx.m_isSocket || ctx.m_userNonblock then w.forward fn (fd :: args) env
      else do_io.retry fd fn event args (ctx.getTimeout timeout_so) env w


/-! ### The hooked functions -/

/-- The 32-bit pattern of an `int`. -/
def toWord32 (n : Int) : Nat := (n % 4294967296).toNat

/-- `sleep(seconds)`; `a` answers `sleep_f`. -/
def sleep (w : HookWorld) (seconds : Nat) (a : Answer) : Except Fault (Int × HookWorld) :=
  if !w.t_hook_enable then .ok (w.call .sleep [seconds] a)
  else
    match w.iom with
    | none => .error .nullDeref
    | some _ =>
      .ok (0, { w with trace := w.trace ++ [.addTimer (seconds * 1000 % 4294967296), .yield] })

/-- `usleep(usec)`; `a` answers `usleep_f`. -/
def usleep (w : HookWorld) (usec : Nat) (a : Answer) : Except Fault (Int × HookWorld) :=
  if !w.t_hook_enable then .ok (w.call .usleep [usec] a)
  else
    match w.iom with
    | none => .error .nullDeref
    | some _ => .ok (0, { w with trace := w.trace ++ [.addTimer (usec / 1000), .yield] })

/-- `nanosleep(req, rem)`; `req` and `rem` are the pointers, `reqVal` the
`tv_sec` and `tv_nsec` that `req` points to (`none` for a null pointer), `a`
answers `nanosleep_f`. -/
def nanosleep (w : HookWorld) (req rem : Int) (reqVal : Option (Int × Int)) (a : Answer) :
    Except Fault (Int × HookWorld) :=
  if !w.t_hook_enable then .ok (w.call .nanosleep [req, rem] a)
  else
    match reqVal with
    | none => .error .nullDeref
    | some (tv_sec, tv_nsec) =>
      let timeout_ms : Int := toInt32 (toWord32 (tv_sec * 1000 + (tv_nsec.tdiv 1000).tdiv 1000))
      match w.iom with
      | none => .error .nullDeref
      | some _ => .ok (0, { w with trace := w.trace ++ [.addTimer (toUInt64 timeout_ms), .yield] })

/-- `socket(domain, type, protocol)`; `a` answers `socket_f`, `stat` and
`flags` answer the `init()` of a context built for the new descriptor. -/
def socket (w : HookWorld) (domain type protocol : Int) (a : Answer) (stat : Except Int Bool)
    (flags : Nat) : Except Fault (Int × HookWorld) :=
  if w.t_hook_enable then .ok (w.call .socket [domain, type, protocol] a)
  else
    let r := w.call .socket [domain, type, protocol] a
    if r.1 = -1 then .ok r
    else
      match r.2.get r.1 true stat flags with
      | .error e => .error e
      | .ok (_, w2) => .ok (r.1, w2)

/-- `getsockopt(sockfd, level, optname, optval, optlen)`; `a` answers
`getsockopt_f`. -/
def getsockopt (w : HookWorld) (sockfd level optname optval optlen : Int) (a : Answer) :
    Int × HookWorld :=
  w.call .getsockopt [sockfd, level, optname, optval, optlen] a

/-- `connect_with_timeout(fd, addr, addrlen, timeout_ms)`; `a` answers
`connect_f`, `rt` is the result of `iom->addEvent`, `cancelled` the value of
`tinfo->cancelled` when the fiber is resumed, `g` answers the `getsockopt` for
`SO_ERROR` (whose arguments `&error` and `&len` are written 0 in the trace)
and `error` is what it stores. -/
def connect_with_timeout (w : HookWorld) (fd addr addrlen : Int) (timeout_ms : Nat)
    (a : Answer) (rt cancelled : Int) (g : Answer) (error : Int) :
    Except Fault (Int × HookWorld) :=
  if !w.t_hook_enable then .ok (w.call .connect [fd, addr, addrlen] a)
  else
    match w.ctx fd with
    | none => .ok (-1, { w with errno := EBADF })
    | some ctx =>
      if ctx.m_isClosed then .ok (-1, { w with errno := EBADF })
      else if !ctx.m_isSocket then .ok (w.call .connect [fd, addr, addrlen] a)
      else if ctx.m_userNonblock then .ok (w.call .connect [fd, addr, addrlen] a)
      else
        let r := w.call .connect [fd, addr, addrlen] a
        if r.1 = 0 then .ok (0, r.2)
        else if r.1 ≠ -1 ∨ r.2.errno ≠ EINPROGRESS then .ok r
        else
          match r.2.iom with
          | none => .error .nullDeref
          | some _ =>
            let timer := decide (timeout_ms ≠ UINT64_MAX)
            let w2 := if timer
              then { r.2 with trace := r.2.trace ++ [.addConditionTimer timeout_ms fd WRITE] }
              else r.2
            let w3 := { w2 with trace := w2.trace ++ [.addEvent fd WRITE] }
            let w4 := if rt = 0 then { w3 with trace := w3.trace ++ [.yield] } else w3
            let w5 := if timer then { w4 with trace := w4.trace ++ [.cancelTimer] } else w4
            if rt = 0 ∧ cancelled ≠ 0 then .ok (-1, { w5 with errno := cancelled })
            else
              let r6 := getsockopt w5 fd SOL_SOCKET 4 0 0 g
              if r6.1 ≠ 0 then .ok (-1, r6.2)
              else if error = 0 then .ok (0, r6.2)
              else .ok (-1, { r6.2 with errno := error })

/-- `connect(sockfd, addr, addrlen)`: `s_connect_timeout` is `(uint64_t)-1`. -/
def connect (w : HookWorld) (sockfd addr addrlen : Int) (a : Answer) (rt cancelled : Int)
    (g : Answer) (error : Int) : Except Fault (Int × HookWorld) :=
  connect_with_timeout w sockfd addr addrlen UINT64_MAX a rt cancelled g error

/-- `accept(sockfd, addr, addrlen)`; `stat` and `flags` answer the `init()` of
a context built for the accepted descriptor. -/
def accept (w : HookWorld) (sockfd addr addrlen : Int) (env : List Attempt)
    (stat : Except Int Bool) (flags : Nat) : Option (Except Fault (Int × HookWorld)) :=
  match do_io w sockfd .accept READ SO_RCVTIMEO [addr, addrlen] env with
  | none => none
  | some (.error e) => some (.error e)
  | some (.ok (fd, w1)) =>
    if fd ≥ 0 then
      match w1.get fd true stat flags with
      | .error e => some (.error e)
      | .ok (_, w2) => some (.ok (fd, w2))
    else some (.ok (fd, w1))

/-- `read(fd, buf, count)`. -/
def read (w : HookWorld) (fd buf count : Int) (env : List Attempt) :
    Option (Except Fault (Int × HookWorld)) :=
  do_io w fd .read READ SO_RCVTIMEO [buf, count] env

/-- `readv(fd, iov, iovcnt)`. -/
def readv (w : HookWorld) (fd iov iovcnt : Int) (env : List Attempt) :
    Option (Except Fault (Int × HookWorld)) :=
  do_io w fd .readv READ SO_RCVTIMEO [iov, iovcnt] env

/-- `recv(sockfd, buf, len, flags)`. -/
def recv (w : HookWorld) (sockfd buf len flags : Int) (env : List Attempt) :
    Option (Except Fault (Int × HookWorld)) :=
  do_io w sockfd .recv READ SO_RCVTIMEO [buf, len, flags] env

/-- `recvfrom(sockfd, buf, len, flags, src_addr, addrlen)`. -/
def recvfrom (w : HookWorld) (sockfd buf len flags src_addr addrlen : Int) (env : List Attempt) :
    Option (Except Fault (Int × HookWorld)) :=
  do_io w sockfd .recvfrom READ SO_RCVTIMEO [buf, len, flags, src_addr, addrlen] env

/-- `recvmsg(sockfd, msg, flags)`. -/
def recvmsg (w : HookWorld) (sockfd msg flags : Int) (env : List Attempt) :
    Option (Except Fault (Int × HookWorld)) :=
  do_io w sockfd .recvmsg READ SO_RCVTIMEO [msg, flags] env

/-- `write(fd, buf, count)`. -/
def write (w : HookWorld) (fd buf count : Int) (env : List Attempt) :
    Option (Except Fault (Int × HookWorld)) :=
  do_io w fd .write WRITE SO_SNDTIMEO [buf, count] env

/-- `writev(fd, iov, iovcnt)`. -/
def writev (w : HookWorld) (fd iov iovcnt : Int) (env : List Attempt) :
    Option (Except Fault (Int × HookWorld)) :=
  do_io w fd .writev WRITE SO_SNDTIMEO [iov, iovcnt] env

/-- `send(sockfd, buf, len, flags)`. -/
def send (w : HookWorld) (sockfd buf len flags : Int) (env : List Attempt) :
    Option (Except Fault (Int × HookWorld)) :=
  do_io w sockfd .send WRITE SO_SNDTIMEO [buf, len, flags] env

/-- `sendto(sockfd, buf, len, flags, dest_addr, addrlen)`. -/
def sendto (w : HookWorld) (sockfd buf len flags dest_addr addrlen : Int) (env : List Attempt) :
    Option (Except Fault (Int × HookWorld)) :=
  do_io w sockfd .sendto WRITE SO_SNDTIMEO [buf, len, flags, dest_addr, addrlen] env

/-- `sendmsg(sockfd, msg, flags)`. -/
def sendmsg (w : HookWorld) (sockfd msg flags : Int) (env : List Attempt) :
    Option (Except Fault (Int × HookWorld)) :=
  do_io w sockfd .sendmsg WRITE SO_SNDTIMEO [msg, flags] env

/-- `close(fd)`; `a` answers `close_f`. -/
def close (w : HookWorld) (fd : Int) (a : Answer) : Int × HookWorld :=
  if !w.t_hook_enable then w.call .close [fd] a
  else
    match w.ctx fd with
    | some _ =>
      let w1 : HookWorld := match w.iom with
        | some _ => { w with trace := w.trace ++ [HookEffect.cancelAll fd] }
        | none => w
      HookWorld.call { w1 with fdMgr := w1.fdMgr.del fd } .close [fd] a
    | none => w.call .close [fd] a

/-- The commands for which `fcntl` reads its third argument and passes it on
(Linux values): `F_DUPFD`, `F_DUPFD_CLOEXEC`, `F_SETFD`, `F_SETOWN`,
`F_SETSIG`, `F_SETLEASE`, `F_NOTIFY`, `F_SETPIPE_SZ`; `F_SETLK`, `F_SETLKW`,
`F_GETLK`; `F_GETOWN_EX`, `F_SETOWN_EX`. -/
def fcntlPassesArg (cmd : Int) : Bool :=
  decide (cmd ∈ [0, 1030, 2, 8, 10, 1024, 1026, 1031, 6, 7, 5, 16, 15])

/-- `fcntl(fd, cmd, arg)`; `arg` is the pattern of the third argument, `a`
answers `fcntl_f`. -/
def fcntl (w : HookWorld) (fd cmd : Int) (arg : Nat) (a : Answer) : Int × HookWorld :=
  if cmd = F_SETFL then
    match w.ctx fd with
    | none => w.call .fcntl [fd, cmd, arg] a
    | some ctx =>
      if ctx.m_isClosed || !ctx.m_isSocket then w.call .fcntl [fd, cmd, arg] a
      else
        let ctx1 := ctx.setUserNonblock (decide (arg &&& O_NONBLOCK ≠ 0))
        let arg1 := if ctx1.m_sysNonblock then arg ||| O_NONBLOCK else andNot arg O_NONBLOCK
        (w.setCtx fd ctx1).call .fcntl [fd, cmd, arg1] a
  else if cmd = F_GETFL then
    let r := w.call .fcntl [fd, cmd] a
    match r.2.ctx fd with
    | none => r
    | some ctx =>
      if ctx.m_isClosed || !ctx.m_isSocket then r
      else if ctx.m_userNonblock then (toInt32 (toWord32 r.1 ||| O_NONBLOCK), r.2)
      else (toInt32 (andNot (toWord32 r.1) O_NONBLOCK), r.2)
  else if fcntlPassesArg cmd then w.call .fcntl [fd, cmd, arg] a
  else w.call .fcntl [fd, cmd] a

/-- `ioctl(fd, request, arg)`; `arg` is the pointer, `argVal` the `int` it
points to (`none` for a null pointer), `a` answers `ioctl_f`. -/
def ioctl (w : HookWorld) (fd : Int) (request : Nat) (arg : Int) (argVal : Option Int)
    (a : Answer) : Except Fault (Int × HookWorld) :=
  if FIONBIO = request then
    match argVal with
    | none => .error .nullDeref
    | some v =>
      let user_nonblock := decide (v ≠ 0)
      match w.ctx fd with
      | none => .ok (w.call .ioctl [fd, request, arg] a)
      | some ctx =>
        if ctx.m_isClosed || !ctx.m_isSocket then .ok (w.call .ioctl [fd, request, arg] a)
        else .ok ((w.setCtx fd (ctx.setUserNonblock user_nonblock)).call .ioctl
          [fd, request, arg] a)
  else .ok (w.call .ioctl [fd, request, arg] a)

/-- `setsockopt(sockfd, level, optname, optval, optlen)`; `optval` is the
pointer, `tv` the `tv_sec` and `tv_usec` it points to (`none` for a null
pointer), `a` answers `setsockopt_f`. -/
def setsockopt (w : HookWorld) (sockfd level optname optval optlen : Int)
    (tv : Option (Int × Int)) (a : Answer) : Except Fault (Int × HookWorld) :=
  if !w.t_hook_enable then .ok (w.call .setsockopt [sockfd, level, optname, optval, optlen] a)
  else if level = SOL_SOCKET ∧ (optname = SO_RCVTIMEO ∨ optname = SO_SNDTIMEO) then
    match w.ctx sockfd with
    | none => .ok (w.call .setsockopt [sockfd, level, optname, optval, optlen] a)
    | some ctx =>
      match tv with
      | none => .error .nullDeref
      | some (tv_sec, tv_usec) =>
        let v := toUInt64 (tv_sec * 1000 + tv_usec.tdiv 1000)
        .ok ((w.setCtx sockfd (ctx.setTimeout optname v)).call .setsockopt
          [sockfd, level, optname, optval, optlen] a)
  else .ok (w.call .setsockopt [sockfd, level, optname, optval, optlen] a)

/-- A thread with hooks disabled, the Fd Manager as constructed, no I/O
manager, nothing done yet. -/
def hookStart : HookWorld :=
  { t_hook_enable := false, fdMgr := FdManager.new, errno := 0, iom := none, trace := [] }

/-- The world `hookStart` with descriptor 5 tracked as a socket. -/
def hookSocket5 : HookWorld :=
  { hookStart with fdMgr := { m_datas := FdManager.new.m_datas.set 5 (some (FdCtx.new 5 (.ok true))) } }

/-- The world `hookStart` with hooks enabled. -/
def hookEnabled : HookWorld := set_hook_enable hookStart true

/-- The world `hookEnabled` with descriptor 5 tracked as a regular file. -/
def hookFile5 : HookWorld :=
  { hookEnabled with
    fdMgr := { m_datas := FdManager.new.m_datas.set 5 (some (FdCtx.new 5 (.ok false))) } }

/-! ### The deadline of a hooked I/O (`do_io`, `onTimer`, `addConditionTimer`) -/

/-- `struct timer_info` of `hook.cpp`. -/
structure timer_info where
  cancelled : Int
  deriving DecidableEq, Repr

/-- `onTimer(weak_cond, cb)` of `timer.cpp`: `cb` runs when `weak_cond.lock()`
is non-null; `alive` says whether it is. -/
def onTimer {σ : Type} (alive : Bool) (cb : σ → σ) (s : σ) : σ :=
  if alive then cb s else s

/-- `TimerManager::addConditionTimer(ms, cb, weak_cond, recurring)`:
`addTimer` with the callable `std::bind(&onTimer, weak_cond, cb)`, which keeps
the name of `cb` here. -/
def TimerManager.addConditionTimer (tm : TimerManager) (ms : Nat) (cb : Option Nat)
    (recurring : Bool) (now : Int) : Nat × Bool × TimerManager :=
  tm.addTimer ms cb recurring now

/-- The callable `do_io` hands to `addConditionTimer`. The state is what
`winfo.lock()` gives (the `timer_info` of the call, `none` once it is gone) and
the trace. -/
def do_io.onTimeout (fd : Int) (event : Nat) (st : Option timer_info × List HookEffect) :
    Option timer_info × List HookEffect :=
  match st.1 with
  | none => st
  | some t =>
    if t.cancelled ≠ 0 then st
    else (some { cancelled := ETIMEDOUT }, st.2 ++ [.cancelEvent fd event])

/-- What the timer added by `do_io` runs when it fires: `onTimer` with the
weak pointer `winfo` as condition and `do_io.onTimeout` as callable. -/
def do_io.deadline (fd : Int) (event : Nat) (st : Option timer_info × List HookEffect) :
    Option timer_info × List HookEffect :=
  onTimer st.1.isSome (do_io.onTimeout fd event) st

/-- The world `hookEnabled` with an I/O manager and descriptor 5 tracked as a
socket whose receive timeout is 1000 ms. -/
def hookTimed5 : HookWorld :=
  { hookEnabled with
    iom := some 0,
    fdMgr := FdManager.mk (FdManager.new.m_datas.set 5
      (some ((FdCtx.new 5 (.ok true)).setTimeout SO_RCVTIMEO 1000))) }

/-! ### Runs of timer calls -/

/-- A run of calls `addTimer(ms, cb, recurring)`, each with its clock reading:
how many of them call `onTimerInsertedAtFront()`, and the manager after the
last. -/
def TimerManager.addTimers (tm : TimerManager) :
    List (Nat × Option Nat × Bool × Int) → Nat × TimerManager
  | [] => (0, tm)
  | (ms, cb, recurring, now) :: rest =>
    let r := tm.addTimer ms cb recurring now
    let q := TimerManager.addTimers r.2.2 rest
    ((if r.2.1 then 1 else 0) + q.1, q.2)

/-- The set `oneShot` after `addTimer(5, cb 2)` at clock reading 0: the new
timer, handle 1, has the `m_next` of the first and is not in the set. -/
def oneShotTied : TimerManager :=
  { heap := [Timer.mk false 5 5000000 (some 1), Timer.mk false 5 5000000 (some 2)],
    m_timers := [0], m_tickled := true, m_previousTime := 0 }

/-- One recurring timer of period 0, due at 5 ms, callable 1. -/
def zeroPeriod : TimerManager :=
  { heap := [Timer.mk true 0 5000000 (some 1)],
    m_timers := [0], m_tickled := false, m_previousTime := 5000000 }

/-! ### Registrations made on threads that have a scheduler -/

/-- A slot that is empty or records a scheduler. -/
def EventContext.Sched (e : EventContext) : Prop :=
  e = EventContext.empty ∨ e.scheduler.isSome

/-- Both slots of an `FdContext` are empty or record a scheduler. -/
def FdContext.Sched (c : FdContext) : Prop := c.read.Sched ∧ c.write.Sched

/-- The states of `Reachable` in which every `addEvent` was called on a thread
whose `Scheduler::getThis()` is not null. -/
inductive ReachableOn : IOManager → Prop where
  | new (tickle_fd : Int) (scheds : List Scheduler) :
      ReachableOn (IOManager.new tickle_fd scheds)
  | addEvent {s s1 : IOManager} {r : Int} (fd : Int) (event : Nat) (cb : Option Nat)
      (tl : ThreadLocal) (rt : Int) :
      ReachableOn s → growTo fd ≤ 2147483647 → tl.t_scheduler.isSome →
      s.addEvent fd event cb tl rt = .ok (r, s1) → ReachableOn s1
  | delEvent {s s1 : IOManager} {r : Bool} (fd : Int) (event : Nat) (rt : Int) :
      ReachableOn s → s.delEvent fd event rt = .ok (r, s1) → ReachableOn s1
  | cancelEvent {s s1 : IOManager} {r : Bool} (fd : Int) (event : Nat) (rt : Int) :
      ReachableOn s → s.cancelEvent fd event rt = .ok (r, s1) → ReachableOn s1
  | cancelAll {s s1 : IOManager} {r : Bool} (fd : Int) (rt : Int) :
      ReachableOn s → s.cancelAll fd rt = .ok (r, s1) → ReachableOn s1
  | idle {s s1 : IOManager} (event : EpollEvent) (rt2 : Int) :
      ReachableOn s → s.idleEvent event rt2 = .ok s1 → ReachableOn s1
  | run {s : IOManager} (scheds : List Scheduler) :
      ReachableOn s → ReachableOn { s with schedulers := scheds }

/-! ### The states the hooks reach -/

/-- One call of `set_hook_enable` or of a hooked function, with its arguments
and the answers of the world. `generic` is a call of `do_io`, which the hooks
`read`, `readv`, `recv`, `recvfrom`, `recvmsg`, `write`, `writev`, `send`,
`sendto` and `sendmsg` consist of. -/
inductive HookCall where
  | set_hook_enable (flag : Bool)
  | sleep (seconds : Nat) (a : Answer)
  | usleep (usec : Nat) (a : Answer)
  | nanosleep (req rem : Int) (reqVal : Option (Int × Int)) (a : Answer)
  | socket (domain type protocol : Int) (a : Answer) (stat : Except Int Bool) (flags : Nat)
  | connect (sockfd addr addrlen : Int) (a : Answer) (rt cancelled : Int) (g : Answer)
      (error : Int)
  | accept (sockfd addr addrlen : Int) (env : List Attempt) (stat : Except Int Bool)
      (flags : Nat)
  | generic (fd : Int) (fn : Orig) (event : Nat) (timeout_so : Int) (args : List Int)
      (env : List Attempt)
  | close (fd : Int) (a : Answer)
  | fcntl (fd cmd : Int) (arg : Nat) (a : Answer)
  | ioctl (fd : Int) (request : Nat) (arg : Int) (argVal : Option Int) (a : Answer)
  | getsockopt (sockfd level optname optval optlen : Int) (a : Answer)
  | setsockopt (sockfd level optname optval optlen : Int) (tv : Option (Int × Int))
      (a : Answer)

/-- The call made in the world `w`: `none` when the answers run out, a fault
when the process is ended, else the result and the world after the call. -/
def HookWorld.step (w : HookWorld) : HookCall → Option (Except Fault (Int × HookWorld))
  | .set_hook_enable flag => some (.ok (0, coroutine.set_hook_enable w flag))
  | .sleep seconds a => some (coroutine.sleep w seconds a)
  | .usleep usec a => some (coroutine.usleep w usec a)
  | .nanosleep req rem reqVal a => some (coroutine.nanosleep w req rem reqVal a)
  | .socket domain type protocol a stat flags =>
    some (coroutine.socket w domain type protocol a stat flags)
  | .connect sockfd addr addrlen a rt cancelled g error =>
    some (coroutine.connect w sockfd addr addrlen a rt cancelled g error)
  | .accept sockfd addr addrlen env stat flags =>
    coroutine.accept w sockfd addr addrlen env stat flags
  | .generic fd fn event timeout_so args env => do_io w fd fn event timeout_so args env
  | .close fd a => some (.ok (coroutine.close w fd a))
  | .fcntl fd cmd arg a => some (.ok (coroutine.fcntl w fd cmd arg a))
  | .ioctl fd request arg argVal a => some (coroutine.ioctl w fd request arg argVal a)
  | .getsockopt sockfd level optname optval optlen a =>
    some (.ok (coroutine.getsockopt w sockfd level optname optval optlen a))
  | .setsockopt sockfd level optname optval optlen tv a =>
    some (coroutine.setsockopt w sockfd level optname optval optlen tv a)

/-- The worlds a thread reaches: it starts with the Fd Manager as constructed,
any value of the hook flag and any I/O manager, and makes returning calls. -/
inductive HookReach : HookWorld → Prop where
  | start (flag : Bool) (iom : Option Nat) :
      HookReach { t_hook_enable := flag, fdMgr := FdManager.new, errno := 0, iom := iom,
                  trace := [] }
  | step {w w1 : HookWorld} {r : Int} (call : HookCall) :
      HookReach w → w.step call = some (.ok (r, w1)) → HookReach w1

/-- No context of the table has `m_isClosed` set. -/
def FdManager.NoneClosed (m : FdManager) : Prop :=
  ∀ c, some c ∈ m.m_datas → c.m_isClosed = false

/-- The world a thread is in after `socket(2, 1, 0)` with hooks disabled
returned descriptor 5, a socket whose flags were 0, and
`set_hook_enable(true)`. -/
def hookTracked5 : HookWorld :=
  { t_hook_enable := true,
    fdMgr := FdManager.mk (FdManager.new.m_datas.set 5 (some (FdCtx.new 5 (.ok true)))),
    errno := 0, iom := none,
    trace := [.orig .socket [2, 1, 0], .fstat 5, .orig .fcntl [5, F_GETFL, 0],
      .orig .fcntl [5, F_SETFL, (O_NONBLOCK : Nat)]] }

end coroutine

/-! ## Theorems -/

namespace coroutine

theorem mask_clear_read {m : Nat} (h : IsMask m) :
    IsMask (andNot m READ) ∧ andNot m READ &&& READ = 0 ∧
      andNot m READ &&& WRITE = m &&& WRITE ∧
      (m &&& READ ≠ 0 → registeredIn (andNot m READ) + 1 = registeredIn m) ∧
      (m &&& READ = 0 → andNot m READ = m) := by
  rcases h with rfl | rfl | rfl | rfl <;> decide

theorem mask_clear_write {m : Nat} (h : IsMask m) :
    IsMask (andNot m WRITE) ∧ andNot m WRITE &&& WRITE = 0 ∧
      andNot m WRITE &&& READ = m &&& READ ∧
      (m &&& WRITE ≠ 0 → registeredIn (andNot m WRITE) + 1 = registeredIn m) ∧
      (m &&& WRITE = 0 → andNot m WRITE = m) := by
  rcases h with rfl | rfl | rfl | rfl <;> decide

theorem mask_set_read {m : Nat} (h : IsMask m) :
    IsMask (m ||| READ) ∧ (m ||| READ) &&& READ ≠ 0 ∧
      (m ||| READ) &&& WRITE = m &&& WRITE ∧
      (m &&& READ = 0 → registeredIn (m ||| READ) = registeredIn m + 1) ∧
      (m &&& READ = 0 → andNot (m ||| READ) READ = m) := by
  rcases h with rfl | rfl | rfl | rfl <;> decide

theorem mask_set_write {m : Nat} (h : IsMask m) :
    IsMask (m ||| WRITE) ∧ (m ||| WRITE) &&& WRITE ≠ 0 ∧
      (m ||| WRITE) &&& READ = m &&& READ ∧
      (m &&& WRITE = 0 → registeredIn (m ||| WRITE) = registeredIn m + 1) ∧
      (m &&& WRITE = 0 → andNot (m ||| WRITE) WRITE = m) := by
  rcases h with rfl | rfl | rfl | rfl <;> decide

theorem getEventContext_ok {c : FdContext} {event : Nat} {ctx : EventContext}
    (h : c.getEventContext event = .ok ctx) :
    (event = READ ∧ ctx = c.read) ∨ (event = WRITE ∧ ctx = c.write) := by
  unfold FdContext.getEventContext at h
  split at h
  · cases h; exact Or.inl ⟨by assumption, rfl⟩
  · split at h
    · cases h; exact Or.inr ⟨by assumption, rfl⟩
    · cases h

theorem setEventContext_read (c : FdContext) (e : EventContext) :
    c.setEventContext READ e = { c with read := e } := rfl

theorem setEventContext_write (c : FdContext) (e : EventContext) :
    c.setEventContext WRITE e = { c with write := e } := rfl

theorem toInt32_of_le {n : Nat} (h : n ≤ 2147483647) : toInt32 n = (n : Int) := by
  unfold toInt32
  have h1 : n % 4294967296 = n := Nat.mod_eq_of_lt (by omega)
  rw [h1, if_pos (by omega)]

theorem scheduleOn_ok {scheds scheds1 : List Scheduler} {p : Option Nat} {t : ScheduleTask}
    (h : scheduleOn scheds p t = .ok scheds1) :
    ∃ i q, p = some i ∧ scheds[i]? = some q ∧ scheds1 = scheds.set i (q.scheduleLock t) := by
  unfold scheduleOn at h
  split at h
  · cases h
  · split at h
    · cases h
    · cases h; exact ⟨_, _, rfl, by assumption, rfl⟩

theorem triggerEvent_ok {c c1 : FdContext} {event : Nat} {scheds scheds1 : List Scheduler}
    (hc : CtxOk c) (h : c.triggerEvent event scheds = .ok (c1, scheds1)) :
    (event = READ ∨ event = WRITE) ∧ c.events &&& event ≠ 0 ∧
      c1 = (FdContext.mk c.read c.write c.fd (andNot c.events event)).setEventContext event
        EventContext.empty ∧ CtxOk c1 ∧
      registeredIn c1.events + 1 = registeredIn c.events := by
  unfold FdContext.triggerEvent at h
  split at h
  · cases h
  · dsimp only at h
    split at h
    · cases h
    · rename_i ctx hctx
      split at h
      · cases h
      · rename_i s1 hs
        cases h
        obtain ⟨i, q, hp, -, -⟩ := scheduleOn_ok hs
        rcases getEventContext_ok hctx with ⟨rfl, rfl⟩ | ⟨rfl, rfl⟩
        · have hbit : c.events &&& READ ≠ 0 := by
            intro hz
            have := hc.read hz
            dsimp only at hp
            rw [this] at hp
            cases hp
          obtain ⟨f1, f2, f3, f4, -⟩ := mask_clear_read hc.mask
          exact ⟨Or.inl rfl, hbit, rfl, ⟨f1, fun _ => rfl,
            fun hz => hc.write (by rw [← f3]; exact hz), fun hz => absurd f2 hz,
            fun hz => hc.write_armed (by rw [← f3]; exact hz)⟩, f4 hbit⟩
        · have hbit : c.events &&& WRITE ≠ 0 := by
            intro hz
            have := hc.write hz
            dsimp only at hp
            rw [this] at hp
            cases hp
          obtain ⟨f1, f2, f3, f4, -⟩ := mask_clear_write hc.mask
          exact ⟨Or.inr rfl, hbit, rfl, ⟨f1, fun hz => hc.read (by rw [← f3]; exact hz),
            fun _ => rfl, fun hz => hc.read_armed (by rw [← f3]; exact hz),
            fun hz => absurd f2 hz⟩, f4 hbit⟩

theorem registeredIn_le (m : Nat) : registeredIn m ≤ 2 := by
  unfold registeredIn
  split <;> split <;> omega

theorem sum_registered_le (l : List FdContext) :
    (l.map fun c => registeredIn c.events).sum ≤ 2 * l.length := by
  induction l with
  | nil => simp
  | cons c l ih =>
    have := registeredIn_le c.events
    simp only [List.map_cons, List.sum_cons, List.length_cons]
    omega

theorem sum_registered_set (l : List FdContext) (i : Nat) (c c1 : FdContext)
    (h : l[i]? = some c) :
    ((l.set i c1).map fun c => registeredIn c.events).sum + registeredIn c.events =
      (l.map fun c => registeredIn c.events).sum + registeredIn c1.events := by
  induction l generalizing i with
  | nil => simp at h
  | cons d l ih =>
    cases i with
    | zero =>
      simp only [List.getElem?_cons_zero, Option.some.injEq] at h
      subst h
      simp only [List.set_cons_zero, List.map_cons, List.sum_cons]
      omega
    | succ i =>
      simp only [List.getElem?_cons_succ] at h
      have := ih i h
      simp only [List.set_cons_succ, List.map_cons, List.sum_cons]
      omega

theorem ctxOk_fresh (i : Nat) : CtxOk (FdContext.fresh i) :=
  ⟨Or.inl rfl, fun _ => rfl, fun _ => rfl,
    fun h => absurd (show (0 : Nat) &&& READ = 0 by decide) h,
    fun h => absurd (show (0 : Nat) &&& WRITE = 0 by decide) h⟩

theorem Inv.set {s : IOManager} (h : Inv s) {i : Nat} {c c1 : FdContext}
    (hget : s.m_fd_contexts[i]? = some c) (hc : CtxOk c1) (cnt : Nat)
    (hcnt : cnt + registeredIn c.events = s.m_pending_event_count + registeredIn c1.events)
    (ep : List EpollCtl) (sch : List Scheduler) :
    Inv (IOManager.mk (s.m_fd_contexts.set i c1) cnt ep sch) := by
  refine ⟨by simpa using h.size_lo, by simpa using h.size_hi, ?_, ?_⟩
  · intro d hd
    rcases List.mem_or_eq_of_mem_set hd with hd | rfl
    · exact h.ctx d hd
    · exact hc
  · have := sum_registered_set s.m_fd_contexts i c c1 hget
    have hc0 := h.count
    unfold IOManager.registeredPairs at hc0 ⊢
    dsimp only
    omega

theorem Inv.contextResize {s : IOManager} (h : Inv s) {n : Nat}
    (hlo : s.m_fd_contexts.length ≤ n) (hhi : n ≤ 2147483647) : Inv (s.contextResize n) := by
  unfold IOManager.contextResize
  dsimp only
  split
  · rename_i hle
    have : n = s.m_fd_contexts.length := by omega
    subst this
    rw [List.take_length]
    exact h
  · rename_i hlt
    refine ⟨?_, ?_, ?_, ?_⟩
    · simp; have := h.size_lo; omega
    · simp; omega
    · intro c hc
      rcases List.mem_append.1 hc with hc | hc
      · exact h.ctx c hc
      · obtain ⟨i, -, rfl⟩ := List.mem_map.1 hc
        exact ctxOk_fresh i
    · have hc0 := h.count
      unfold IOManager.registeredPairs at hc0 ⊢
      dsimp only
      rw [List.map_append, List.sum_append, List.map_map]
      have : ((List.range' s.m_fd_contexts.length (n - s.m_fd_contexts.length)).map
          ((fun c => registeredIn c.events) ∘ FdContext.fresh)).sum = 0 := by
        apply List.sum_eq_zero
        intro x hx
        obtain ⟨i, -, rfl⟩ := List.mem_map.1 hx
        show registeredIn 0 = 0
        decide
      omega

theorem Inv.count_le {s : IOManager} (h : Inv s) : s.m_pending_event_count ≤ 4294967294 := by
  have := sum_registered_le s.m_fd_contexts
  have h1 := h.count
  have h2 := h.size_hi
  unfold IOManager.registeredPairs at h1
  omega

theorem Inv.new (tickle_fd : Int) (scheds : List Scheduler) : Inv (IOManager.new tickle_fd scheds) := by
  have hl : (IOManager.new tickle_fd scheds).m_fd_contexts =
      (List.range' 0 32).map FdContext.fresh := rfl
  refine ⟨?_, ?_, ?_, ?_⟩
  · rw [hl]; decide
  · rw [hl]; decide
  · intro c hc
    rw [hl] at hc
    obtain ⟨i, -, rfl⟩ := List.mem_map.1 hc
    exact ctxOk_fresh i
  · unfold IOManager.registeredPairs
    rw [hl]
    show 0 = _
    decide

theorem ctxAt_ok {s : IOManager} {fd : Int} {c : FdContext} (h : s.ctxAt fd = .ok c) :
    0 ≤ fd ∧ s.m_fd_contexts[fd.toNat]? = some c := by
  unfold IOManager.ctxAt at h
  split at h
  · cases h
  · split at h
    · cases h; exact ⟨by omega, by assumption⟩
    · cases h

theorem incr64_of_lt {n : Nat} (h : n < 18446744073709551615) : incr64 n = n + 1 := by
  unfold incr64; omega

theorem decr64_of_pos {n : Nat} (h0 : 0 < n) (h : n ≤ 18446744073709551615) :
    decr64 n = n - 1 := by
  unfold decr64
  rw [if_neg (by omega)]

theorem Inv.epoll {s : IOManager} (h : Inv s) (op : Nat) (fd : Int) (ev : Nat) :
    Inv (s.epoll_ctl op fd ev) := ⟨h.size_lo, h.size_hi, h.ctx, h.count⟩

theorem Inv.grown {s : IOManager} (h : Inv s) {fd : Int} (hg : growTo fd ≤ 2147483647) :
    Inv (if toInt32 s.m_fd_contexts.length > fd then s else s.contextResize (growTo fd)) := by
  split
  · exact h
  · rename_i hlt
    rw [toInt32_of_le h.size_hi] at hlt
    apply h.contextResize _ hg
    unfold growTo
    omega

theorem Inv.store {s0 : IOManager} (h0 : Inv s0) {fd : Int} {event : Nat} {fd_ctx : FdContext}
    (hget : s0.m_fd_contexts[fd.toNat]? = some fd_ctx) (hbit : fd_ctx.events &&& event = 0)
    (hev : event = READ ∨ event = WRITE) (e : EventContext) (he : e.Armed) :
    Inv ((IOManager.mk
      (s0.epoll_ctl (if fd_ctx.events ≠ 0 then EPOLL_CTL_MOD else EPOLL_CTL_ADD) fd
        (EPOLLET ||| fd_ctx.events ||| event)).m_fd_contexts
      (incr64 s0.m_pending_event_count)
      (s0.epoll_ctl (if fd_ctx.events ≠ 0 then EPOLL_CTL_MOD else EPOLL_CTL_ADD) fd
        (EPOLLET ||| fd_ctx.events ||| event)).epoll
      (s0.epoll_ctl (if fd_ctx.events ≠ 0 then EPOLL_CTL_MOD else EPOLL_CTL_ADD) fd
        (EPOLLET ||| fd_ctx.events ||| event)).schedulers).setCtx fd
      ((FdContext.mk fd_ctx.read fd_ctx.write fd_ctx.fd
        (fd_ctx.events ||| event)).setEventContext event e)) := by
  have hc := h0.ctx _ (List.getElem?_mem hget)
  have hcnt := h0.count_le
  apply h0.set hget
  · rcases hev with rfl | rfl
    · obtain ⟨f1, f2, f3, -, -⟩ := mask_set_read hc.mask
      rw [setEventContext_read]
      refine ⟨f1, fun hz => absurd hz f2, fun hz => hc.write ?_, fun _ => he,
        fun hz => hc.write_armed ?_⟩
      · rw [← f3]; exact hz
      · rw [← f3]; exact hz
    · obtain ⟨f1, f2, f3, -, -⟩ := mask_set_write hc.mask
      rw [setEventContext_write]
      refine ⟨f1, fun hz => hc.read ?_, fun hz => absurd hz f2,
        fun hz => hc.read_armed ?_, fun _ => he⟩
      · rw [← f3]; exact hz
      · rw [← f3]; exact hz
  · rw [incr64_of_lt (by omega)]
    rcases hev with rfl | rfl
    · obtain ⟨-, -, -, f4, -⟩ := mask_set_read hc.mask
      have := f4 hbit
      simp only [setEventContext_read]
      omega
    · obtain ⟨-, -, -, f4, -⟩ := mask_set_write hc.mask
      have := f4 hbit
      simp only [setEventContext_write]
      omega

theorem addEvent_inv {s s1 : IOManager} {fd : Int} {event : Nat} {cb : Option Nat}
    {tl : ThreadLocal} {rt r : Int} (h : Inv s) (hg : growTo fd ≤ 2147483647)
    (hok : s.addEvent fd event cb tl rt = .ok (r, s1)) : Inv s1 := by
  unfold IOManager.addEvent at hok
  have h0 := h.grown hg
  generalize (if toInt32 s.m_fd_contexts.length > fd then s
    else s.contextResize (growTo fd)) = s0 at hok h0
  dsimp only at hok
  split at hok
  · cases hok
  · rename_i fd_ctx hctx
    obtain ⟨hfd, hget⟩ := ctxAt_ok hctx
    split at hok
    · cases hok; exact h0
    · rename_i hbit
      simp only [ne_eq, not_not] at hbit
      split at hok
      · cases hok
      · rename_i ectx hectx
        have hev : event = READ ∨ event = WRITE := by
          rcases getEventContext_ok hectx with ⟨e1, -⟩ | ⟨e1, -⟩
          · exact Or.inl e1
          · exact Or.inr e1
        split at hok
        · cases hok
        · rename_i hempty
          have hfib : ectx.fiber = none :=
            Option.not_isSome_iff_eq_none.1 fun hx => hempty (Or.inr (Or.inl hx))
          have hcb0 : ectx.cb = none :=
            Option.not_isSome_iff_eq_none.1 fun hx => hempty (Or.inr (Or.inr hx))
          split at hok
          · rename_i hcb
            cases hok
            exact h0.store hget hbit hev _ (Or.inl ⟨hcb, hfib⟩)
          · split at hok
            · cases hok
              exact h0.store hget hbit hev _ (Or.inr ⟨hcb0, rfl⟩)
            · cases hok

theorem Inv.registered_le {s : IOManager} (h : Inv s) {i : Nat} {c : FdContext}
    (hget : s.m_fd_contexts[i]? = some c) : registeredIn c.events ≤ s.m_pending_event_count := by
  have := sum_registered_set s.m_fd_contexts i c (FdContext.fresh 0) hget
  have h0 : registeredIn (FdContext.fresh 0).events = 0 := by decide
  have hc0 := h.count
  unfold IOManager.registeredPairs at hc0
  omega

theorem fireIf_ok {cond : Bool} {event : Nat} {c c1 : FdContext} {scheds scheds1 : List Scheduler}
    {cnt cnt1 : Nat} (hc : CtxOk c) (hle : registeredIn c.events ≤ cnt)
    (hhi : cnt ≤ 18446744073709551615)
    (h : fireIf cond event (c, scheds, cnt) = .ok (c1, scheds1, cnt1)) :
    CtxOk c1 ∧ registeredIn c1.events ≤ cnt1 ∧ cnt1 ≤ cnt ∧
      cnt1 + registeredIn c.events = cnt + registeredIn c1.events := by
  unfold fireIf at h
  split at h
  · dsimp only at h
    split at h
    · cases h
    · rename_i c2 s2 ht
      cases h
      obtain ⟨-, -, -, hc2, hr⟩ := triggerEvent_ok hc ht
      rw [decr64_of_pos (by omega) hhi]
      exact ⟨hc2, by omega, by omega, by omega⟩
  · cases h
    exact ⟨hc, hle, le_refl _, rfl⟩

theorem delEvent_inv {s s1 : IOManager} {fd : Int} {event : Nat} {rt : Int} {r : Bool}
    (h : Inv s) (hok : s.delEvent fd event rt = .ok (r, s1)) : Inv s1 := by
  unfold IOManager.delEvent at hok
  split at hok
  · split at hok
    · cases hok
    · rename_i fd_ctx hctx
      obtain ⟨hfd, hget⟩ := ctxAt_ok hctx
      have hc := h.ctx _ (List.getElem?_mem hget)
      split at hok
      · cases hok; exact h
      · rename_i hbit
        dsimp only at hok
        split at hok
        · cases hok; exact h.epoll _ _ _
        · split at hok
          · cases hok
          · rename_i ectx hectx
            cases hok
            have hcnt := h.count_le
            have hle := h.registered_le hget
            apply h.set hget
            · rcases getEventContext_ok hectx with ⟨rfl, -⟩ | ⟨rfl, -⟩
              · obtain ⟨f1, f2, f3, -, -⟩ := mask_clear_read hc.mask
                rw [setEventContext_read]
                refine ⟨f1, fun _ => rfl, fun hz => hc.write ?_, fun hz => absurd f2 hz,
                  fun hz => hc.write_armed ?_⟩
                · rw [← f3]; exact hz
                · rw [← f3]; exact hz
              · obtain ⟨f1, f2, f3, -, -⟩ := mask_clear_write hc.mask
                rw [setEventContext_write]
                refine ⟨f1, fun hz => hc.read ?_, fun _ => rfl, fun hz => hc.read_armed ?_,
                  fun hz => absurd f2 hz⟩
                · rw [← f3]; exact hz
                · rw [← f3]; exact hz
            · rcases getEventContext_ok hectx with ⟨rfl, -⟩ | ⟨rfl, -⟩
              · obtain ⟨-, -, -, f4, -⟩ := mask_clear_read hc.mask
                have := f4 hbit
                show decr64 s.m_pending_event_count + _ = s.m_pending_event_count + _
                rw [decr64_of_pos (by omega) (by omega)]
                simp only [setEventContext_read]
                omega
              · obtain ⟨-, -, -, f4, -⟩ := mask_clear_write hc.mask
                have := f4 hbit
                show decr64 s.m_pending_event_count + _ = s.m_pending_event_count + _
                rw [decr64_of_pos (by omega) (by omega)]
                simp only [setEventContext_write]
                omega
  · cases hok; exact h

theorem cancelEvent_inv {s s1 : IOManager} {fd : Int} {event : Nat} {rt : Int} {r : Bool}
    (h : Inv s) (hok : s.cancelEvent fd event rt = .ok (r, s1)) : Inv s1 := by
  unfold IOManager.cancelEvent at hok
  split at hok
  · split at hok
    · cases hok
    · rename_i fd_ctx hctx
      obtain ⟨hfd, hget⟩ := ctxAt_ok hctx
      have hc := h.ctx _ (List.getElem?_mem hget)
      split at hok
      · cases hok; exact h
      · rename_i hbit
        dsimp only at hok
        split at hok
        · cases hok; exact h.epoll _ _ _
        · split at hok
          · cases hok
          · rename_i c1 scheds ht
            cases hok
            have hcnt := h.count_le
            have hle := h.registered_le hget
            obtain ⟨-, -, -, hc1, hr⟩ := triggerEvent_ok hc ht
            apply h.set hget hc1
            show decr64 s.m_pending_event_count + _ = s.m_pending_event_count + _
            rw [decr64_of_pos (by omega) (by omega)]
            omega
  · cases hok; exact h

theorem cancelAll_inv {s s1 : IOManager} {fd : Int} {rt : Int} {r : Bool}
    (h : Inv s) (hok : s.cancelAll fd rt = .ok (r, s1)) : Inv s1 := by
  unfold IOManager.cancelAll at hok
  split at hok
  · split at hok
    · cases hok
    · rename_i fd_ctx hctx
      obtain ⟨hfd, hget⟩ := ctxAt_ok hctx
      have hc := h.ctx _ (List.getElem?_mem hget)
      split at hok
      · cases hok; exact h
      · dsimp only at hok
        split at hok
        · cases hok; exact h.epoll _ _ _
        · split at hok
          · cases hok
          · rename_i st1 h1
            obtain ⟨c1, sch1, cnt1⟩ := st1
            split at hok
            · cases hok
            · rename_i c2 sch2 cnt2 h2
              split at hok
              · cases hok
              · cases hok
                have hcnt := h.count_le
                have hle := h.registered_le hget
                obtain ⟨hc1, a1, b1, e1⟩ := fireIf_ok hc hle (by omega) h1
                obtain ⟨hc2, a2, b2, e2⟩ := fireIf_ok hc1 a1 (by omega) h2
                apply h.set hget hc2
                show cnt2 + _ = s.m_pending_event_count + _
                omega
  · cases hok; exact h

theorem idleEvent_inv {s s1 : IOManager} {event : EpollEvent} {rt2 : Int}
    (h : Inv s) (hok : s.idleEvent event rt2 = .ok s1) : Inv s1 := by
  unfold IOManager.idleEvent at hok
  split at hok
  · cases hok; exact h
  · rename_i i
    split at hok
    · cases hok
    · rename_i fd_ctx hget
      have hc := h.ctx _ (List.getElem?_mem hget)
      dsimp only at hok
      split at hok
      · cases hok; exact h
      · split at hok
        · cases hok; exact h.epoll _ _ _
        · split at hok
          · cases hok
          · rename_i st1 h1
            obtain ⟨c1, sch1, cnt1⟩ := st1
            split at hok
            · cases hok
            · rename_i c2 sch2 cnt2 h2
              cases hok
              have hcnt := h.count_le
              have hle := h.registered_le hget
              obtain ⟨hc1, a1, b1, e1⟩ := fireIf_ok hc hle (by omega) h1
              obtain ⟨hc2, a2, b2, e2⟩ := fireIf_ok hc1 a1 (by omega) h2
              apply h.set hget hc2
              show cnt2 + _ = s.m_pending_event_count + _
              omega

theorem Reachable.inv {s : IOManager} (h : Reachable s) : Inv s := by
  induction h with
  | new tickle_fd scheds => exact Inv.new tickle_fd scheds
  | addEvent fd event cb tl rt _ hg hok ih => exact addEvent_inv ih hg hok
  | delEvent fd event rt _ hok ih => exact delEvent_inv ih hok
  | cancelEvent fd event rt _ hok ih => exact cancelEvent_inv ih hok
  | cancelAll fd rt _ hok ih => exact cancelAll_inv ih hok
  | idle event rt2 _ hok ih => exact idleEvent_inv ih hok
  | run scheds _ ih => exact ⟨ih.size_lo, ih.size_hi, ih.ctx, ih.count⟩

/-- C1. In every state reachable from a freshly constructed `IOManager` by
`addEvent`, `delEvent`, `cancelEvent`, `cancelAll` and reported events processed
by `idle`, `m_pending_event_count` is the number of pairs `(fd, E)`, `E` in
`{READ, WRITE}`, whose bit `E` is set in the registered-event mask of `fd`. -/
theorem pending_event_count_eq_registeredPairs (s : IOManager) (h : Reachable s) :
    s.m_pending_event_count = s.registeredPairs :=
  h.inv.count

theorem Inv.lookup {s : IOManager} (h : Inv s) {fd : Int} {c : FdContext} (hfd : 0 ≤ fd)
    (hget : s.m_fd_contexts[fd.toNat]? = some c) :
    toInt32 s.m_fd_contexts.length > fd ∧ s.ctxAt fd = .ok c := by
  have hlt : fd.toNat < s.m_fd_contexts.length := (List.getElem?_eq_some.1 hget).1
  have hhi := h.size_hi
  constructor
  · rw [toInt32_of_le hhi]; omega
  · unfold IOManager.ctxAt
    rw [if_neg (by omega), hget]

theorem Inv.beyond {s : IOManager} (h : Inv s) {fd : Int}
    (hfd : (s.m_fd_contexts.length : Int) ≤ fd) : ¬ toInt32 s.m_fd_contexts.length > fd := by
  rw [toInt32_of_le h.size_hi]; omega

/-- C4. For a descriptor in the table and an event that overlaps its registered
mask, `addEvent` returns `-1` and the state (mask, both slots, counter, task
queues, multiplexer) is the one before the call. -/
theorem addEvent_registered_rejected (s : IOManager) (h : Reachable s) (fd : Int) (event : Nat)
    (cb : Option Nat) (tl : ThreadLocal) (rt : Int) (c : FdContext) (hfd : 0 ≤ fd)
    (hget : s.m_fd_contexts[fd.toNat]? = some c) (hbit : c.events &&& event ≠ 0) :
    s.addEvent fd event cb tl rt = .ok (-1, s) := by
  obtain ⟨h1, h2⟩ := h.inv.lookup hfd hget
  unfold IOManager.addEvent
  rw [if_pos h1]
  simp only [h2]
  rw [if_pos hbit]

theorem getElem?_set_at {l : List FdContext} {i : Nat} {c : FdContext} (c1 : FdContext)
    (h : l[i]? = some c) : (l.set i c1)[i]? = some c1 :=
  List.getElem?_set_self (List.getElem?_eq_some.1 h).1

theorem Inv.count_pos {s : IOManager} (h : Inv s) {i : Nat} {c : FdContext} {E : Nat}
    (hget : s.m_fd_contexts[i]? = some c) (hE : E = READ ∨ E = WRITE) (hbit : c.events &&& E ≠ 0) :
    0 < s.m_pending_event_count ∧ s.m_pending_event_count ≤ 18446744073709551615 := by
  have h1 := h.registered_le hget
  have h2 := h.count_le
  have hc := h.ctx _ (List.getElem?_mem hget)
  have : 0 < registeredIn c.events := by
    rcases hE with rfl | rfl
    · have := (mask_clear_read hc.mask).2.2.2.1 hbit; omega
    · have := (mask_clear_write hc.mask).2.2.2.1 hbit; omega
  omega

/-- C8, amended. When `E` is registered on `fd` and the `epoll_ctl` call
succeeds, `delEvent(fd, E)` clears bit `E` from the mask, decrements
`m_pending_event_count` by 1, resets the slot of `E`, and leaves the slot and
the bit of the other direction and every task queue unchanged; when `E` is not
registered, or `fd` is beyond the table, it returns `false` and the state is
unchanged. -/
theorem delEvent_clears_without_firing (s : IOManager) (h : Reachable s) (fd : Int) (E : Nat) :
    (∀ c, 0 ≤ fd → s.m_fd_contexts[fd.toNat]? = some c → (E = READ ∨ E = WRITE) →
      c.events &&& E ≠ 0 →
      ∃ s1 c1, s.delEvent fd E 0 = .ok (true, s1) ∧
        s1.m_fd_contexts = s.m_fd_contexts.set fd.toNat c1 ∧
        s1.m_fd_contexts[fd.toNat]? = some c1 ∧
        c1.events = andNot c.events E ∧ c1.events &&& E = 0 ∧
        c1.getEventContext E = .ok EventContext.empty ∧
        (∀ E1, (E1 = READ ∨ E1 = WRITE) → E1 ≠ E →
          c1.events &&& E1 = c.events &&& E1 ∧ c1.getEventContext E1 = c.getEventContext E1) ∧
        s1.m_pending_event_count + 1 = s.m_pending_event_count ∧
        s1.schedulers = s.schedulers) ∧
    (∀ c rt, 0 ≤ fd → s.m_fd_contexts[fd.toNat]? = some c → c.events &&& E = 0 →
      s.delEvent fd E rt = .ok (false, s)) ∧
    (∀ rt, (s.m_fd_contexts.length : Int) ≤ fd → s.delEvent fd E rt = .ok (false, s)) := by
  have hinv := h.inv
  refine ⟨?_, ?_, ?_⟩
  · intro c hfd hget hE hbit
    obtain ⟨h1, h2⟩ := hinv.lookup hfd hget
    obtain ⟨hpos, hle⟩ := hinv.count_pos hget hE hbit
    have hc := hinv.ctx _ (List.getElem?_mem hget)
    unfold IOManager.delEvent
    rw [if_pos h1]
    simp only [h2]
    rw [if_neg hbit]
    rcases hE with rfl | rfl
    · obtain ⟨-, f2, f3, -, -⟩ := mask_clear_read hc.mask
      refine ⟨_, (FdContext.mk EventContext.empty c.write c.fd (andNot c.events READ)), rfl, rfl,
        getElem?_set_at _ hget, rfl, f2, rfl, ?_, ?_, rfl⟩
      · rintro E1 (rfl | rfl) hne
        · exact absurd rfl hne
        · exact ⟨f3, rfl⟩
      · show decr64 s.m_pending_event_count + 1 = s.m_pending_event_count
        rw [decr64_of_pos hpos hle]; omega
    · obtain ⟨-, f2, f3, -, -⟩ := mask_clear_write hc.mask
      refine ⟨_, (FdContext.mk c.read EventContext.empty c.fd (andNot c.events WRITE)), rfl, rfl,
        getElem?_set_at _ hget, rfl, f2, rfl, ?_, ?_, rfl⟩
      · rintro E1 (rfl | rfl) hne
        · exact ⟨f3, rfl⟩
        · exact absurd rfl hne
      · show decr64 s.m_pending_event_count + 1 = s.m_pending_event_count
        rw [decr64_of_pos hpos hle]; omega
  · intro c rt hfd hget hbit
    obtain ⟨h1, h2⟩ := hinv.lookup hfd hget
    unfold IOManager.delEvent
    rw [if_pos h1]
    simp only [h2]
    rw [if_pos hbit]
  · intro rt hfd
    unfold IOManager.delEvent
    rw [if_neg (hinv.beyond hfd)]

theorem scheduleLock_tasks (q : Scheduler) (t : ScheduleTask)
    (ht : (t.fiber.isSome || t.cb.isSome) = true) : (q.scheduleLock t).m_tasks = q.m_tasks ++ [t] := by
  unfold Scheduler.scheduleLock
  simp only [ht, if_true]
  split <;> rfl

theorem task_nonempty {e : EventContext} (he : e.Armed) :
    (e.task.fiber.isSome || e.task.cb.isSome) = true := by
  unfold EventContext.task
  rcases he with ⟨h1, h2⟩ | ⟨h1, h2⟩
  · rw [if_pos h1]; simp [ScheduleTask.ofCb, h1]
  · rw [h1]; simp [ScheduleTask.ofFiber, h2]

theorem tasksOf_set {scheds : List Scheduler} {p : Nat} {q : Scheduler} (q1 : Scheduler)
    (hq : scheds[p]? = some q) (p1 : Nat) :
    tasksOf (scheds.set p q1) p1 = if p1 = p then q1.m_tasks else tasksOf scheds p1 := by
  unfold tasksOf
  by_cases hp : p1 = p
  · subst hp
    rw [List.getElem?_set_self (List.getElem?_eq_some.1 hq).1, if_pos rfl]
  · rw [List.getElem?_set_ne (Ne.symm hp), if_neg hp]

theorem scheduleOn_fired {scheds : List Scheduler} {e : EventContext} {p : Nat} {q : Scheduler}
    (he : e.Armed) (hp : e.scheduler = some p) (hq : scheds[p]? = some q) :
    scheduleOn scheds e.scheduler e.task = .ok (scheds.set p (q.scheduleLock e.task)) ∧
      (scheds.set p (q.scheduleLock e.task)).length = scheds.length ∧
      ∀ p1, tasksOf (scheds.set p (q.scheduleLock e.task)) p1 = tasksOf scheds p1 ++ firedOn e p1 := by
  refine ⟨?_, List.length_set _ _ _, ?_⟩
  · unfold scheduleOn
    rw [hp]
    simp only [hq]
  · intro p1
    rw [tasksOf_set _ hq, scheduleLock_tasks _ _ (task_nonempty he)]
    unfold firedOn
    rw [hp]
    by_cases h1 : p1 = p
    · subst h1
      rw [if_pos rfl, if_pos rfl]
      unfold tasksOf
      rw [hq]
    · rw [if_neg h1, if_neg (by intro hh; exact h1 (Option.some.inj hh).symm)]
      simp

theorem getEventContext_read (c : FdContext) : c.getEventContext READ = .ok c.read := rfl

theorem getEventContext_write (c : FdContext) : c.getEventContext WRITE = .ok c.write := rfl

theorem mask_ne_zero {m E : Nat} (h : m &&& E ≠ 0) : ¬ (m = 0 ∨ E = 0) := by
  rintro (rfl | rfl)
  · exact h (Nat.zero_and E)
  · exact h (Nat.and_zero m)

theorem triggerEvent_read {c : FdContext} {scheds : List Scheduler} {p : Nat} {q : Scheduler}
    (hbit : c.events &&& READ ≠ 0) (hp : c.read.scheduler = some p) (hq : scheds[p]? = some q) :
    c.triggerEvent READ scheds =
      .ok (FdContext.mk EventContext.empty c.write c.fd (andNot c.events READ),
        scheds.set p (q.scheduleLock c.read.task)) := by
  unfold FdContext.triggerEvent
  rw [if_neg (mask_ne_zero hbit)]
  simp only [getEventContext_read, getEventContext_write]
  unfold scheduleOn
  rw [hp]
  simp only [hq]
  rfl

theorem triggerEvent_write {c : FdContext} {scheds : List Scheduler} {p : Nat} {q : Scheduler}
    (hbit : c.events &&& WRITE ≠ 0) (hp : c.write.scheduler = some p) (hq : scheds[p]? = some q) :
    c.triggerEvent WRITE scheds =
      .ok (FdContext.mk c.read EventContext.empty c.fd (andNot c.events WRITE),
        scheds.set p (q.scheduleLock c.write.task)) := by
  unfold FdContext.triggerEvent
  rw [if_neg (mask_ne_zero hbit)]
  simp only [getEventContext_read, getEventContext_write]
  unfold scheduleOn
  rw [hp]
  simp only [hq]
  rfl

theorem cancelEvent_read {s : IOManager} (hinv : Inv s) {fd : Int} {c : FdContext} {p : Nat}
    {q : Scheduler} (hfd : 0 ≤ fd) (hget : s.m_fd_contexts[fd.toNat]? = some c)
    (hbit : c.events &&& READ ≠ 0) (hp : c.read.scheduler = some p)
    (hq : s.schedulers[p]? = some q) :
    s.cancelEvent fd READ 0 = .ok (true, IOManager.mk
      (s.m_fd_contexts.set fd.toNat
        (FdContext.mk EventContext.empty c.write c.fd (andNot c.events READ)))
      (s.m_pending_event_count - 1)
      (s.epoll ++ [EpollCtl.mk (if andNot c.events READ ≠ 0 then EPOLL_CTL_MOD else EPOLL_CTL_DEL)
        fd (EPOLLET ||| andNot c.events READ)])
      (s.schedulers.set p (q.scheduleLock c.read.task))) := by
  obtain ⟨h1, h2⟩ := hinv.lookup hfd hget
  obtain ⟨hpos, hle⟩ := hinv.count_pos hget (Or.inl rfl) hbit
  unfold IOManager.cancelEvent
  rw [if_pos h1]
  simp only [h2]
  rw [if_neg hbit]
  simp only [ne_eq, not_true_eq_false, if_false, IOManager.epoll_ctl,
    triggerEvent_read hbit hp hq, decr64_of_pos hpos hle, IOManager.setCtx]

theorem cancelEvent_write {s : IOManager} (hinv : Inv s) {fd : Int} {c : FdContext} {p : Nat}
    {q : Scheduler} (hfd : 0 ≤ fd) (hget : s.m_fd_contexts[fd.toNat]? = some c)
    (hbit : c.events &&& WRITE ≠ 0) (hp : c.write.scheduler = some p)
    (hq : s.schedulers[p]? = some q) :
    s.cancelEvent fd WRITE 0 = .ok (true, IOManager.mk
      (s.m_fd_contexts.set fd.toNat
        (FdContext.mk c.read EventContext.empty c.fd (andNot c.events WRITE)))
      (s.m_pending_event_count - 1)
      (s.epoll ++ [EpollCtl.mk (if andNot c.events WRITE ≠ 0 then EPOLL_CTL_MOD else EPOLL_CTL_DEL)
        fd (EPOLLET ||| andNot c.events WRITE)])
      (s.schedulers.set p (q.scheduleLock c.write.task))) := by
  obtain ⟨h1, h2⟩ := hinv.lookup hfd hget
  obtain ⟨hpos, hle⟩ := hinv.count_pos hget (Or.inr rfl) hbit
  unfold IOManager.cancelEvent
  rw [if_pos h1]
  simp only [h2]
  rw [if_neg hbit]
  simp only [ne_eq, not_true_eq_false, if_false, IOManager.epoll_ctl,
    triggerEvent_write hbit hp hq, decr64_of_pos hpos hle, IOManager.setCtx]

theorem cancelEvent_unregistered {s : IOManager} (hinv : Inv s) {fd : Int} {c : FdContext}
    {E : Nat} (hfd : 0 ≤ fd) (hget : s.m_fd_contexts[fd.toNat]? = some c)
    (hbit : c.events &&& E = 0) (rt : Int) : s.cancelEvent fd E rt = .ok (false, s) := by
  obtain ⟨h1, h2⟩ := hinv.lookup hfd hget
  unfold IOManager.cancelEvent
  rw [if_pos h1]
  simp only [h2]
  rw [if_pos hbit]

theorem testRead_eq : testManager.addEvent 5 READ (some 11) testThread 0 = .ok (0, testRead) := by
  rfl

theorem testRead_reachable : Reachable testRead :=
  Reachable.addEvent 5 READ (some 11) testThread 0 (Reachable.new 3 _) (by decide) testRead_eq

/-- C6, amended. When `E` is registered on `fd`, the slot of `E` records a live
scheduler and the `epoll_ctl` call succeeds, `cancelEvent(fd, E)` returns
`true`, appends exactly one task, the registered callable or else the
registered fiber, to the queue of the recorded scheduler and to no other queue,
clears the bit and the slot of `E`, and an immediately following
`cancelEvent(fd, E)` returns `false` and changes nothing. -/
theorem cancelEvent_fires_once (s : IOManager) (h : Reachable s) (fd : Int) (E : Nat)
    (c : FdContext) (slot : EventContext) (p : Nat) (q : Scheduler)
    (hfd : 0 ≤ fd) (hget : s.m_fd_contexts[fd.toNat]? = some c)
    (hE : E = READ ∨ E = WRITE) (hbit : c.events &&& E ≠ 0)
    (hslot : c.getEventContext E = .ok slot)
    (hp : slot.scheduler = some p) (hq : s.schedulers[p]? = some q) :
    ∃ s1 c1, s.cancelEvent fd E 0 = .ok (true, s1) ∧
      s1.m_fd_contexts[fd.toNat]? = some c1 ∧
      c1.events &&& E = 0 ∧ c1.getEventContext E = .ok EventContext.empty ∧
      tasksOf s1.schedulers p = q.m_tasks ++ [slot.task] ∧
      (slot.task = ScheduleTask.ofCb slot.cb (-1) ∧ slot.cb.isSome ∨
        slot.task = ScheduleTask.ofFiber slot.fiber (-1) ∧ slot.cb = none ∧ slot.fiber.isSome) ∧
      (∀ p1, p1 ≠ p → tasksOf s1.schedulers p1 = tasksOf s.schedulers p1) ∧
      s1.m_pending_event_count + 1 = s.m_pending_event_count ∧
      ∀ rt, s1.cancelEvent fd E rt = .ok (false, s1) := by
  have hinv := h.inv
  have hc := hinv.ctx _ (List.getElem?_mem hget)
  obtain ⟨hpos, -⟩ := hinv.count_pos hget hE hbit
  have htask : ∀ e : EventContext, e.Armed →
      (e.task = ScheduleTask.ofCb e.cb (-1) ∧ e.cb.isSome ∨
        e.task = ScheduleTask.ofFiber e.fiber (-1) ∧ e.cb = none ∧ e.fiber.isSome) := by
    intro e he
    unfold EventContext.task
    rcases he with ⟨h1, h2⟩ | ⟨h1, h2⟩
    · exact Or.inl ⟨by rw [if_pos h1], h1⟩
    · exact Or.inr ⟨by rw [h1]; rfl, h1, h2⟩
  rcases hE with rfl | rfl
  · rw [getEventContext_read] at hslot
    cases hslot
    have heq := cancelEvent_read hinv hfd hget hbit hp hq
    have hinv1 := (Reachable.cancelEvent fd READ 0 h heq).inv
    have hg1 := getElem?_set_at
      (FdContext.mk EventContext.empty c.write c.fd (andNot c.events READ)) hget
    have harmed := hc.read_armed hbit
    obtain ⟨-, -, ht⟩ := scheduleOn_fired harmed hp hq
    obtain ⟨-, f2, -, -, -⟩ := mask_clear_read hc.mask
    refine ⟨_, _, heq, hg1, f2, rfl, ?_, htask _ harmed, ?_, ?_, ?_⟩
    · show tasksOf (s.schedulers.set p (q.scheduleLock c.read.task)) p = _
      rw [ht p]
      unfold firedOn tasksOf
      rw [hq, if_pos hp]
    · intro p1 hp1
      show tasksOf (s.schedulers.set p (q.scheduleLock c.read.task)) p1 = _
      rw [ht p1]
      unfold firedOn
      rw [if_neg (by rw [hp]; intro hh; exact hp1 (Option.some.inj hh).symm)]
      simp
    · show s.m_pending_event_count - 1 + 1 = s.m_pending_event_count
      omega
    · intro rt
      exact cancelEvent_unregistered hinv1 hfd hg1 f2 rt
  · rw [getEventContext_write] at hslot
    cases hslot
    have heq := cancelEvent_write hinv hfd hget hbit hp hq
    have hinv1 := (Reachable.cancelEvent fd WRITE 0 h heq).inv
    have hg1 := getElem?_set_at
      (FdContext.mk c.read EventContext.empty c.fd (andNot c.events WRITE)) hget
    have harmed := hc.write_armed hbit
    obtain ⟨-, -, ht⟩ := scheduleOn_fired harmed hp hq
    obtain ⟨-, f2, -, -, -⟩ := mask_clear_write hc.mask
    refine ⟨_, _, heq, hg1, f2, rfl, ?_, htask _ harmed, ?_, ?_, ?_⟩
    · show tasksOf (s.schedulers.set p (q.scheduleLock c.write.task)) p = _
      rw [ht p]
      unfold firedOn tasksOf
      rw [hq, if_pos hp]
    · intro p1 hp1
      show tasksOf (s.schedulers.set p (q.scheduleLock c.write.task)) p1 = _
      rw [ht p1]
      unfold firedOn
      rw [if_neg (by rw [hp]; intro hh; exact hp1 (Option.some.inj hh).symm)]
      simp
    · show s.m_pending_event_count - 1 + 1 = s.m_pending_event_count
      omega
    · intro rt
      exact cancelEvent_unregistered hinv1 hfd hg1 f2 rt

theorem CtxOk.clear_read {c : FdContext} (hc : CtxOk c) :
    CtxOk (FdContext.mk EventContext.empty c.write c.fd (andNot c.events READ)) := by
  obtain ⟨f1, f2, f3, -, -⟩ := mask_clear_read hc.mask
  refine ⟨f1, fun _ => rfl, fun hz => hc.write ?_, fun hz => absurd f2 hz,
    fun hz => hc.write_armed ?_⟩
  · rw [← f3]; exact hz
  · rw [← f3]; exact hz

theorem CtxOk.clear_write {c : FdContext} (hc : CtxOk c) :
    CtxOk (FdContext.mk c.read EventContext.empty c.fd (andNot c.events WRITE)) := by
  obtain ⟨f1, f2, f3, -, -⟩ := mask_clear_write hc.mask
  refine ⟨f1, fun hz => hc.read ?_, fun _ => rfl, fun hz => hc.read_armed ?_,
    fun hz => absurd f2 hz⟩
  · rw [← f3]; exact hz
  · rw [← f3]; exact hz

theorem fireIf_read {c : FdContext} {scheds : List Scheduler} {cnt : Nat} (hc : CtxOk c)
    (hs : c.events &&& READ ≠ 0 → ∃ p q, c.read.scheduler = some p ∧ scheds[p]? = some q)
    (hlo : registeredIn c.events ≤ cnt) (hhi : cnt ≤ 18446744073709551615) :
    ∃ scheds1 cnt1, fireIf (decide (c.events &&& READ ≠ 0)) READ (c, scheds, cnt) =
        .ok (FdContext.mk EventContext.empty c.write c.fd (andNot c.events READ), scheds1, cnt1) ∧
      scheds1.length = scheds.length ∧
      (∀ p, tasksOf scheds1 p =
        tasksOf scheds p ++ if c.events &&& READ ≠ 0 then firedOn c.read p else []) ∧
      cnt1 + registeredIn c.events = cnt + registeredIn (andNot c.events READ) ∧
      registeredIn (andNot c.events READ) ≤ cnt1 := by
  obtain ⟨-, -, -, f4, f5⟩ := mask_clear_read hc.mask
  by_cases hbit : c.events &&& READ ≠ 0
  · obtain ⟨p, q, hp, hq⟩ := hs hbit
    obtain ⟨-, hl, ht⟩ := scheduleOn_fired (hc.read_armed hbit) hp hq
    have := f4 hbit
    refine ⟨_, decr64 cnt, ?_, hl, ?_, ?_, ?_⟩
    · unfold fireIf
      rw [if_pos (decide_eq_true hbit)]
      simp only [triggerEvent_read hbit hp hq]
    · intro p1; rw [ht p1, if_pos hbit]
    · rw [decr64_of_pos (by omega) hhi]; omega
    · rw [decr64_of_pos (by omega) hhi]; omega
  · have hz : c.events &&& READ = 0 := not_not.1 hbit
    refine ⟨scheds, cnt, ?_, rfl, ?_, ?_, ?_⟩
    · unfold fireIf
      rw [if_neg (fun hd => hbit (of_decide_eq_true hd))]
      rw [f5 hz, ← hc.read hz]
    · intro p1; rw [if_neg hbit]; simp
    · rw [f5 hz]
    · rw [f5 hz]; exact hlo

theorem fireIf_write {c : FdContext} {scheds : List Scheduler} {cnt : Nat} (hc : CtxOk c)
    (hs : c.events &&& WRITE ≠ 0 → ∃ p q, c.write.scheduler = some p ∧ scheds[p]? = some q)
    (hlo : registeredIn c.events ≤ cnt) (hhi : cnt ≤ 18446744073709551615) :
    ∃ scheds1 cnt1, fireIf (decide (c.events &&& WRITE ≠ 0)) WRITE (c, scheds, cnt) =
        .ok (FdContext.mk c.read EventContext.empty c.fd (andNot c.events WRITE), scheds1, cnt1) ∧
      scheds1.length = scheds.length ∧
      (∀ p, tasksOf scheds1 p =
        tasksOf scheds p ++ if c.events &&& WRITE ≠ 0 then firedOn c.write p else []) ∧
      cnt1 + registeredIn c.events = cnt + registeredIn (andNot c.events WRITE) ∧
      registeredIn (andNot c.events WRITE) ≤ cnt1 := by
  obtain ⟨-, -, -, f4, f5⟩ := mask_clear_write hc.mask
  by_cases hbit : c.events &&& WRITE ≠ 0
  · obtain ⟨p, q, hp, hq⟩ := hs hbit
    obtain ⟨-, hl, ht⟩ := scheduleOn_fired (hc.write_armed hbit) hp hq
    have := f4 hbit
    refine ⟨_, decr64 cnt, ?_, hl, ?_, ?_, ?_⟩
    · unfold fireIf
      rw [if_pos (decide_eq_true hbit)]
      simp only [triggerEvent_write hbit hp hq]
    · intro p1; rw [ht p1, if_pos hbit]
    · rw [decr64_of_pos (by omega) hhi]; omega
    · rw [decr64_of_pos (by omega) hhi]; omega
  · have hz : c.events &&& WRITE = 0 := not_not.1 hbit
    refine ⟨scheds, cnt, ?_, rfl, ?_, ?_, ?_⟩
    · unfold fireIf
      rw [if_neg (fun hd => hbit (of_decide_eq_true hd))]
      rw [f5 hz, ← hc.write hz]
    · intro p1; rw [if_neg hbit]; simp
    · rw [f5 hz]
    · rw [f5 hz]; exact hlo

theorem mask_clear_both {m : Nat} (h : IsMask m) : andNot (andNot m READ) WRITE = 0 := by
  rcases h with rfl | rfl | rfl | rfl <;> decide

theorem getElem?_of_length_eq {l l1 : List Scheduler} (hl : l1.length = l.length) {p : Nat}
    {q : Scheduler} (hq : l[p]? = some q) : ∃ q1, l1[p]? = some q1 := by
  have hp : p < l1.length := by rw [hl]; exact (List.getElem?_eq_some.1 hq).1
  exact ⟨l1[p], List.getElem?_eq_getElem hp⟩

/-- C7, amended. When the mask `m` of `fd` is not empty, the slots of the
registered directions record live schedulers and the `epoll_ctl` call succeeds,
`cancelAll(fd)` returns `true`, appends one task for each direction in `m` to
the queue of the scheduler recorded for it (`READ` first), leaves the mask
empty and both slots reset, and decreases `m_pending_event_count` by the number
of directions in `m`; when the mask is empty, or `fd` is beyond the table, it
returns `false` and the state is unchanged. -/
theorem cancelAll_fires_each (s : IOManager) (h : Reachable s) (fd : Int) :
    (∀ c, 0 ≤ fd → s.m_fd_contexts[fd.toNat]? = some c → c.events ≠ 0 →
      (c.events &&& READ ≠ 0 → ∃ p q, c.read.scheduler = some p ∧ s.schedulers[p]? = some q) →
      (c.events &&& WRITE ≠ 0 → ∃ p q, c.write.scheduler = some p ∧ s.schedulers[p]? = some q) →
      ∃ s1, s.cancelAll fd 0 = .ok (true, s1) ∧
        s1.m_fd_contexts[fd.toNat]? =
          some (FdContext.mk EventContext.empty EventContext.empty c.fd 0) ∧
        s1.m_pending_event_count + registeredIn c.events = s.m_pending_event_count ∧
        ∀ p, tasksOf s1.schedulers p = tasksOf s.schedulers p ++
          (if c.events &&& READ ≠ 0 then firedOn c.read p else []) ++
          (if c.events &&& WRITE ≠ 0 then firedOn c.write p else [])) ∧
    (∀ c rt, 0 ≤ fd → s.m_fd_contexts[fd.toNat]? = some c → c.events = 0 →
      s.cancelAll fd rt = .ok (false, s)) ∧
    (∀ rt, (s.m_fd_contexts.length : Int) ≤ fd → s.cancelAll fd rt = .ok (false, s)) := by
  have hinv := h.inv
  refine ⟨?_, ?_, ?_⟩
  · intro c hfd hget hm hr hw
    obtain ⟨h1, h2⟩ := hinv.lookup hfd hget
    have hc := hinv.ctx _ (List.getElem?_mem hget)
    have hlo := hinv.registered_le hget
    have hhi := hinv.count_le
    obtain ⟨sch1, cnt1, e1, l1, t1, n1, b1⟩ :=
      fireIf_read hc hr hlo (by omega)
    obtain ⟨-, -, f3, -, -⟩ := mask_clear_read hc.mask
    have hw1 : (FdContext.mk EventContext.empty c.write c.fd (andNot c.events READ)).events
        &&& WRITE ≠ 0 → ∃ p q,
        (FdContext.mk EventContext.empty c.write c.fd (andNot c.events READ)).write.scheduler
          = some p ∧ sch1[p]? = some q := by
      intro hb
      obtain ⟨p, q, hp, hq⟩ := hw (by rw [← f3]; exact hb)
      obtain ⟨q1, hq1⟩ := getElem?_of_length_eq l1 hq
      exact ⟨p, q1, hp, hq1⟩
    have hle2 := registeredIn_le (andNot c.events READ)
    obtain ⟨sch2, cnt2, e2, l2, t2, n2, b2⟩ := fireIf_write hc.clear_read hw1 b1 (by omega)
    have hzero := mask_clear_both hc.mask
    dsimp only at e2 t2 n2
    rw [hzero] at e2 n2
    refine ⟨IOManager.mk (s.m_fd_contexts.set fd.toNat
        (FdContext.mk EventContext.empty EventContext.empty c.fd 0)) cnt2
        (s.epoll ++ [EpollCtl.mk EPOLL_CTL_DEL fd 0]) sch2, ?_, getElem?_set_at _ hget, ?_, ?_⟩
    · unfold IOManager.cancelAll
      rw [if_pos h1]
      simp only [h2]
      rw [if_neg hm]
      simp only [ne_eq, not_true_eq_false, if_false, IOManager.epoll_ctl]
      rw [e1]
      simp only [e2, not_true_eq_false, if_false, IOManager.setCtx]
    · have : registeredIn 0 = 0 := by decide
      show cnt2 + _ = _
      omega
    · intro p
      show tasksOf sch2 p = _
      rw [t2 p, t1 p, f3]
  · intro c rt hfd hget hm
    obtain ⟨h1, h2⟩ := hinv.lookup hfd hget
    unfold IOManager.cancelAll
    rw [if_pos h1]
    simp only [h2]
    rw [if_pos hm]
  · intro rt hfd
    unfold IOManager.cancelAll
    rw [if_neg (hinv.beyond hfd)]

theorem growTo_gt (fd : Int) (h : 32 ≤ fd) : fd.toNat < growTo fd := by
  unfold growTo
  omega

theorem Inv.grown_ctx {s : IOManager} (h : Inv s) {fd : Int} (hfd : 0 ≤ fd) :
    (if toInt32 s.m_fd_contexts.length > fd then s
      else s.contextResize (growTo fd)).m_fd_contexts[fd.toNat]? = some (s.ctxOrFresh fd) := by
  have hlo := h.size_lo
  rw [toInt32_of_le h.size_hi]
  unfold IOManager.ctxOrFresh
  split
  · rename_i hlt
    have hlt1 : fd.toNat < s.m_fd_contexts.length := by omega
    rw [List.getElem?_eq_getElem hlt1]
  · rename_i hge
    have hge1 : s.m_fd_contexts.length ≤ fd.toNat := by omega
    have hgt := growTo_gt fd (by omega)
    rw [List.getElem?_eq_none hge1]
    unfold IOManager.contextResize
    dsimp only
    rw [if_neg (by omega), List.getElem?_append_right hge1, List.getElem?_map,
      List.getElem?_range' _ _ (by omega)]
    simp only [one_mul, Option.map_some']
    congr 2
    omega

theorem grown_fields (s : IOManager) (fd : Int) :
    (if toInt32 s.m_fd_contexts.length > fd then s
      else s.contextResize (growTo fd)).m_pending_event_count = s.m_pending_event_count ∧
    (if toInt32 s.m_fd_contexts.length > fd then s
      else s.contextResize (growTo fd)).epoll = s.epoll ∧
    (if toInt32 s.m_fd_contexts.length > fd then s
      else s.contextResize (growTo fd)).schedulers = s.schedulers := by
  split <;> exact ⟨rfl, rfl, rfl⟩

theorem ctxAt_of_get {s : IOManager} {fd : Int} {c : FdContext} (hfd : 0 ≤ fd)
    (hget : s.m_fd_contexts[fd.toNat]? = some c) : s.ctxAt fd = .ok c := by
  unfold IOManager.ctxAt
  rw [if_neg (by omega), hget]

theorem Inv.ctxOrFresh_ok {s : IOManager} (h : Inv s) (fd : Int) : CtxOk (s.ctxOrFresh fd) := by
  unfold IOManager.ctxOrFresh
  split
  · rename_i c hc
    exact h.ctx c (List.getElem?_mem hc)
  · exact ctxOk_fresh _

theorem addEvent_eq {s : IOManager} (hinv : Inv s) {fd : Int} {E : Nat} (cb : Option Nat)
    (tl : ThreadLocal) (rt : Int) (hfd : 0 ≤ fd) (hE : E = READ ∨ E = WRITE)
    (hbit : (s.ctxOrFresh fd).events &&& E = 0)
    (hrun : cb.isSome = true ∨ tl.t_fiber_running = true) :
    s.addEvent fd E cb tl rt = .ok (0, IOManager.mk
      ((if toInt32 s.m_fd_contexts.length > fd then s
          else s.contextResize (growTo fd)).m_fd_contexts.set fd.toNat
        ((FdContext.mk (s.ctxOrFresh fd).read (s.ctxOrFresh fd).write (s.ctxOrFresh fd).fd
          ((s.ctxOrFresh fd).events ||| E)).setEventContext E (armedSlot tl cb)))
      (s.m_pending_event_count + 1)
      (s.epoll ++ [EpollCtl.mk
        (if (s.ctxOrFresh fd).events ≠ 0 then EPOLL_CTL_MOD else EPOLL_CTL_ADD) fd
        (EPOLLET ||| (s.ctxOrFresh fd).events ||| E)])
      s.schedulers) := by
  have hget := hinv.grown_ctx hfd
  obtain ⟨g1, g2, g3⟩ := grown_fields s fd
  have hcnt := hinv.count_le
  have hc0 := hinv.ctxOrFresh_ok fd
  unfold IOManager.addEvent
  generalize (if toInt32 s.m_fd_contexts.length > fd then s
    else s.contextResize (growTo fd)) = s0 at hget g1 g2 g3 ⊢
  generalize s.ctxOrFresh fd = c0 at hget hbit hc0 ⊢
  simp only [ctxAt_of_get hfd hget]
  rw [if_neg (not_not.2 hbit)]
  have hlt : s.m_pending_event_count < 18446744073709551615 := by omega
  rcases hE with rfl | rfl
  · have hr := hc0.read hbit
    simp only [getEventContext_read, setEventContext_read, IOManager.epoll_ctl, IOManager.setCtx,
      g1, g2, g3, incr64_of_lt hlt, hr, EventContext.empty, armedSlot, Option.isSome_none,
      Bool.false_eq_true, or_self, if_false]
    by_cases hcb : cb.isSome = true
    · simp only [hcb, if_true]
    · have hrun1 : tl.t_fiber_running = true := hrun.resolve_left hcb
      simp only [hcb, Bool.false_eq_true, if_false, hrun1, if_true]
  · have hw := hc0.write hbit
    simp only [getEventContext_write, setEventContext_write, IOManager.epoll_ctl, IOManager.setCtx,
      g1, g2, g3, incr64_of_lt hlt, hw, EventContext.empty, armedSlot, Option.isSome_none,
      Bool.false_eq_true, or_self, if_false]
    by_cases hcb : cb.isSome = true
    · simp only [hcb, if_true]
    · have hrun1 : tl.t_fiber_running = true := hrun.resolve_left hcb
      simp only [hcb, Bool.false_eq_true, if_false, hrun1, if_true]

theorem ctxOrFresh_of_get {s : IOManager} {fd : Int} {c : FdContext}
    (hget : s.m_fd_contexts[fd.toNat]? = some c) : s.ctxOrFresh fd = c := by
  unfold IOManager.ctxOrFresh
  rw [hget]

theorem Inv.grown_ne {s : IOManager} (h : Inv s) {fd : Int} (hfd : 0 ≤ fd) (c1 : FdContext) :
    ((if toInt32 s.m_fd_contexts.length > fd then s
      else s.contextResize (growTo fd)).m_fd_contexts.set fd.toNat c1)[fd.toNat]? = some c1 :=
  getElem?_set_at c1 (h.grown_ctx hfd)

/-- C3. For `fd >= 0` and `E` in `{READ, WRITE}` whose bit is not set in the
mask of `fd`, `addEvent(fd, E, cb)`, called with a callable or on a running
fiber, returns 0, sets the mask to `old ||| E`, increments
`m_pending_event_count` by 1, issues `EPOLL_CTL_ADD` when the old mask was
empty and `EPOLL_CTL_MOD` otherwise, stores in the slot of `E` the current
scheduler and `cb`, or the current fiber when `cb` is empty, and leaves the
slot of the other direction and the task queues unchanged; registering `WRITE`
and then `READ` on the same `fd` both succeed. -/
theorem addEvent_registers (s : IOManager) (h : Reachable s) (fd : Int) (E : Nat)
    (cb : Option Nat) (tl : ThreadLocal) (rt : Int) (hfd : 0 ≤ fd)
    (hE : E = READ ∨ E = WRITE) (hbit : (s.ctxOrFresh fd).events &&& E = 0)
    (hrun : cb.isSome = true ∨ tl.t_fiber_running = true) :
    ∃ s1 c1, s.addEvent fd E cb tl rt = .ok (0, s1) ∧
      s1.m_fd_contexts[fd.toNat]? = some c1 ∧
      c1.events = (s.ctxOrFresh fd).events ||| E ∧
      s1.m_pending_event_count = s.m_pending_event_count + 1 ∧
      s1.epoll = s.epoll ++ [EpollCtl.mk
        (if (s.ctxOrFresh fd).events = 0 then EPOLL_CTL_ADD else EPOLL_CTL_MOD) fd
        (EPOLLET ||| (s.ctxOrFresh fd).events ||| E)] ∧
      c1.getEventContext E = .ok (armedSlot tl cb) ∧
      (∀ E1, (E1 = READ ∨ E1 = WRITE) → E1 ≠ E →
        c1.getEventContext E1 = (s.ctxOrFresh fd).getEventContext E1) ∧
      s1.schedulers = s.schedulers ∧
      (E = WRITE → (s.ctxOrFresh fd).events = 0 → growTo fd ≤ 2147483647 →
        ∀ (cb2 : Option Nat) (tl2 : ThreadLocal) (rt2 : Int),
          cb2.isSome = true ∨ tl2.t_fiber_running = true →
          ∃ s2, s1.addEvent fd READ cb2 tl2 rt2 = .ok (0, s2)) := by
  have hinv := h.inv
  have heq := addEvent_eq hinv cb tl rt hfd hE hbit hrun
  have hg1 := hinv.grown_ne hfd ((FdContext.mk (s.ctxOrFresh fd).read (s.ctxOrFresh fd).write
    (s.ctxOrFresh fd).fd ((s.ctxOrFresh fd).events ||| E)).setEventContext E (armedSlot tl cb))
  refine ⟨_, _, heq, hg1, ?_, rfl, ?_, ?_, ?_, rfl, ?_⟩
  · rcases hE with rfl | rfl <;> rfl
  · show _ ++ [EpollCtl.mk _ _ _] = _ ++ [EpollCtl.mk _ _ _]
    by_cases h0 : (s.ctxOrFresh fd).events = 0
    · rw [if_pos h0, if_neg (not_not.2 h0)]
    · rw [if_neg h0, if_pos h0]
  · rcases hE with rfl | rfl <;> rfl
  · rintro E1 (rfl | rfl) hne
    · rcases hE with rfl | rfl
      · exact absurd rfl hne
      · rfl
    · rcases hE with rfl | rfl
      · rfl
      · exact absurd rfl hne
  · intro hW h0 hg cb2 tl2 rt2 hrun2
    subst hW
    have hreach1 := Reachable.addEvent fd WRITE cb tl rt h hg heq
    have hfresh : IOManager.ctxOrFresh (IOManager.mk
        ((if toInt32 s.m_fd_contexts.length > fd then s
          else s.contextResize (growTo fd)).m_fd_contexts.set fd.toNat
          ((FdContext.mk (s.ctxOrFresh fd).read (s.ctxOrFresh fd).write (s.ctxOrFresh fd).fd
            ((s.ctxOrFresh fd).events ||| WRITE)).setEventContext WRITE (armedSlot tl cb)))
        (s.m_pending_event_count + 1)
        (s.epoll ++ [EpollCtl.mk
          (if (s.ctxOrFresh fd).events ≠ 0 then EPOLL_CTL_MOD else EPOLL_CTL_ADD) fd
          (EPOLLET ||| (s.ctxOrFresh fd).events ||| WRITE)])
        s.schedulers) fd =
        (FdContext.mk (s.ctxOrFresh fd).read (s.ctxOrFresh fd).write (s.ctxOrFresh fd).fd
            ((s.ctxOrFresh fd).events ||| WRITE)).setEventContext WRITE (armedSlot tl cb) :=
      ctxOrFresh_of_get hg1
    have hbit2 : (IOManager.ctxOrFresh (IOManager.mk
        ((if toInt32 s.m_fd_contexts.length > fd then s
          else s.contextResize (growTo fd)).m_fd_contexts.set fd.toNat
          ((FdContext.mk (s.ctxOrFresh fd).read (s.ctxOrFresh fd).write (s.ctxOrFresh fd).fd
            ((s.ctxOrFresh fd).events ||| WRITE)).setEventContext WRITE (armedSlot tl cb)))
        (s.m_pending_event_count + 1)
        (s.epoll ++ [EpollCtl.mk
          (if (s.ctxOrFresh fd).events ≠ 0 then EPOLL_CTL_MOD else EPOLL_CTL_ADD) fd
          (EPOLLET ||| (s.ctxOrFresh fd).events ||| WRITE)])
        s.schedulers) fd).events &&& READ = 0 := by
      rw [hfresh]
      show ((s.ctxOrFresh fd).events ||| WRITE) &&& READ = 0
      rw [h0]
      decide
    exact ⟨_, addEvent_eq hreach1.inv cb2 tl2 rt2 hfd (Or.inl rfl) hbit2 hrun2⟩

/-- C5, amended. For `fd >= 0` (with a table size that fits an `int`) and `E`
in `{READ, WRITE}` not registered on `fd`, `addEvent(fd, E, cb)` made on a
thread whose current scheduler is live, followed by a `cancelEvent(fd, E)`
whose `epoll_ctl` call succeeds, leaves the `FdContext` of `fd` (mask and both
slots) and `m_pending_event_count` equal to their values before the
`addEvent`; the `FdContext` of an `fd` beyond the table counts as the fresh
one the table is grown with. -/
theorem addEvent_cancelEvent_roundtrip (s : IOManager) (h : Reachable s) (fd : Int) (E : Nat)
    (cb : Option Nat) (tl : ThreadLocal) (rt : Int) (p : Nat) (q : Scheduler)
    (hfd : 0 ≤ fd) (hg : growTo fd ≤ 2147483647) (hE : E = READ ∨ E = WRITE)
    (hbit : (s.ctxOrFresh fd).events &&& E = 0)
    (hrun : cb.isSome = true ∨ tl.t_fiber_running = true)
    (hp : tl.t_scheduler = some p) (hq : s.schedulers[p]? = some q) :
    ∃ s1 s2, s.addEvent fd E cb tl rt = .ok (0, s1) ∧
      s1.cancelEvent fd E 0 = .ok (true, s2) ∧
      s2.m_fd_contexts[fd.toNat]? = some (s.ctxOrFresh fd) ∧
      s2.m_pending_event_count = s.m_pending_event_count := by
  have hinv := h.inv
  have hc0 := hinv.ctxOrFresh_ok fd
  have heq := addEvent_eq hinv cb tl rt hfd hE hbit hrun
  have hinv1 := (Reachable.addEvent fd E cb tl rt h hg heq).inv
  have hsched : (armedSlot tl cb).scheduler = some p := by
    unfold armedSlot
    split <;> exact hp
  rcases hE with rfl | rfl
  · have hg1 := hinv.grown_ne hfd (FdContext.mk (armedSlot tl cb) (s.ctxOrFresh fd).write
      (s.ctxOrFresh fd).fd ((s.ctxOrFresh fd).events ||| READ))
    obtain ⟨-, f2, -, -, f5⟩ := mask_set_read hc0.mask
    have hc := cancelEvent_read hinv1 hfd hg1 f2 hsched hq
    refine ⟨_, _, heq, hc, ?_, ?_⟩
    · rw [show (FdContext.mk EventContext.empty (s.ctxOrFresh fd).write (s.ctxOrFresh fd).fd
        (andNot ((s.ctxOrFresh fd).events ||| READ) READ)) = s.ctxOrFresh fd by
          rw [f5 hbit, ← hc0.read hbit]]
      simp only [List.set_set]
      exact hinv.grown_ne hfd _
    · show s.m_pending_event_count + 1 - 1 = s.m_pending_event_count
      omega
  · have hg1 := hinv.grown_ne hfd (FdContext.mk (s.ctxOrFresh fd).read (armedSlot tl cb)
      (s.ctxOrFresh fd).fd ((s.ctxOrFresh fd).events ||| WRITE))
    obtain ⟨-, f2, -, -, f5⟩ := mask_set_write hc0.mask
    have hc := cancelEvent_write hinv1 hfd hg1 f2 hsched hq
    refine ⟨_, _, heq, hc, ?_, ?_⟩
    · rw [show (FdContext.mk (s.ctxOrFresh fd).read EventContext.empty (s.ctxOrFresh fd).fd
        (andNot ((s.ctxOrFresh fd).events ||| WRITE) WRITE)) = s.ctxOrFresh fd by
          rw [f5 hbit, ← hc0.write hbit]]
      simp only [List.set_set]
      exact hinv.grown_ne hfd _
    · show s.m_pending_event_count + 1 - 1 = s.m_pending_event_count
      omega

theorem testReadCtx_get : testRead.m_fd_contexts[(5 : Int).toNat]? = some testReadCtx := rfl

/-- Witness of C1: after `addEvent(5, READ, cb)` the counter and the number of
registered pairs are both 1. -/
theorem pending_event_count_witness :
    Reachable testRead ∧ testRead.m_pending_event_count = testRead.registeredPairs ∧
      testRead.registeredPairs = 1 :=
  ⟨testRead_reachable, pending_event_count_eq_registeredPairs testRead testRead_reachable, rfl⟩

/-- C2, the failing input. `READ` alone is registered on descriptor 5 and
`idle` is handed a report with `EPOLLIN | EPOLLOUT` for it: after firing
`READ` the loop calls `triggerEvent(WRITE)` for the direction that is ready but
not registered, and the `assert` of `triggerEvent` aborts; with `WRITE` alone
registered the same report calls `triggerEvent(READ)` on the empty slot, whose
scheduler pointer is null. -/
theorem idle_fires_unregistered_direction :
    testManager.addEvent 5 READ (some 11) testThread 0 = .ok (0, testRead) ∧
      testRead.idleEvent (EpollEvent.mk (EPOLLIN ||| EPOLLOUT) (some 5)) 0 = .error .assertion ∧
      testManager.addEvent 5 WRITE (some 12) testThread 0 = .ok (0, testWrite) ∧
      testWrite.idleEvent (EpollEvent.mk (EPOLLIN ||| EPOLLOUT) (some 5)) 0 =
        .error .nullDeref :=
  ⟨rfl, rfl, rfl, rfl⟩

/-- Witness of C3 on the scenario of `test.cpp`: `WRITE` is registered on a
descriptor with an empty mask. -/
theorem addEvent_registers_witness :
    Reachable testManager ∧ (0 : Int) ≤ 5 ∧
      ∃ s1 c1, testManager.addEvent 5 WRITE (some 12) testThread 0 = .ok (0, s1) ∧
        s1.m_fd_contexts[(5 : Int).toNat]? = some c1 ∧
        c1.events = (testManager.ctxOrFresh 5).events ||| WRITE ∧
        s1.m_pending_event_count = testManager.m_pending_event_count + 1 := by
  refine ⟨Reachable.new 3 _, by decide, ?_⟩
  obtain ⟨s1, c1, h1, h2, h3, h4, -⟩ := addEvent_registers testManager (Reachable.new 3 _) 5
    WRITE (some 12) testThread 0 (by decide) (Or.inr rfl) (by decide) (Or.inl rfl)
  exact ⟨s1, c1, h1, h2, h3, h4⟩

/-- Witness of C4: a second `addEvent(5, READ, ...)` is rejected. -/
theorem addEvent_registered_rejected_witness :
    Reachable testRead ∧ testReadCtx.events &&& READ ≠ 0 ∧
      testRead.addEvent 5 READ (some 13) testThread 0 = .ok (-1, testRead) :=
  ⟨testRead_reachable, by decide,
    addEvent_registered_rejected testRead testRead_reachable 5 READ (some 13) testThread 0
      testReadCtx (by decide) testReadCtx_get (by decide)⟩

/-- Counterexample to C5 as stated: when the `epoll_ctl` call of `cancelEvent`
fails, the descriptor stays registered and the counter stays incremented; and
when `addEvent` ran on a thread without a current scheduler, `cancelEvent`
calls `scheduleLock` through the null pointer it recorded. -/
theorem addEvent_cancelEvent_roundtrip_counterexample :
    testManager.addEvent 5 READ (some 11) testThread 0 = .ok (0, testRead) ∧
      testRead.cancelEvent 5 READ (-1) =
        .ok (true, testRead.epoll_ctl EPOLL_CTL_DEL 5 EPOLLET) ∧
      (testRead.epoll_ctl EPOLL_CTL_DEL 5 EPOLLET).m_fd_contexts[5]? ≠
        testManager.m_fd_contexts[5]? ∧
      (testRead.epoll_ctl EPOLL_CTL_DEL 5 EPOLLET).m_pending_event_count ≠
        testManager.m_pending_event_count ∧
      testManager.addEvent 5 READ (some 11) orphanThread 0 = .ok (0, testOrphan) ∧
      testOrphan.cancelEvent 5 READ 0 = .error .nullDeref :=
  ⟨rfl, rfl, by decide, by decide, rfl, rfl⟩

/-- Witness of C5, amended. -/
theorem addEvent_cancelEvent_roundtrip_witness :
    Reachable testManager ∧
      ∃ s1 s2, testManager.addEvent 5 READ (some 11) testThread 0 = .ok (0, s1) ∧
        s1.cancelEvent 5 READ 0 = .ok (true, s2) ∧
        s2.m_fd_contexts[(5 : Int).toNat]? = some (testManager.ctxOrFresh 5) ∧
        s2.m_pending_event_count = testManager.m_pending_event_count :=
  ⟨Reachable.new 3 _, addEvent_cancelEvent_roundtrip testManager (Reachable.new 3 _) 5 READ
    (some 11) testThread 0 0 (Scheduler.mk [] 0) (by decide) (by decide) (Or.inl rfl)
    (by decide) (Or.inl rfl) rfl rfl⟩

/-- Counterexample to C6 as stated: when the `epoll_ctl` call fails,
`cancelEvent` returns `true` although it enqueued nothing and left the slot
armed; and on a registration that recorded a null scheduler pointer it
enqueues nothing and does not return. -/
theorem cancelEvent_fires_once_counterexample :
    testReadCtx.events &&& READ ≠ 0 ∧
      testRead.cancelEvent 5 READ (-1) =
        .ok (true, testRead.epoll_ctl EPOLL_CTL_DEL 5 EPOLLET) ∧
      tasksOf (testRead.epoll_ctl EPOLL_CTL_DEL 5 EPOLLET).schedulers 0 =
        tasksOf testRead.schedulers 0 ∧
      (testRead.epoll_ctl EPOLL_CTL_DEL 5 EPOLLET).m_fd_contexts[5]? = some testReadCtx ∧
      testOrphan.cancelEvent 5 READ 0 = .error .nullDeref :=
  ⟨by decide, rfl, rfl, rfl, rfl⟩

/-- Witness of C6, amended: the callable 11 registered for `READ` on
descriptor 5 is enqueued once. -/
theorem cancelEvent_fires_once_witness :
    Reachable testRead ∧
      ∃ s1 c1, testRead.cancelEvent 5 READ 0 = .ok (true, s1) ∧
        s1.m_fd_contexts[(5 : Int).toNat]? = some c1 ∧ c1.events &&& READ = 0 ∧
        c1.getEventContext READ = .ok EventContext.empty ∧
        tasksOf s1.schedulers 0 = [] ++ [testReadCtx.read.task] := by
  refine ⟨testRead_reachable, ?_⟩
  obtain ⟨s1, c1, h1, h2, h3, h4, h5, -⟩ := cancelEvent_fires_once testRead testRead_reachable 5
    READ testReadCtx testReadCtx.read 0 (Scheduler.mk [] 0) (by decide) testReadCtx_get
    (Or.inl rfl) (by decide) rfl rfl rfl
  exact ⟨s1, c1, h1, h2, h3, h4, h5⟩

/-- Counterexample to C7 as stated: when the `epoll_ctl` call fails,
`cancelAll` returns `true` on a descriptor with a registered event although
the mask, the slots, the counter and the task queue are unchanged; and on a
registration that recorded a null scheduler pointer it does not return. -/
theorem cancelAll_fires_each_counterexample :
    testReadCtx.events ≠ 0 ∧
      testRead.cancelAll 5 (-1) = .ok (true, testRead.epoll_ctl EPOLL_CTL_DEL 5 0) ∧
      (testRead.epoll_ctl EPOLL_CTL_DEL 5 0).m_fd_contexts[5]? = some testReadCtx ∧
      (testRead.epoll_ctl EPOLL_CTL_DEL 5 0).m_pending_event_count =
        testRead.m_pending_event_count ∧
      tasksOf (testRead.epoll_ctl EPOLL_CTL_DEL 5 0).schedulers 0 = [] ∧
      testOrphan.cancelAll 5 0 = .error .nullDeref :=
  ⟨by decide, rfl, rfl, rfl, rfl, rfl⟩

/-- Witness of C7, amended. -/
theorem cancelAll_fires_each_witness :
    Reachable testRead ∧
      ∃ s1, testRead.cancelAll 5 0 = .ok (true, s1) ∧
        s1.m_fd_contexts[(5 : Int).toNat]? =
          some (FdContext.mk EventContext.empty EventContext.empty testReadCtx.fd 0) ∧
        s1.m_pending_event_count + registeredIn testReadCtx.events =
          testRead.m_pending_event_count := by
  refine ⟨testRead_reachable, ?_⟩
  obtain ⟨s1, h1, h2, h3, -⟩ := (cancelAll_fires_each testRead testRead_reachable 5).1
    testReadCtx (by decide) testReadCtx_get (by decide)
    (fun _ => ⟨0, Scheduler.mk [] 0, rfl, rfl⟩) (fun hw => absurd (by decide) hw)
  exact ⟨s1, h1, h2, h3⟩

/-- Counterexample to C8 as stated: when the `epoll_ctl` call fails, `delEvent`
leaves the bit set and the counter as it was. -/
theorem delEvent_clears_without_firing_counterexample :
    testReadCtx.events &&& READ ≠ 0 ∧
      testRead.delEvent 5 READ (-1) =
        .ok (true, testRead.epoll_ctl EPOLL_CTL_DEL 5 EPOLLET) ∧
      (testRead.epoll_ctl EPOLL_CTL_DEL 5 EPOLLET).m_fd_contexts[5]? = some testReadCtx ∧
      (testRead.epoll_ctl EPOLL_CTL_DEL 5 EPOLLET).m_pending_event_count =
        testRead.m_pending_event_count :=
  ⟨by decide, rfl, rfl, rfl⟩

/-- Witness of C8, amended. -/
theorem delEvent_clears_without_firing_witness :
    Reachable testRead ∧
      ∃ s1 c1, testRead.delEvent 5 READ 0 = .ok (true, s1) ∧
        s1.m_fd_contexts[(5 : Int).toNat]? = some c1 ∧ c1.events &&& READ = 0 ∧
        s1.m_pending_event_count + 1 = testRead.m_pending_event_count ∧
        s1.schedulers = testRead.schedulers := by
  refine ⟨testRead_reachable, ?_⟩
  obtain ⟨s1, c1, h1, -, h2, -, h3, -, -, h4, h5⟩ :=
    (delEvent_clears_without_firing testRead testRead_reachable 5 READ).1
      testReadCtx (by decide) testReadCtx_get (Or.inl rfl) (by decide)
  exact ⟨s1, c1, h1, h2, h3, h4, h5⟩

/-- C9, the failing input. Two recurring timers of period 10 ms are due at
5 ms and 6 ms and `listExpiredCb` runs at 7 ms with no rollover: both callables
are appended, the first timer is reinserted at 17 ms, and the second, whose new
`m_next` is 17 ms as well, is rejected by `m_timers.insert` because
`Timer::Comparator` finds it equivalent to the first: the set is left with the
first timer only. -/
theorem listExpiredCb_drops_tied_recurring :
    twoRecurring.listExpiredCb 7000000 7000000 3 [] =
      some (.ok (TimerManager.mk
        [Timer.mk true 10 17000000 (some 1), Timer.mk true 10 17000000 (some 2)]
        [0] false 7000000, [some 1, some 2])) ∧
    (twoRecurring.detectClockRollover 7000000).1 = false :=
  ⟨rfl, rfl⟩

theorem expireLoop_rolled (fuel : Nat) (cbs : List (Option Nat)) :
    TimerManager.expireLoop true 0 fuel oneRecurringRolled cbs = none := by
  induction fuel generalizing cbs with
  | zero => rfl
  | succ n ih => exact ih (cbs ++ [some 1])

/-- C10, the failing input. One recurring timer is pending and the clock reads
0 after having read 2 h: the rollover is detected, the first pass of the loop
appends the callable and reinserts the timer at `0 + 10 ms`, every further
pass does the same, and the loop is not left after any number of passes. -/
theorem listExpiredCb_rollover_recurring_diverges :
    (oneRecurring.detectClockRollover 0).1 = true ∧
    (oneRecurring.detectClockRollover 0).2.expireHead 0 0
        (Timer.mk true 10 7205000000000 (some 1)) [] [] = (oneRecurringRolled, [some 1]) ∧
    (∀ cbs, oneRecurringRolled.expireHead 0 0 (Timer.mk true 10 10000000 (some 1)) [] cbs =
        (oneRecurringRolled, cbs ++ [some 1])) ∧
    ∀ fuel, oneRecurring.listExpiredCb 0 0 fuel [] = none := by
  refine ⟨rfl, rfl, fun _ => rfl, ?_⟩
  intro fuel
  cases fuel with
  | zero => rfl
  | succ n => exact expireLoop_rolled n [some 1]

/-! ### Timers: ties, cleared callables, the next deadline -/

theorem setInsert_tie (tm : TimerManager) (t x : Nat) (l : List Nat)
    (hs : l.Pairwise (fun a b => tm.next a < tm.next b)) (hx : x ∈ l)
    (he : tm.next x = tm.next t) : tm.setInsert t l = l := by
  induction l with
  | nil => cases hx
  | cons y ys ih =>
    rw [List.pairwise_cons] at hs
    rcases List.mem_cons.1 hx with rfl | hmem
    · simp [TimerManager.setInsert, TimerManager.comparator, he]
    · have hlt : tm.next y < tm.next t := he ▸ hs.1 x hmem
      have h1 : ¬ tm.next t < tm.next y := by omega
      simp [TimerManager.setInsert, TimerManager.comparator, h1, hlt, ih hs.2 hmem]

theorem next_append_lt (tm : TimerManager) (x : Timer) (y : Nat) (hy : y < tm.heap.length) :
    TimerManager.next { tm with heap := tm.heap ++ [x] } y = tm.next y := by
  simp [TimerManager.next, List.getElem?_append_left hy]

theorem next_append_new (tm : TimerManager) (x : Timer) :
    TimerManager.next { tm with heap := tm.heap ++ [x] } tm.heap.length = x.m_next := by
  simp [TimerManager.next]

/-- C11, in general. When a timer of the set (ordered by `m_next`, its handles
in the heap) has the `m_next` that the new timer gets, `addTimer(ms, cb,
recurring)` creates the timer but `m_timers.insert` inserts nothing: the set is
the one before the call, its size has not grown and it does not contain the
new handle. -/
theorem addTimer_tie_dropped (tm : TimerManager) (ms : Nat) (cb : Option Nat) (recurring : Bool)
    (now : Int) (x : Nat)
    (hs : tm.m_timers.Pairwise (fun a b => tm.next a < tm.next b))
    (hh : ∀ y ∈ tm.m_timers, y < tm.heap.length)
    (hx : x ∈ tm.m_timers) (he : tm.next x = now + msTicks ms) :
    (tm.addTimer ms cb recurring now).1 = tm.heap.length ∧
    (tm.addTimer ms cb recurring now).2.2.heap = tm.heap ++ [Timer.new ms cb recurring now] ∧
    (tm.addTimer ms cb recurring now).2.2.m_timers = tm.m_timers ∧
    (tm.addTimer ms cb recurring now).2.2.m_timers.length = tm.m_timers.length ∧
    (tm.addTimer ms cb recurring now).1 ∉ (tm.addTimer ms cb recurring now).2.2.m_timers := by
  have key : TimerManager.setInsert { tm with heap := tm.heap ++ [Timer.new ms cb recurring now] }
      tm.heap.length tm.m_timers = tm.m_timers := by
    apply setInsert_tie _ _ x
    · refine hs.imp_of_mem ?_
      intro a b ha hb hab
      rw [next_append_lt tm _ a (hh a ha), next_append_lt tm _ b (hh b hb)]
      exact hab
    · exact hx
    · rw [next_append_lt tm _ x (hh x hx), next_append_new, he]
      rfl
  have hm : (tm.addTimer ms cb recurring now).2.2.m_timers = tm.m_timers := by
    simp only [TimerManager.addTimer, TimerManager.addTimerPtr, TimerManager.insert]
    split <;> exact key
  have hheap : (tm.addTimer ms cb recurring now).2.2.heap
      = tm.heap ++ [Timer.new ms cb recurring now] := by
    simp only [TimerManager.addTimer, TimerManager.addTimerPtr, TimerManager.insert]
    split <;> rfl
  refine ⟨rfl, hheap, hm, by rw [hm], ?_⟩
  rw [hm]
  intro hmem
  exact Nat.lt_irrefl _ (hh _ hmem)

/-- C11, the failing input. A one-shot timer with callable 1 is due at 5 ms;
`addTimer(5, cb 2)` at clock reading 0 gives the new timer the same `m_next`,
and the set still holds the first timer only; `listExpiredCb` at 5 ms appends
callable 1 alone and leaves the set empty. -/
theorem addTimer_tie_dropped_witness :
    (oneShot.m_timers.Pairwise (fun a b => oneShot.next a < oneShot.next b) ∧
      (∀ y ∈ oneShot.m_timers, y < oneShot.heap.length) ∧
      0 ∈ oneShot.m_timers ∧ oneShot.next 0 = 0 + msTicks 5) ∧
    ((oneShot.addTimer 5 (some 2) false 0).1 = oneShot.heap.length ∧
      (oneShot.addTimer 5 (some 2) false 0).2.2.heap
        = oneShot.heap ++ [Timer.new 5 (some 2) false 0] ∧
      (oneShot.addTimer 5 (some 2) false 0).2.2.m_timers = oneShot.m_timers ∧
      (oneShot.addTimer 5 (some 2) false 0).2.2.m_timers.length = oneShot.m_timers.length ∧
      (oneShot.addTimer 5 (some 2) false 0).1 ∉ (oneShot.addTimer 5 (some 2) false 0).2.2.m_timers) ∧
    (oneShot.addTimer 5 (some 2) false 0).2.2.listExpiredCb 5000000 5000000 2 [] =
      some (.ok (TimerManager.mk
        [Timer.mk false 5 5000000 none, Timer.mk false 5 5000000 (some 2)]
        [] true 5000000, [some 1])) :=
  ⟨⟨by decide, by decide, by decide, by decide⟩,
   addTimer_tie_dropped oneShot 5 (some 2) false 0 0 (by decide) (by decide) (by decide)
     (by decide),
   rfl⟩

/-- C12. On a timer whose callable is cleared, `cancel()` returns false,
`refresh()` returns false, `reset(ms, from_now)` returns true when `ms` is the
period and `from_now` is false and returns false otherwise, and after each of
them the manager (the timer objects, the set, the tickled flag) is the one
before the call; `reset` does not call `onTimerInsertedAtFront()`. -/
theorem cleared_timer_ops_noop (tm : TimerManager) (t : Nat) (self : Timer)
    (ht : tm.heap[t]? = some self) (hcb : self.m_cb = none) :
    Timer.cancel tm t = .ok (false, tm) ∧
    (∀ now, Timer.refresh tm t now = .ok (false, tm)) ∧
    (∀ ms from_now now,
      Timer.reset tm t ms from_now now = .ok (ms == self.m_ms && !from_now, false, tm)) := by
  refine ⟨?_, ?_, ?_⟩
  · simp [Timer.cancel, ht, hcb]
  · intro now
    simp [Timer.refresh, ht, hcb]
  · intro ms from_now now
    simp only [Timer.reset, ht, hcb]
    by_cases h : (ms == self.m_ms && !from_now) = true
    · simp [h]
    · simp only [Bool.not_eq_true] at h
      simp [h]

/-- C12 on the second timer of `twoRecurring`, cancelled once (the first
`cancel()` returns true and takes it out of the set). -/
theorem cleared_timer_ops_noop_witness :
    Timer.cancel twoRecurring 1 = .ok (true, twoRecurringCancelled) ∧
    (twoRecurringCancelled.heap[1]? = some (Timer.mk true 10 6000000 none) ∧
      (Timer.mk true 10 6000000 none).m_cb = none) ∧
    (Timer.cancel twoRecurringCancelled 1 = .ok (false, twoRecurringCancelled) ∧
      (∀ now, Timer.refresh twoRecurringCancelled 1 now = .ok (false, twoRecurringCancelled)) ∧
      (∀ ms from_now now,
        Timer.reset twoRecurringCancelled 1 ms from_now now
          = .ok (ms == (Timer.mk true 10 6000000 none).m_ms && !from_now, false,
              twoRecurringCancelled))) :=
  ⟨rfl, ⟨rfl, rfl⟩, cleared_timer_ops_noop twoRecurringCancelled 1 _ rfl rfl⟩

theorem toUInt64_toMilliseconds (d : Int) (h0 : 0 < d) (h1 : d ≤ 9223372036854775807) :
    toUInt64 (toMilliseconds d) ≠ UINT64_MAX ∧
    (toUInt64 (toMilliseconds d) : Int) * 1000000 ≤ d ∧
    d < ((toUInt64 (toMilliseconds d) : Int) + 1) * 1000000 := by
  have hq : toMilliseconds d = d / 1000000 := by
    unfold toMilliseconds
    exact Int.tdiv_eq_ediv (by omega) (by omega)
  rw [hq]
  unfold toUInt64 UINT64_MAX
  omega

/-- C13. `getNextTimer()` returns and leaves the manager as it was but for the
tickled flag, which is false afterwards. The result is `~0ull` exactly when
the set is empty; it is 0 when the head of the set has `m_next <= now`; and
otherwise it is the number `r` of whole milliseconds from `now` to the
head's `m_next`: `r ms <= m_next - now < (r + 1) ms`. The head of the set is
taken to point into the heap and its distance from `now` to be a value of the
clock's 64-bit tick count. -/
theorem getNextTimer_spec (tm : TimerManager) (now : Int)
    (hh : ∀ t, tm.m_timers.head? = some t →
      ∃ x, tm.heap[t]? = some x ∧ x.m_next - now ≤ 9223372036854775807) :
    ∃ r, tm.getNextTimer now = .ok (r, { tm with m_tickled := false }) ∧
      (r = UINT64_MAX ↔ tm.m_timers = []) ∧
      (∀ t x, tm.m_timers.head? = some t → tm.heap[t]? = some x →
        (x.m_next ≤ now → r = 0) ∧
        (now < x.m_next →
          (r : Int) * 1000000 ≤ x.m_next - now ∧ x.m_next - now < ((r : Int) + 1) * 1000000)) := by
  cases hl : tm.m_timers with
  | nil =>
    refine ⟨UINT64_MAX, ?_, by simp, ?_⟩
    · simp [TimerManager.getNextTimer, hl]
    · intro t x h
      simp at h
  | cons t rest =>
    obtain ⟨x, hx, hd⟩ := hh t (by simp [hl])
    by_cases hnow : x.m_next ≤ now
    · refine ⟨0, ?_, ?_, ?_⟩
      · simp [TimerManager.getNextTimer, hl, hx, hnow]
      · simp [UINT64_MAX]
      · intro t1 x1 h1 h2
        simp only [List.head?_cons, Option.some.injEq] at h1
        subst h1
        rw [hx] at h2
        cases h2
        exact ⟨fun _ => rfl, fun h => absurd hnow (by omega)⟩
    · have hpos : 0 < x.m_next - now := by omega
      obtain ⟨k1, k2, k3⟩ := toUInt64_toMilliseconds (x.m_next - now) hpos hd
      refine ⟨toUInt64 (toMilliseconds (x.m_next - now)), ?_, ?_, ?_⟩
      · simp [TimerManager.getNextTimer, hl, hx, hnow]
      · simp [k1]
      · intro t1 x1 h1 h2
        simp only [List.head?_cons, Option.some.injEq] at h1
        subst h1
        rw [hx] at h2
        cases h2
        exact ⟨fun h => absurd h hnow, fun _ => ⟨k2, k3⟩⟩

/-- C13 on the set `oneShot` (one timer due at 5 ms) read at 3.999999 ms: the
result is 1. -/
theorem getNextTimer_spec_witness :
    (∀ t, oneShot.m_timers.head? = some t →
      ∃ x, oneShot.heap[t]? = some x ∧ x.m_next - 3999999 ≤ 9223372036854775807) ∧
    oneShot.getNextTimer 3999999 = .ok (1, { oneShot with m_tickled := false }) ∧
    ∃ r, oneShot.getNextTimer 3999999 = .ok (r, { oneShot with m_tickled := false }) ∧
      (r = UINT64_MAX ↔ oneShot.m_timers = []) ∧
      (∀ t x, oneShot.m_timers.head? = some t → oneShot.heap[t]? = some x →
        (x.m_next ≤ 3999999 → r = 0) ∧
        ((3999999 : Int) < x.m_next →
          (r : Int) * 1000000 ≤ x.m_next - 3999999 ∧
            x.m_next - 3999999 < ((r : Int) + 1) * 1000000)) :=
  have h : ∀ t, oneShot.m_timers.head? = some t →
      ∃ x, oneShot.heap[t]? = some x ∧ x.m_next - 3999999 ≤ 9223372036854775807 := by
    intro t ht
    cases ht
    exact ⟨_, rfl, by decide⟩
  ⟨h, rfl, getNextTimer_spec oneShot 3999999 h⟩

/-! ### `refresh` -/

theorem setFind_mem (tm : TimerManager) (t : Nat) (l : List Nat)
    (hs : l.Pairwise (fun a b => tm.next a < tm.next b)) (ht : t ∈ l) :
    ∃ i, tm.setFind t l = some i ∧ l.eraseIdx i = l.filter (fun y => decide (y ≠ t)) := by
  induction l with
  | nil => cases ht
  | cons y ys ih =>
    rw [List.pairwise_cons] at hs
    by_cases hy : y = t
    · subst hy
      refine ⟨0, by simp [TimerManager.setFind, TimerManager.comparator], ?_⟩
      have hnot : ∀ z ∈ ys, z ≠ y := by
        intro z hz hzy
        have := hs.1 z hz
        rw [hzy] at this
        exact absurd this (lt_irrefl _)
      simp only [List.eraseIdx_cons_zero]
      rw [List.filter_cons_of_neg (by simp)]
      symm
      rw [List.filter_eq_self]
      intro z hz
      simpa using hnot z hz
    · have hmem : t ∈ ys := by
        rcases List.mem_cons.1 ht with h | h
        · exact absurd h.symm hy
        · exact h
      obtain ⟨i, hi, he⟩ := ih hs.2 hmem
      have hlt : tm.next y < tm.next t := hs.1 t hmem
      refine ⟨i + 1, by simp [TimerManager.setFind, TimerManager.comparator, hlt, hi], ?_⟩
      rw [List.eraseIdx_cons_succ, he, List.filter_cons_of_pos (by simpa using hy)]

theorem mem_setInsert (tm : TimerManager) (t y : Nat) (l : List Nat)
    (hs : l.Pairwise (fun a b => tm.next a < tm.next b)) :
    y ∈ tm.setInsert t l ↔ y ∈ l ∨ (y = t ∧ ∀ z ∈ l, tm.next z ≠ tm.next t) := by
  induction l with
  | nil => simp [TimerManager.setInsert]
  | cons x xs ih =>
    rw [List.pairwise_cons] at hs
    by_cases h1 : tm.next t < tm.next x
    · have hall : ∀ z ∈ x :: xs, tm.next z ≠ tm.next t := by
        intro z hz
        rcases List.mem_cons.1 hz with rfl | hz
        · omega
        · have := hs.1 z hz
          omega
      simp only [TimerManager.setInsert, TimerManager.comparator, h1, decide_True, if_true]
      constructor
      · intro h
        rcases List.mem_cons.1 h with rfl | h
        · exact Or.inr ⟨rfl, hall⟩
        · exact Or.inl h
      · rintro (h | ⟨rfl, -⟩)
        · exact List.mem_cons_of_mem _ h
        · exact List.mem_cons_self _ _
    · by_cases h2 : tm.next x < tm.next t
      · simp only [TimerManager.setInsert, TimerManager.comparator, h1, h2, decide_True,
          decide_False, if_true, Bool.false_eq_true, if_false, List.mem_cons, ih hs.2]
        constructor
        · rintro (h | h | ⟨rfl, h⟩)
          · exact Or.inl (Or.inl h)
          · exact Or.inl (Or.inr h)
          · refine Or.inr ⟨rfl, ?_⟩
            intro z hz
            rcases hz with rfl | hz
            · omega
            · exact h z hz
        · rintro (h | ⟨rfl, h⟩)
          · rcases h with h | h
            · exact Or.inl h
            · exact Or.inr (Or.inl h)
          · exact Or.inr (Or.inr ⟨rfl, fun z hz => h z (Or.inr hz)⟩)
      · have heq : tm.next x = tm.next t := by omega
        simp only [TimerManager.setInsert, TimerManager.comparator, h1, h2, decide_False,
          Bool.false_eq_true, if_false]
        constructor
        · exact Or.inl
        · rintro (h | ⟨rfl, h⟩)
          · exact h
          · exact absurd heq (h x (List.mem_cons_self _ _))

theorem next_set_ne (tm : TimerManager) (l : List Nat) (t y : Nat) (x : Timer) (h : y ≠ t) :
    TimerManager.next { tm with m_timers := l, heap := tm.heap.set t x } y = tm.next y := by
  simp [TimerManager.next, List.getElem?_set_ne (Ne.symm h)]

theorem next_set_self (tm : TimerManager) (l : List Nat) (t : Nat) (x self : Timer)
    (h : tm.heap[t]? = some self) :
    TimerManager.next { tm with m_timers := l, heap := tm.heap.set t x } t = x.m_next := by
  have hlt : t < tm.heap.length := (List.getElem?_eq_some.1 h).1
  simp [TimerManager.next, List.getElem?_set_self hlt]

/-- C14, what `refresh()` does. For a timer `t` of the set (ordered by
`m_next`) with a callable, `refresh()` returns true, sets `t->m_next` to
`now + m_ms` and changes no other timer object; every other timer of the set
stays in it and none is added; `t` itself is in the set afterwards exactly
when no other timer of the set has `m_next` equal to the new `now + m_ms`
(otherwise `m_timers.insert` inserts nothing and `t` is dropped). When the old
`m_next` was computed at a clock reading `created <= now`, the new `m_next` is
not earlier than the old one. -/
theorem refresh_keeps_iff_no_tie (tm : TimerManager) (t : Nat) (self : Timer) (now : Int)
    (hs : tm.m_timers.Pairwise (fun a b => tm.next a < tm.next b))
    (ht : t ∈ tm.m_timers) (hself : tm.heap[t]? = some self) (hcb : self.m_cb ≠ none) :
    ∃ tm1, Timer.refresh tm t now = .ok (true, tm1) ∧
      tm1.heap = tm.heap.set t { self with m_next := now + msTicks self.m_ms } ∧
      (∀ y, y ≠ t → (y ∈ tm1.m_timers ↔ y ∈ tm.m_timers)) ∧
      (t ∈ tm1.m_timers ↔
        ∀ y ∈ tm.m_timers, y ≠ t → tm.next y ≠ now + msTicks self.m_ms) ∧
      (∀ created : Int, self.m_next = created + msTicks self.m_ms → created ≤ now →
        self.m_next ≤ now + msTicks self.m_ms) := by
  obtain ⟨i, hi, he⟩ := setFind_mem tm t tm.m_timers hs ht
  have hcb1 : self.m_cb.isNone = false := by
    cases h : self.m_cb with
    | none => exact absurd h hcb
    | some _ => rfl
  have hmemf : ∀ y, y ∈ tm.m_timers.filter (fun y => decide (y ≠ t)) ↔ y ∈ tm.m_timers ∧ y ≠ t := by
    intro y
    simp [List.mem_filter]
  have hs2 : (tm.m_timers.filter (fun y => decide (y ≠ t))).Pairwise
      (fun a b =>
        TimerManager.next { tm with m_timers := tm.m_timers.filter (fun y => decide (y ≠ t)),
                                    heap := tm.heap.set t
                                      { self with m_next := now + msTicks self.m_ms } } a
        < TimerManager.next { tm with m_timers := tm.m_timers.filter (fun y => decide (y ≠ t)),
                                      heap := tm.heap.set t
                                        { self with m_next := now + msTicks self.m_ms } } b) := by
    refine (hs.filter _).imp_of_mem ?_
    intro a b ha hb hab
    rw [next_set_ne tm _ t a _ ((hmemf a).1 ha).2, next_set_ne tm _ t b _ ((hmemf b).1 hb).2]
    exact hab
  refine ⟨TimerManager.insert
    { tm with m_timers := tm.m_timers.filter (fun y => decide (y ≠ t)),
              heap := tm.heap.set t { self with m_next := now + msTicks self.m_ms } } t,
    ?_, ?_, ?_, ?_, ?_⟩
  · simp only [Timer.refresh, hself, hcb1, hi, he]
    rfl
  · rfl
  · intro y hy
    simp only [TimerManager.insert]
    rw [mem_setInsert _ t y _ hs2, hmemf]
    constructor
    · rintro (h | ⟨h, -⟩)
      · exact h.1
      · exact absurd h hy
    · intro h
      exact Or.inl ⟨h, hy⟩
  · simp only [TimerManager.insert]
    rw [mem_setInsert _ t t _ hs2, hmemf]
    constructor
    · rintro (h | ⟨-, h⟩)
      · exact absurd rfl h.2
      · intro y hy hne
        have := h y ((hmemf y).2 ⟨hy, hne⟩)
        rw [next_set_ne tm _ t y _ hne, next_set_self tm _ t _ self hself] at this
        exact this
    · intro h
      refine Or.inr ⟨rfl, ?_⟩
      intro z hz
      rw [next_set_ne tm _ t z _ ((hmemf z).1 hz).2, next_set_self tm _ t _ self hself]
      exact h z ((hmemf z).1 hz).1 ((hmemf z).1 hz).2
  · intro created h1 h2
    omega

/-- C14, the failing input. In `refreshTie` the first timer (period 20 ms, due
at 25 ms) is refreshed when the clock reads 10 ms: its new `m_next`, 30 ms, is
the `m_next` of the second timer, `refresh()` returns true, and the set holds
the second timer only. -/
theorem refresh_keeps_iff_no_tie_witness :
    (refreshTie.m_timers.Pairwise (fun a b => refreshTie.next a < refreshTie.next b) ∧
      0 ∈ refreshTie.m_timers ∧
      refreshTie.heap[0]? = some (Timer.mk false 20 25000000 (some 1)) ∧
      (Timer.mk false 20 25000000 (some 1)).m_cb ≠ none) ∧
    Timer.refresh refreshTie 0 10000000 =
      .ok (true, TimerManager.mk
        [Timer.mk false 20 30000000 (some 1), Timer.mk false 10 30000000 (some 2)]
        [1] false 0) ∧
    ∃ tm1, Timer.refresh refreshTie 0 10000000 = .ok (true, tm1) ∧
      tm1.heap = refreshTie.heap.set 0
        { Timer.mk false 20 25000000 (some 1) with
          m_next := 10000000 + msTicks (Timer.mk false 20 25000000 (some 1)).m_ms } ∧
      (∀ y, y ≠ 0 → (y ∈ tm1.m_timers ↔ y ∈ refreshTie.m_timers)) ∧
      (0 ∈ tm1.m_timers ↔
        ∀ y ∈ refreshTie.m_timers, y ≠ 0 →
          refreshTie.next y ≠ 10000000 + msTicks (Timer.mk false 20 25000000 (some 1)).m_ms) ∧
      (∀ created : Int,
        (Timer.mk false 20 25000000 (some 1)).m_next
          = created + msTicks (Timer.mk false 20 25000000 (some 1)).m_ms →
        created ≤ 10000000 →
        (Timer.mk false 20 25000000 (some 1)).m_next
          ≤ 10000000 + msTicks (Timer.mk false 20 25000000 (some 1)).m_ms) :=
  ⟨⟨by decide, by decide, rfl, by decide⟩, rfl,
   refresh_keeps_iff_no_tie refreshTie 0 _ 10000000 (by decide) (by decide) rfl (by decide)⟩

/-! ### Fibers -/

theorem resume_eq (s : FiberThread) (f : Nat) (x : Fiber) (hx : s.fibers[f]? = some x)
    (s1 : FiberThread) :
    Fiber.resume s f = .ok s1 ↔
      x.m_state = .READY ∧ (s.switchFiber x).isSome ∧
      s1 = { s with fibers := s.fibers.set f { x with m_state := .RUNNING },
                    t_fiber := some f } := by
  unfold Fiber.resume
  simp only [hx, FiberThread.setThis, FiberThread.switchFiber]
  by_cases hst : x.m_state = .READY
  · simp only [hst, ne_eq, not_true_eq_false, if_false, true_and]
    cases hsw : (if x.m_run_in_scheduler = true then s.t_scheduler_fiber else s.t_thread_fiber) with
    | none => simp
    | some g =>
      simp only [Option.isSome_some, true_and, Except.ok.injEq]
      exact eq_comm
  · simp [hst]

theorem yield_eq (s : FiberThread) (f : Nat) (x : Fiber) (hx : s.fibers[f]? = some x)
    (s1 : FiberThread) :
    Fiber.yield s f = .ok s1 ↔
      (x.m_state = .RUNNING ∨ x.m_state = .TREM) ∧ (s.switchFiber x).isSome ∧
      s1 = { s with fibers := if x.m_state = .TREM then s.fibers
                              else s.fibers.set f { x with m_state := .READY },
                    t_fiber := s.switchFiber x } := by
  unfold Fiber.yield
  simp only [hx, FiberThread.setThis, FiberThread.switchFiber]
  by_cases hst : x.m_state = .RUNNING ∨ x.m_state = .TREM
  · simp only [hst, not_true_eq_false, if_false, true_and]
    by_cases ht : x.m_state = .TREM
    · simp only [ht, ne_eq, not_true_eq_false, if_false, if_true]
      cases hsw : (if x.m_run_in_scheduler = true then s.t_scheduler_fiber
          else s.t_thread_fiber) with
      | none => simp
      | some g =>
        simp only [Option.isSome_some, true_and, Except.ok.injEq]
        exact eq_comm
    · simp only [ht, ne_eq, not_false_eq_true, if_true, if_false]
      cases hsw : (if x.m_run_in_scheduler = true then s.t_scheduler_fiber
          else s.t_thread_fiber) with
      | none => simp
      | some g =>
        simp only [Option.isSome_some, true_and, Except.ok.injEq]
        exact eq_comm
  · simp [hst]

theorem mainFuncReturn_eq (s : FiberThread) (f : Nat) (x : Fiber) (hx : s.fibers[f]? = some x)
    (s1 : FiberThread) :
    Fiber.mainFuncReturn s f = .ok s1 ↔
      (s.switchFiber x).isSome ∧
      s1 = { s with fibers := s.fibers.set f { x with m_cb := none, m_state := .TREM },
                    t_fiber := s.switchFiber x } := by
  have hlt : f < s.fibers.length := (List.getElem?_eq_some.1 hx).1
  unfold Fiber.mainFuncReturn Fiber.yield
  simp only [hx, FiberThread.setThis, FiberThread.switchFiber, List.getElem?_set_self hlt,
    or_true, not_true_eq_false, if_false, ne_eq, List.set_set]
  cases hsw : (if x.m_run_in_scheduler = true then s.t_scheduler_fiber
      else s.t_thread_fiber) with
  | none => simp
  | some g =>
    simp only [Option.isSome_some, true_and, Except.ok.injEq]
    exact eq_comm

theorem reset_eq (s : FiberThread) (f : Nat) (x : Fiber) (hx : s.fibers[f]? = some x)
    (cb : Option Nat) (s1 : FiberThread) :
    Fiber.reset s f cb = .ok s1 ↔
      (x.m_state = .TREM ∧ x.m_stack ≠ none) ∧
      s1 = { s with fibers := s.fibers.set f { x with m_state := .READY, m_cb := cb } } := by
  unfold Fiber.reset
  simp only [hx]
  by_cases hst : x.m_stack ≠ none ∧ x.m_state = .TREM
  · simp only [hst, ne_eq, not_false_eq_true, and_self, not_true_eq_false, if_false,
      Except.ok.injEq, true_and]
    exact eq_comm
  · have hst2 : ¬ (x.m_state = .TREM ∧ x.m_stack ≠ none) := fun h => hst ⟨h.2, h.1⟩
    simp [hst, hst2]

/-- C15. For a fiber `f` of the thread, with object `x`:
`resume()` returns exactly when the state is `READY` (and the fiber to switch
from exists), and then `f` is `RUNNING` and current; `yield()` returns exactly
when the state is `RUNNING` or `TREM` (and the fiber to switch to exists), and
then `RUNNING` has become `READY` and `TREM` is kept; the completion of the
entry callable sets `TREM` and clears the callable; `reset(cb)` returns exactly
when the state is `TREM` and a stack is present, and then the state is `READY`
with the new callable. The resulting thread state is given in full: no other
fiber and no other field of `f` changes; creating a fiber changes no existing
fiber. -/
theorem fiber_state_machine (s : FiberThread) (f : Nat) (x : Fiber)
    (hx : s.fibers[f]? = some x) :
    (∀ s1, Fiber.resume s f = .ok s1 ↔
      x.m_state = .READY ∧ (s.switchFiber x).isSome ∧
      s1 = { s with fibers := s.fibers.set f { x with m_state := .RUNNING },
                    t_fiber := some f }) ∧
    (∀ s1, Fiber.yield s f = .ok s1 ↔
      (x.m_state = .RUNNING ∨ x.m_state = .TREM) ∧ (s.switchFiber x).isSome ∧
      s1 = { s with fibers := if x.m_state = .TREM then s.fibers
                              else s.fibers.set f { x with m_state := .READY },
                    t_fiber := s.switchFiber x }) ∧
    (∀ s1, Fiber.mainFuncReturn s f = .ok s1 ↔
      (s.switchFiber x).isSome ∧
      s1 = { s with fibers := s.fibers.set f { x with m_cb := none, m_state := .TREM },
                    t_fiber := s.switchFiber x }) ∧
    (∀ cb s1, Fiber.reset s f cb = .ok s1 ↔
      (x.m_state = .TREM ∧ x.m_stack ≠ none) ∧
      s1 = { s with fibers := s.fibers.set f { x with m_state := .READY, m_cb := cb } }) ∧
    (∀ cb stack ris, (s.newFiber cb stack ris).2.fibers[f]? = some x ∧
      (s.newFiber cb stack ris).2.fibers[(s.newFiber cb stack ris).1]?
        = some (Fiber.mk .READY stack cb ris)) ∧
    (∀ junk, (s.getThis junk).2.fibers[f]? = some x) := by
  have hlt : f < s.fibers.length := (List.getElem?_eq_some.1 hx).1
  refine ⟨resume_eq s f x hx, yield_eq s f x hx, mainFuncReturn_eq s f x hx,
    reset_eq s f x hx, ?_, ?_⟩
  · intro cb stack ris
    simp [FiberThread.newFiber, List.getElem?_append_left hlt, hx]
  · intro junk
    unfold FiberThread.getThis
    cases s.t_fiber with
    | some g => exact hx
    | none => simp [FiberThread.newMain, List.getElem?_append_left hlt, hx]

/-- C15 on the thread `mainAndOne`, whose second fiber is `READY`: `resume()`
returns with the fiber `RUNNING` and current, `yield()` and `reset()` do not
return, and after the completion of the entry callable the fiber is `TREM`
without a callable. -/
theorem fiber_state_machine_witness :
    mainAndOne.fibers[1]? = some (Fiber.mk .READY (some 1) (some 7) true) ∧
    Fiber.resume mainAndOne 1 = .ok mainAndOneResumed ∧
    (∀ s1, Fiber.yield mainAndOne 1 ≠ .ok s1) ∧
    (∀ cb s1, Fiber.reset mainAndOne 1 cb ≠ .ok s1) ∧
    Fiber.mainFuncReturn mainAndOneResumed 1 = .ok
      { fibers := [Fiber.mk .RUNNING none none false, Fiber.mk .TREM (some 1) none true],
        t_fiber := some 0, t_thread_fiber := some 0, t_scheduler_fiber := some 0 } :=
  ⟨rfl,
   ((fiber_state_machine mainAndOne 1 _ rfl).1 _).2 ⟨rfl, rfl, rfl⟩,
   fun s1 h => absurd (((fiber_state_machine mainAndOne 1 _ rfl).2.1 s1).1 h).1 (by decide),
   fun cb s1 h =>
     absurd (((fiber_state_machine mainAndOne 1 _ rfl).2.2.2.1 cb s1).1 h).1.1 (by decide),
   ((fiber_state_machine mainAndOneResumed 1 _ rfl).2.2.1 _).2 ⟨rfl, rfl⟩⟩

/-! ### The fibers with state `RUNNING` -/

theorem running_append (s : FiberThread) (y : Fiber) :
    FiberThread.running { s with fibers := s.fibers ++ [y] }
      = s.running + if y.m_state = .RUNNING then 1 else 0 := by
  unfold FiberThread.running
  by_cases h : y.m_state = .RUNNING <;> simp [List.filter_append, List.filter_cons, h]

theorem filter_running_set (l : List Fiber) (i : Nat) (x y : Fiber) (h : l[i]? = some x) :
    ((l.set i y).filter (fun x => decide (x.m_state = .RUNNING))).length
        + (if x.m_state = .RUNNING then 1 else 0)
      = (l.filter (fun x => decide (x.m_state = .RUNNING))).length
        + (if y.m_state = .RUNNING then 1 else 0) := by
  induction l generalizing i with
  | nil => simp at h
  | cons a as ih =>
    cases i with
    | zero =>
      simp only [List.getElem?_cons_zero, Option.some.injEq] at h
      subst h
      simp only [List.set_cons_zero, List.filter_cons]
      by_cases ha : a.m_state = .RUNNING <;> by_cases hy : y.m_state = .RUNNING <;>
        simp [ha, hy]
    | succ j =>
      simp only [List.getElem?_cons_succ] at h
      have := ih j h
      simp only [List.set_cons_succ, List.filter_cons]
      by_cases ha : a.m_state = .RUNNING <;> simp [ha] <;> omega

theorem running_set (s : FiberThread) (i : Nat) (x y : Fiber) (tf : Option Nat)
    (h : s.fibers[i]? = some x) :
    FiberThread.running { s with fibers := s.fibers.set i y, t_fiber := tf }
        + (if x.m_state = .RUNNING then 1 else 0)
      = s.running + (if y.m_state = .RUNNING then 1 else 0) :=
  filter_running_set s.fibers i x y h

theorem iff_set_push (l : List Fiber) (L : List Nat) (f : Nat) (y : Fiber)
    (hf : f < l.length) (hy : y.m_state = .RUNNING)
    (hiff : ∀ g z, l[g]? = some z → (z.m_state = .RUNNING ↔ g ∈ L)) :
    ∀ g z, (l.set f y)[g]? = some z → (z.m_state = .RUNNING ↔ g ∈ L ++ [f]) := by
  intro g z hg
  by_cases hgf : g = f
  · subst hgf
    rw [List.getElem?_set_self hf] at hg
    cases hg
    simp [hy]
  · rw [List.getElem?_set_ne (Ne.symm hgf)] at hg
    rw [hiff g z hg]
    simp [hgf]

theorem iff_set_pop (l : List Fiber) (L : List Nat) (c : Nat) (y : Fiber)
    (hc : c < l.length) (hy : y.m_state ≠ .RUNNING) (hcL : c ∉ L)
    (hiff : ∀ g z, l[g]? = some z → (z.m_state = .RUNNING ↔ g ∈ L ++ [c])) :
    ∀ g z, (l.set c y)[g]? = some z → (z.m_state = .RUNNING ↔ g ∈ L) := by
  intro g z hg
  by_cases hgf : g = c
  · subst hgf
    rw [List.getElem?_set_self hc] at hg
    cases hg
    simp [hy, hcL]
  · rw [List.getElem?_set_ne (Ne.symm hgf)] at hg
    rw [hiff g z hg]
    simp [hgf]

theorem iff_set_keep (l : List Fiber) (L : List Nat) (f : Nat) (x y : Fiber)
    (hx : l[f]? = some x) (hxn : x.m_state ≠ .RUNNING) (hy : y.m_state ≠ .RUNNING)
    (hiff : ∀ g z, l[g]? = some z → (z.m_state = .RUNNING ↔ g ∈ L)) :
    ∀ g z, (l.set f y)[g]? = some z → (z.m_state = .RUNNING ↔ g ∈ L) := by
  have hf : f < l.length := (List.getElem?_eq_some.1 hx).1
  have hfL : f ∉ L := fun h => hxn ((hiff f x hx).2 h)
  intro g z hg
  by_cases hgf : g = f
  · subst hgf
    rw [List.getElem?_set_self hf] at hg
    cases hg
    simp [hy, hfL]
  · rw [List.getElem?_set_ne (Ne.symm hgf)] at hg
    exact hiff g z hg

theorem ris_of_set (l : List Fiber) (f : Nat) (x y : Fiber) (hx : l[f]? = some x)
    (hy : y.m_run_in_scheduler = x.m_run_in_scheduler) (g : Nat) (z : Fiber)
    (hz : (l.set f y)[g]? = some z) :
    ∃ z0, l[g]? = some z0 ∧ z0.m_run_in_scheduler = z.m_run_in_scheduler := by
  have hf : f < l.length := (List.getElem?_eq_some.1 hx).1
  by_cases hgf : g = f
  · subst hgf
    rw [List.getElem?_set_self hf] at hz
    cases hz
    exact ⟨x, hx, hy.symm⟩
  · rw [List.getElem?_set_ne (Ne.symm hgf)] at hz
    exact ⟨z, hz, rfl⟩

theorem RunInv.zero_mem {s : FiberThread} {c : Nat} {L : List Nat} (h : RunInv s c L) :
    0 ∈ L := by
  rcases h.phase with ⟨-, rfl⟩ | ⟨-, rfl, -⟩ | ⟨d, -, -, -, -, rfl, -⟩ <;> simp

theorem RunInv.cur_mem {s : FiberThread} {c : Nat} {L : List Nat} (h : RunInv s c L) :
    c ∈ L := by
  rcases h.phase with ⟨rfl, rfl⟩ | ⟨-, rfl, -⟩ | ⟨d, -, -, -, -, rfl, -⟩ <;> simp

theorem RunInv.main_init (junk : Bool) : RunInv (FiberThread.empty.getThis junk).2 0 [0] where
  thread := rfl
  cur := rfl
  valid := by simp [FiberThread.getThis, FiberThread.newMain, FiberThread.empty]
  runs := by
    intro g x hg
    cases g with
    | zero =>
      have : x = Fiber.mk .RUNNING none none junk := by
        simpa [FiberThread.getThis, FiberThread.newMain, FiberThread.empty] using hg.symm
      simp [this]
    | succ n => simp [FiberThread.getThis, FiberThread.newMain, FiberThread.empty] at hg
  count := rfl
  phase := Or.inl ⟨rfl, rfl⟩

theorem RunInv.create {s : FiberThread} {c : Nat} {L : List Nat} (h : RunInv s c L)
    (cb stack : Option Nat) (ris : Bool) : RunInv (s.newFiber cb stack ris).2 c L := by
  have hold : ∀ g, g < s.fibers.length →
      (s.newFiber cb stack ris).2.fibers[g]? = s.fibers[g]? := by
    intro g hg
    simp only [FiberThread.newFiber]
    exact List.getElem?_append_left hg
  have hcl := h.valid c h.cur_mem
  refine ⟨h.thread, h.cur, ?_, ?_, ?_, ?_⟩
  · intro g hg
    have := h.valid g hg
    simp only [FiberThread.newFiber, List.length_append, List.length_singleton]
    omega
  · intro g x hg
    by_cases hgl : g < s.fibers.length
    · rw [hold g hgl] at hg
      exact h.runs g x hg
    · simp only [FiberThread.newFiber] at hg
      rw [List.getElem?_append_right (by omega)] at hg
      cases hk : g - s.fibers.length with
      | zero =>
        rw [hk] at hg
        simp only [List.getElem?_cons_zero, Option.some.injEq] at hg
        subst hg
        constructor
        · intro hr
          cases hr
        · intro hgL
          exact absurd (h.valid g hgL) hgl
      | succ n =>
        rw [hk] at hg
        simp at hg
  · have := running_append s (Fiber.mk .READY stack cb ris)
    simp only [FiberThread.newFiber]
    rw [this, h.count]
    simp
  · rcases h.phase with h1 | ⟨h1, h2, h3⟩ | ⟨d, h1, h2, h3, h4, h5, h6, h7⟩
    · exact Or.inl h1
    · refine Or.inr (Or.inl ⟨h1, h2, ?_⟩)
      intro x hx
      rw [hold c hcl] at hx
      exact h3 x hx
    · have hdl : d < s.fibers.length := h.valid d (by rw [h5]; simp)
      refine Or.inr (Or.inr ⟨d, h1, h2, h3, h4, h5, ?_, ?_⟩)
      · intro x hx
        rw [hold c hcl] at hx
        exact h6 x hx
      · intro x hx
        rw [hold d hdl] at hx
        exact h7 x hx

theorem RunInv.setSched {s : FiberThread} {c : Nat} {L : List Nat} (h : RunInv s c L)
    (f : Option Nat) (hcur : s.t_fiber = s.t_thread_fiber) :
    RunInv (s.setSchedulerFiber f) 0 [0] := by
  have hc0 : c = 0 := by
    rw [h.cur, h.thread] at hcur
    exact Option.some.inj hcur
  subst hc0
  have hL : L = [0] := by
    rcases h.phase with ⟨-, h2⟩ | ⟨h1, -⟩ | ⟨d, -, -, h3, -⟩
    · exact h2
    · exact absurd rfl h1
    · exact absurd rfl h3
  subst hL
  exact ⟨h.thread, h.cur, h.valid, h.runs, h.count, Or.inl ⟨rfl, rfl⟩⟩

theorem RunInv.resume {s s1 : FiberThread} {c : Nat} {L : List Nat} (h : RunInv s c L)
    (f : Nat) (x : Fiber) (hx : s.fibers[f]? = some x) (hcur : s.t_fiber = s.switchFiber x)
    (hr : Fiber.resume s f = .ok s1) : RunInv s1 f (L ++ [f]) := by
  obtain ⟨hst, -, rfl⟩ := (resume_eq s f x hx s1).1 hr
  have hfl : f < s.fibers.length := (List.getElem?_eq_some.1 hx).1
  have hxn : x.m_state ≠ .RUNNING := by rw [hst]; decide
  have hfL : f ∉ L := fun hm => hxn ((h.runs f x hx).2 hm)
  have hf0 : f ≠ 0 := fun h0 => hfL (h0 ▸ h.zero_mem)
  have hfc : f ≠ c := fun h0 => hfL (h0 ▸ h.cur_mem)
  have hsw : some c = s.switchFiber x := by rw [← h.cur]; exact hcur
  have hnew : ∀ z, (s.fibers.set f { x with m_state := .RUNNING })[f]? = some z →
      z.m_run_in_scheduler = x.m_run_in_scheduler := by
    intro z hz
    rw [List.getElem?_set_self hfl] at hz
    cases hz
    rfl
  refine ⟨h.thread, rfl, ?_, ?_, ?_, ?_⟩
  · intro g hg
    simp only [List.length_set]
    rcases List.mem_append.1 hg with hg | hg
    · exact h.valid g hg
    · simp only [List.mem_singleton] at hg
      omega
  · exact iff_set_push s.fibers L f _ hfl rfl h.runs
  · have := running_set s f x { x with m_state := .RUNNING } (some f) hx
    simp only [hst] at this
    simp only [List.length_append, List.length_singleton]
    rw [← h.count]
    simp at this
    omega
  · rcases h.phase with ⟨h1, h2⟩ | ⟨h1, h2, h3⟩ | ⟨d, h1, h2, h3, h4, h5, h6, h7⟩
    · subst h1 h2
      refine Or.inr (Or.inl ⟨hf0, rfl, ?_⟩)
      intro z hz hris
      rw [hnew z hz] at hris
      simp only [FiberThread.switchFiber, hris, if_true] at hsw
      exact hsw.symm
    · subst h2
      have hris : x.m_run_in_scheduler = true := by
        by_contra hne
        simp only [FiberThread.switchFiber, hne, Bool.false_eq_true, if_false, h.thread] at hsw
        exact h1 (Option.some.inj hsw)
      have hd : s.t_scheduler_fiber = some c := by
        simp only [FiberThread.switchFiber, hris, if_true] at hsw
        exact hsw.symm
      have hcl := h.valid c h.cur_mem
      refine Or.inr (Or.inr ⟨c, hd, h1, hf0, Ne.symm hfc, rfl, ?_, ?_⟩)
      · intro z hz
        rw [hnew z hz]
        exact hris
      · intro z hz
        rw [List.getElem?_set_ne hfc] at hz
        cases hb : z.m_run_in_scheduler with
        | false => rfl
        | true =>
          have := h3 z hz hb
          rw [hd] at this
          exact absurd (Option.some.inj this) h1
    · exfalso
      cases hb : x.m_run_in_scheduler with
      | false =>
        simp only [FiberThread.switchFiber, hb, Bool.false_eq_true, if_false, h.thread] at hsw
        exact h3 (Option.some.inj hsw)
      | true =>
        simp only [FiberThread.switchFiber, hb, if_true, h1] at hsw
        exact h4 (Option.some.inj hsw).symm

theorem RunInv.leave {s : FiberThread} {c : Nat} {L : List Nat} (h : RunInv s c L)
    (x y : Fiber) (hx : s.fibers[c]? = some x) (hnm : s.t_thread_fiber ≠ some c)
    (hy : y.m_state ≠ .RUNNING) :
    ∃ c1 L1, s.switchFiber x = some c1 ∧ L = L1 ++ [c] ∧
      RunInv { s with fibers := s.fibers.set c y, t_fiber := s.switchFiber x } c1 L1 := by
  have hcl : c < s.fibers.length := (List.getElem?_eq_some.1 hx).1
  have hc0 : c ≠ 0 := by
    rintro rfl
    exact hnm h.thread
  have hrun : x.m_state = .RUNNING := (h.runs c x hx).2 h.cur_mem
  have hcnt := running_set s c x y (s.switchFiber x) hx
  simp only [hrun, if_true, hy, if_false] at hcnt
  rcases h.phase with ⟨h1, -⟩ | ⟨-, h2, h3⟩ | ⟨d, h1, h2, -, h4, h5, h6, h7⟩
  · exact absurd h1 hc0
  · subst h2
    have hsw : s.switchFiber x = some 0 := by
      unfold FiberThread.switchFiber
      split
      · rename_i hb
        exact h3 x hx hb
      · exact h.thread
    refine ⟨0, [0], hsw, rfl, h.thread, hsw, ?_, ?_, ?_, Or.inl ⟨rfl, rfl⟩⟩
    · intro g hg
      simp only [List.length_set]
      exact h.valid g (by simp only [List.mem_singleton] at hg; simp [hg])
    · exact iff_set_pop s.fibers [0] c y hcl hy (by simpa using hc0) h.runs
    · have := h.count
      simp only [List.length_cons, List.length_nil] at this ⊢
      omega
  · subst h5
    have hsw : s.switchFiber x = some d := by
      unfold FiberThread.switchFiber
      rw [h6 x hx, if_pos rfl]
      exact h1
    refine ⟨d, [0, d], hsw, rfl, h.thread, hsw, ?_, ?_, ?_, Or.inr (Or.inl ⟨h2, rfl, ?_⟩)⟩
    · intro g hg
      simp only [List.length_set]
      exact h.valid g (by
        simp only [List.mem_cons, List.mem_singleton, List.not_mem_nil, or_false] at hg
        rcases hg with rfl | rfl <;> simp)
    · exact iff_set_pop s.fibers [0, d] c y hcl hy (by
        simp only [List.mem_cons, List.mem_singleton, List.not_mem_nil, or_false, not_or]
        exact ⟨hc0, Ne.symm h4⟩) h.runs
    · have := h.count
      simp only [List.length_cons, List.length_nil] at this ⊢
      omega
    · intro z hz hb
      simp only at hz
      rw [List.getElem?_set_ne (Ne.symm h4)] at hz
      rw [h7 z hz] at hb
      cases hb

theorem RunInv.yield {s s1 : FiberThread} {c : Nat} {L : List Nat} (h : RunInv s c L)
    (f : Nat) (hcur : s.t_fiber = some f) (hnm : s.t_thread_fiber ≠ some f)
    (hr : Fiber.yield s f = .ok s1) : ∃ c1 L1, RunInv s1 c1 L1 := by
  have hcf : c = f := by
    rw [h.cur] at hcur
    exact Option.some.inj hcur
  subst hcf
  cases hx : s.fibers[c]? with
  | none => simp [Fiber.yield, hx] at hr
  | some x =>
    obtain ⟨-, -, rfl⟩ := (yield_eq s c x hx s1).1 hr
    have hrun : x.m_state = .RUNNING := (h.runs c x hx).2 h.cur_mem
    have hnt : ¬ x.m_state = .TREM := by
      rw [hrun]
      decide
    simp only [hnt, if_false]
    obtain ⟨c1, L1, -, -, hinv⟩ :=
      h.leave x { x with m_state := .READY } hx hnm (by simp)
    exact ⟨c1, L1, hinv⟩

theorem RunInv.done {s s1 : FiberThread} {c : Nat} {L : List Nat} (h : RunInv s c L)
    (f : Nat) (hcur : s.t_fiber = some f) (hnm : s.t_thread_fiber ≠ some f)
    (hr : Fiber.mainFuncReturn s f = .ok s1) : ∃ c1 L1, RunInv s1 c1 L1 := by
  have hcf : c = f := by
    rw [h.cur] at hcur
    exact Option.some.inj hcur
  subst hcf
  cases hx : s.fibers[c]? with
  | none => simp [Fiber.mainFuncReturn, hx] at hr
  | some x =>
    obtain ⟨-, rfl⟩ := (mainFuncReturn_eq s c x hx s1).1 hr
    obtain ⟨c1, L1, -, -, hinv⟩ :=
      h.leave x { x with m_cb := none, m_state := .TREM } hx hnm (by simp)
    exact ⟨c1, L1, hinv⟩

theorem RunInv.reset {s s1 : FiberThread} {c : Nat} {L : List Nat} (h : RunInv s c L)
    (f : Nat) (cb : Option Nat) (hr : Fiber.reset s f cb = .ok s1) : RunInv s1 c L := by
  cases hx : s.fibers[f]? with
  | none => simp [Fiber.reset, hx] at hr
  | some x =>
    obtain ⟨⟨hst, -⟩, rfl⟩ := (reset_eq s f x hx cb s1).1 hr
    have hxn : x.m_state ≠ .RUNNING := by rw [hst]; decide
    have hris : ∀ (g : Nat) (z : Fiber),
        (s.fibers.set f { x with m_state := .READY, m_cb := cb })[g]? = some z →
        ∃ z0 : Fiber, s.fibers[g]? = some z0 ∧ z0.m_run_in_scheduler = z.m_run_in_scheduler :=
      fun g z hz =>
        ris_of_set s.fibers f x { x with m_state := .READY, m_cb := cb } hx rfl g z hz
    refine ⟨h.thread, h.cur, ?_, ?_, ?_, ?_⟩
    · intro g hg
      simp only [List.length_set]
      exact h.valid g hg
    · exact iff_set_keep s.fibers L f x _ hx hxn (by simp) h.runs
    · have := running_set s f x { x with m_state := .READY, m_cb := cb } s.t_fiber hx
      simp only [hst] at this
      simp at this
      rw [← h.count]
      exact this
    · rcases h.phase with h1 | ⟨h1, h2, h3⟩ | ⟨d, h1, h2, h3, h4, h5, h6, h7⟩
      · exact Or.inl h1
      · refine Or.inr (Or.inl ⟨h1, h2, ?_⟩)
        intro z hz hb
        obtain ⟨z0, hz0, hb0⟩ := hris c z hz
        exact h3 z0 hz0 (hb0.trans hb)
      · refine Or.inr (Or.inr ⟨d, h1, h2, h3, h4, h5, ?_, ?_⟩)
        · intro z hz
          obtain ⟨z0, hz0, hb0⟩ := hris c z hz
          exact hb0.symm.trans (h6 z0 hz0)
        · intro z hz
          obtain ⟨z0, hz0, hb0⟩ := hris d z hz
          exact hb0.symm.trans (h7 z0 hz0)

theorem FiberRun.runInv {s : FiberThread} (h : FiberRun s) : ∃ c L, RunInv s c L := by
  induction h with
  | main junk => exact ⟨_, _, RunInv.main_init junk⟩
  | create cb stack ris _ ih =>
    obtain ⟨c, L, ih⟩ := ih
    exact ⟨_, _, ih.create cb stack ris⟩
  | setSchedulerFiber f _ hcur ih =>
    obtain ⟨c, L, ih⟩ := ih
    exact ⟨_, _, ih.setSched f hcur⟩
  | resume f x _ hx hcur hr ih =>
    obtain ⟨c, L, ih⟩ := ih
    exact ⟨_, _, ih.resume f x hx hcur hr⟩
  | yield f _ hcur hnm hr ih =>
    obtain ⟨c, L, ih⟩ := ih
    exact ih.yield f hcur hnm hr
  | done f _ hcur hnm hr ih =>
    obtain ⟨c, L, ih⟩ := ih
    exact ih.done f hcur hnm hr
  | reset f cb _ hr ih =>
    obtain ⟨c, L, ih⟩ := ih
    exact ⟨_, _, ih.reset f cb hr⟩

theorem mainAndOneResumed_run : FiberRun mainAndOneResumed :=
  FiberRun.resume 1 _ (FiberRun.create (some 7) (some 1) true (FiberRun.main false)) rfl rfl rfl

theorem mainAndOneResumed_reach : FiberReach mainAndOneResumed :=
  FiberReach.resume 1 (FiberReach.create (some 7) (some 1) true (FiberReach.main false)) rfl

theorem callerDispatching_run : FiberRun callerDispatching :=
  FiberRun.resume 2 _
    (FiberRun.create (some 8) (some 2) true
      (FiberRun.resume 1 _
        (FiberRun.setSchedulerFiber (some 1)
          (FiberRun.create (some 7) (some 1) false (FiberRun.main false)) rfl)
        rfl rfl rfl))
    rfl rfl rfl

/-- C16 as stated fails. The main fiber is created, a fiber is created and
`resume()` is called on it: the resumed fiber is `RUNNING` and the main fiber,
whose state `resume()` does not touch, is `RUNNING` too, so two fibers of the
thread have state `RUNNING`. -/
theorem fiber_single_runner_counterexample :
    FiberReach mainAndOneResumed ∧ mainAndOneResumed.running = 2 ∧
    mainAndOneResumed.fibers.map (fun x => x.m_state) = [.RUNNING, .RUNNING] :=
  ⟨mainAndOneResumed_reach, rfl, rfl⟩

/-- C16, amended. In every state reached by creating the main fiber, creating
fibers, `setSchedulerFiber` called while the main fiber is current,
`resume()` called by the fiber whose context it saves (the scheduler fiber for
a fiber with `m_run_in_scheduler`, the thread fiber otherwise), `yield()` and
completion of the entry callable of the current fiber (not the main fiber),
and `reset()`: a current fiber `c` is set and is `RUNNING`, the main fiber
(fiber 0, the thread fiber) is `RUNNING`, and the fibers with state `RUNNING`
are exactly those of the list `L` of fibers that have resumed one another: the
main fiber alone while it is current, the main fiber and `c` while a fiber
resumed from the main fiber is current, and the main fiber, the scheduler fiber
`d` and `c` while a fiber resumed from a scheduler fiber other than the main
fiber is current. Their number is the length of `L`: 1, 2 or 3. -/
theorem fiber_running_resume_chain (s : FiberThread) (h : FiberRun s) :
    ∃ c x m L, s.t_fiber = some c ∧ s.fibers[c]? = some x ∧ x.m_state = .RUNNING ∧
      s.t_thread_fiber = some 0 ∧ s.fibers[0]? = some m ∧ m.m_state = .RUNNING ∧
      ((c = 0 ∧ L = [0]) ∨ (c ≠ 0 ∧ L = [0, c]) ∨
        (∃ d, s.t_scheduler_fiber = some d ∧ d ≠ 0 ∧ c ≠ 0 ∧ d ≠ c ∧ L = [0, d, c])) ∧
      (∀ g y, s.fibers[g]? = some y → (y.m_state = .RUNNING ↔ g ∈ L)) ∧
      s.running = L.length := by
  obtain ⟨c, L, hinv⟩ := h.runInv
  have hlt : c < s.fibers.length := hinv.valid c hinv.cur_mem
  have h0 : 0 < s.fibers.length := hinv.valid 0 hinv.zero_mem
  have hx : s.fibers[c]? = some (s.fibers[c]) := List.getElem?_eq_getElem hlt
  have hm : s.fibers[0]? = some (s.fibers[0]) := List.getElem?_eq_getElem h0
  refine ⟨c, _, _, L, hinv.cur, hx, (hinv.runs c _ hx).2 hinv.cur_mem, hinv.thread, hm,
    (hinv.runs 0 _ hm).2 hinv.zero_mem, ?_, hinv.runs, hinv.count⟩
  rcases hinv.phase with h1 | ⟨h1, h2, -⟩ | ⟨d, h1, h2, h3, h4, h5, -⟩
  · exact Or.inl h1
  · exact Or.inr (Or.inl ⟨h1, h2⟩)
  · exact Or.inr (Or.inr ⟨d, h1, h2, h3, h4, h5⟩)

/-- C16, amended, on the thread `callerDispatching` of a scheduler that uses
its caller: the task fiber 2 is current and three fibers are `RUNNING`, the
main fiber, the dispatch fiber and the task fiber. -/
theorem fiber_running_resume_chain_witness :
    FiberRun callerDispatching ∧ callerDispatching.running = 3 ∧
    ∃ c x m L, callerDispatching.t_fiber = some c ∧ callerDispatching.fibers[c]? = some x ∧
      x.m_state = .RUNNING ∧
      callerDispatching.t_thread_fiber = some 0 ∧ callerDispatching.fibers[0]? = some m ∧
      m.m_state = .RUNNING ∧
      ((c = 0 ∧ L = [0]) ∨ (c ≠ 0 ∧ L = [0, c]) ∨
        (∃ d, callerDispatching.t_scheduler_fiber = some d ∧ d ≠ 0 ∧ c ≠ 0 ∧ d ≠ c ∧
          L = [0, d, c])) ∧
      (∀ g y, callerDispatching.fibers[g]? = some y → (y.m_state = .RUNNING ↔ g ∈ L)) ∧
      callerDispatching.running = L.length :=
  ⟨callerDispatching_run, rfl, fiber_running_resume_chain callerDispatching callerDispatching_run⟩


/-! ### The task queue -/

/-- C17 as stated fails for an empty task: on an empty queue,
`scheduleLock` with a task holding neither fiber nor callable leaves the queue
empty but calls `tickle()`. -/
theorem scheduleLock_empty_task_counterexample :
    (Scheduler.mk [] 0).scheduleLock ScheduleTask.empty = Scheduler.mk [] 1 ∧
    ScheduleTask.empty.fiber = none ∧ ScheduleTask.empty.cb = none :=
  ⟨rfl, rfl, rfl⟩

/-- C17, amended. `scheduleLock` appends the task at the tail of the queue
when it holds a fiber or a callable and leaves the queue unchanged otherwise;
in both cases `tickle()` is called once when the queue was empty before the
call and not at all otherwise. -/
theorem scheduleLock_appends_and_tickles (q : Scheduler) (t : ScheduleTask) :
    (q.scheduleLock t).m_tasks
      = (if t.fiber.isSome ∨ t.cb.isSome then q.m_tasks ++ [t] else q.m_tasks) ∧
    (q.scheduleLock t).tickles = q.tickles + (if q.m_tasks = [] then 1 else 0) := by
  unfold Scheduler.scheduleLock
  cases hq : q.m_tasks with
  | nil =>
    by_cases ht : t.fiber.isSome = true ∨ t.cb.isSome = true
    · have : (t.fiber.isSome || t.cb.isSome) = true := by simpa using ht
      simp [ht, this, hq]
    · have : (t.fiber.isSome || t.cb.isSome) = false := by simpa using ht
      simp [ht, this, hq]
  | cons a as =>
    by_cases ht : t.fiber.isSome = true ∨ t.cb.isSome = true
    · have : (t.fiber.isSome || t.cb.isSome) = true := by simpa using ht
      simp [ht, this, hq]
    · have : (t.fiber.isSome || t.cb.isSome) = false := by simpa using ht
      simp [ht, this, hq]

theorem pinnedElsewhere_iff (t : ScheduleTask) (w : Int) :
    t.pinnedElsewhere w = true ↔ t.thread ≠ -1 ∧ t.thread ≠ w := by
  simp [ScheduleTask.pinnedElsewhere]

theorem scan_skip (w : Int) (pre : List ScheduleTask)
    (hpre : ∀ u ∈ pre, u.thread ≠ -1 ∧ u.thread ≠ w) (rest : List ScheduleTask) (tk : Bool)
    (active : Nat) :
    Scheduler.scan w (pre ++ rest) tk active =
      match Scheduler.scan w rest (tk || !pre.isEmpty) active with
      | .ok (task, q, tk1, a) => .ok (task, pre ++ q, tk1, a)
      | .error e => .error e := by
  induction pre generalizing tk with
  | nil =>
    simp only [List.nil_append, List.isEmpty_nil, Bool.not_true, Bool.or_false]
    cases Scheduler.scan w rest tk active with
    | error e => rfl
    | ok r => rfl
  | cons u us ih =>
    have hu : u.pinnedElsewhere w = true :=
      (pinnedElsewhere_iff u w).2 (hpre u (List.mem_cons_self _ _))
    have ih1 := ih (fun v hv => hpre v (List.mem_cons_of_mem _ hv)) true
    rw [List.cons_append, Scheduler.scan, if_pos hu, ih1]
    simp only [Bool.true_or, List.isEmpty_cons, Bool.not_false, Bool.or_true]
    cases Scheduler.scan w rest true active with
    | error e => rfl
    | ok r => rfl

/-- C18. On the worker `w`, when the queue is `pre ++ t :: post` with every
task of `pre` pinned to another worker and `t` (a task holding a fiber or a
callable, as every queued task does) pinned to `w` or not pinned, the
selection step takes `t`, leaves `pre ++ post` and increments the active
count; `t` is the first of the tasks `w` may take and the others keep their
order. When every task is pinned to another worker, no task is taken and the
queue and the active count are unchanged. `tickle()` is called when a task
was skipped or tasks follow the one taken. -/
theorem select_first_eligible (q : Scheduler) (w : Int) (active : Nat) :
    (∀ pre t post, q.m_tasks = pre ++ t :: post →
      (∀ u ∈ pre, u.thread ≠ -1 ∧ u.thread ≠ w) → (t.thread = -1 ∨ t.thread = w) →
      (t.fiber.isSome ∨ t.cb.isSome) →
      q.select w active = .ok (t, active + 1,
        { m_tasks := pre ++ post,
          tickles := q.tickles + if pre = [] ∧ post = [] then 0 else 1 }) ∧
      (q.m_tasks.filter (fun u => decide (u.thread = -1 ∨ u.thread = w))).head? = some t ∧
      (pre ++ post).filter (fun u => decide (u.thread = -1 ∨ u.thread = w))
        = (q.m_tasks.filter (fun u => decide (u.thread = -1 ∨ u.thread = w))).tail ∧
      (pre ++ post).filter (fun u => !decide (u.thread = -1 ∨ u.thread = w))
        = q.m_tasks.filter (fun u => !decide (u.thread = -1 ∨ u.thread = w))) ∧
    ((∀ u ∈ q.m_tasks, u.thread ≠ -1 ∧ u.thread ≠ w) →
      q.select w active = .ok (ScheduleTask.empty, active,
        { m_tasks := q.m_tasks, tickles := q.tickles + if q.m_tasks = [] then 0 else 1 })) := by
  constructor
  · intro pre t post hq hpre ht hne
    have htp : t.pinnedElsewhere w = false := by
      cases h : t.pinnedElsewhere w with
      | false => rfl
      | true =>
        have := (pinnedElsewhere_iff t w).1 h
        rcases ht with h1 | h1
        · exact absurd h1 this.1
        · exact absurd h1 this.2
    have hfpre : pre.filter (fun u => decide (u.thread = -1 ∨ u.thread = w)) = [] := by
      rw [List.filter_eq_nil_iff]
      intro u hu
      have := hpre u hu
      simp [this.1, this.2]
    have hfpre2 : pre.filter (fun u => !decide (u.thread = -1 ∨ u.thread = w)) = pre := by
      rw [List.filter_eq_self]
      intro u hu
      have := hpre u hu
      simp [this.1, this.2]
    refine ⟨?_, ?_, ?_, ?_⟩
    · unfold Scheduler.select
      rw [hq, scan_skip w pre hpre]
      simp only [Scheduler.scan, htp, Bool.false_eq_true, if_false, hne, not_true_eq_false,
        Bool.false_or]
      cases pre with
      | nil =>
        cases post with
        | nil => simp
        | cons p ps => simp
      | cons p ps => simp
    · rw [hq, List.filter_append, hfpre, List.nil_append,
        List.filter_cons_of_pos (by simpa using ht)]
      rfl
    · rw [hq, List.filter_append, List.filter_append, hfpre, List.nil_append, List.nil_append,
        List.filter_cons_of_pos (by simpa using ht)]
      rfl
    · rw [hq, List.filter_append, List.filter_append,
        List.filter_cons_of_neg (by simp [ht])]
  · intro hall
    unfold Scheduler.select
    have := scan_skip w q.m_tasks hall [] false active
    rw [List.append_nil] at this
    rw [this]
    simp only [Scheduler.scan, Bool.false_or, List.append_nil]
    cases hq : q.m_tasks with
    | nil => simp
    | cons p ps => simp

/-- C18 on the queue `threeTasks` and worker 3: the first task is pinned to
worker 7 and is skipped, the second is taken, the first and third stay. -/
theorem select_first_eligible_witness :
    (threeTasks.m_tasks
        = [ScheduleTask.ofFiber (some 1) 7] ++ ScheduleTask.ofFiber (some 2) (-1)
            :: [ScheduleTask.ofFiber (some 3) (-1)] ∧
      (∀ u ∈ [ScheduleTask.ofFiber (some 1) 7], u.thread ≠ -1 ∧ u.thread ≠ 3) ∧
      ((ScheduleTask.ofFiber (some 2) (-1)).thread = -1 ∨
        (ScheduleTask.ofFiber (some 2) (-1)).thread = 3) ∧
      ((ScheduleTask.ofFiber (some 2) (-1)).fiber.isSome ∨
        (ScheduleTask.ofFiber (some 2) (-1)).cb.isSome)) ∧
    threeTasks.select 3 0 = .ok (ScheduleTask.ofFiber (some 2) (-1), 0 + 1,
      { m_tasks := [ScheduleTask.ofFiber (some 1) 7] ++ [ScheduleTask.ofFiber (some 3) (-1)],
        tickles := threeTasks.tickles +
          if [ScheduleTask.ofFiber (some 1) 7] = [] ∧ [ScheduleTask.ofFiber (some 3) (-1)] = []
          then 0 else 1 }) :=
  ⟨⟨rfl, by decide, by decide, by decide⟩,
   ((select_first_eligible threeTasks 3 0).1 [ScheduleTask.ofFiber (some 1) 7]
      (ScheduleTask.ofFiber (some 2) (-1)) [ScheduleTask.ofFiber (some 3) (-1)]
      rfl (by decide) (by decide) (by decide)).1⟩

/-! ### Hooks -/

theorem resize_length (m : FdManager) (n : Nat) (h : m.m_datas.length ≤ n) :
    (m.resize n).m_datas.length = n := by
  simp [FdManager.resize, List.length_take]
  omega

/-- `get(fd, true)` for `fd >= 0` on a table of at least two slots returns;
either nothing is built and only the table component is rewritten with itself,
or a context is built and the calls of its `init()` are appended. -/
theorem get_create_ok (w : HookWorld) (fd : Int) (stat : Except Int Bool) (flags : Nat)
    (hfd : 0 ≤ fd) (hlen : 2 ≤ w.fdMgr.m_datas.length) :
    ∃ c w2, w.get fd true stat flags = .ok (c, w2) ∧
      w2.t_hook_enable = w.t_hook_enable ∧ w2.iom = w.iom ∧
      ((w2.trace = w.trace ∧ w2.errno = w.errno ∧ w2.fdMgr = w.fdMgr) ∨
       (w2.trace = w.trace ++ FdCtx.initTrace fd stat flags ∧
        ((∃ b, stat = .ok b) → w2.errno = w.errno))) := by
  have hne : fd ≠ -1 := by omega
  have hnl : ¬ fd < 0 := by omega
  unfold HookWorld.get FdManager.get
  simp only [hne, if_false, Bool.not_true, Bool.and_false, Bool.false_eq_true, Bool.or_false]
  by_cases hb : w.fdMgr.beyond fd = true
  · have hle : (w.fdMgr.m_datas.length : Int) ≤ fd := by
      simpa [FdManager.beyond, hnl] using hb
    have hle2 : w.fdMgr.m_datas.length ≤ fd.toNat := by omega
    have hn : w.fdMgr.m_datas.length ≤ fd.toNat * 3 / 2 := by omega
    have hlt : fd.toNat < (w.fdMgr.resize (fd.toNat * 3 / 2)).m_datas.length := by
      rw [resize_length _ _ hn]
      omega
    simp only [hb, Bool.not_true, Bool.false_and, Bool.false_eq_true, if_false, hnl, if_true, hlt]
    refine ⟨_, _, rfl, rfl, rfl, Or.inr ⟨rfl, ?_⟩⟩
    rintro ⟨b, rfl⟩
    rfl
  · have hb2 : w.fdMgr.beyond fd = false := by simpa using hb
    have hlt : fd.toNat < w.fdMgr.m_datas.length := by
      have : ¬ ((w.fdMgr.m_datas.length : Int) ≤ fd) := by
        intro h
        exact hb (by simp [FdManager.beyond, h])
      omega
    simp only [hb2, Bool.not_false, Bool.true_and, Bool.false_eq_true, if_false, hnl, hlt, if_true]
    by_cases hs : (w.fdMgr.m_datas.getD fd.toNat none).isSome = true
    · simp only [hs, if_true]
      exact ⟨_, _, rfl, rfl, rfl, Or.inl ⟨rfl, rfl, rfl⟩⟩
    · simp only [hs, Bool.false_eq_true, if_false]
      refine ⟨_, _, rfl, rfl, rfl, Or.inr ⟨rfl, ?_⟩⟩
      rintro ⟨b, rfl⟩
      rfl

theorem do_io_forward (w : HookWorld) (he : w.t_hook_enable = true) (fd : Int)
    (hfd : w.ctx fd = none ∨
      ∃ c, w.ctx fd = some c ∧ c.m_isSocket = false ∧ c.m_isClosed = false)
    (fn : Orig) (event : Nat) (timeout_so : Int) (args : List Int) (a : Attempt)
    (env : List Attempt) :
    do_io w fd fn event timeout_so args (a :: env) =
      some (.ok (a.n, { w with trace := w.trace ++ [.orig fn (fd :: args)], errno := a.errno })) := by
  unfold do_io
  rcases hfd with h | ⟨c, h, hs, hc⟩
  · simp [he, h, HookWorld.forward, HookWorld.call]
  · simp [he, h, hs, hc, HookWorld.forward, HookWorld.call]

theorem initTrace_calls (fd : Int) (stat : Except Int Bool) (flags : Nat) :
    ∀ e ∈ FdCtx.initTrace fd stat flags,
      e = .fstat fd ∨ ∃ args, e = .orig .fcntl args := by
  intro e he
  unfold FdCtx.initTrace at he
  simp only [List.mem_append, List.mem_singleton] at he
  rcases he with h | h
  · exact Or.inl h
  · split at h
    · simp only [List.mem_append, List.mem_singleton] at h
      rcases h with h | h
      · exact Or.inr ⟨_, h⟩
      · split at h
        · simp only [List.mem_singleton] at h
          exact Or.inr ⟨_, h⟩
        · simp at h
    · simp at h

/-- C19. With hooks enabled and a descriptor `fd` for which the Fd Manager
returns no context, or a context that is not a socket (and, as every context,
not closed), each of `read`, `readv`, `recv`, `recvfrom`, `recvmsg`, `write`,
`writev`, `send`, `sendto`, `sendmsg` makes one call of its original with the
caller's arguments and returns its result, `errno` being as the original left
it; the call is all that is appended to the trace, so no event and no timer is
added. `accept` does the same and then, for a result `>= 0`, has the Fd Manager
track the new descriptor, which adds at most the `fstat` and `fcntl_f` calls
of the `init()` of its context. -/
theorem hook_transparent (w : HookWorld) (he : w.t_hook_enable = true) (fd : Int)
    (hfd : w.ctx fd = none ∨
      ∃ c, w.ctx fd = some c ∧ c.m_isSocket = false ∧ c.m_isClosed = false)
    (a : Attempt) (env : List Attempt) :
    (∀ buf count : Int, read w fd buf count (a :: env) =
      some (.ok (a.n, { w with trace := w.trace ++ [.orig .read [fd, buf, count]],
                               errno := a.errno }))) ∧
    (∀ iov iovcnt : Int, readv w fd iov iovcnt (a :: env) =
      some (.ok (a.n, { w with trace := w.trace ++ [.orig .readv [fd, iov, iovcnt]],
                               errno := a.errno }))) ∧
    (∀ buf len flags : Int, recv w fd buf len flags (a :: env) =
      some (.ok (a.n, { w with trace := w.trace ++ [.orig .recv [fd, buf, len, flags]],
                               errno := a.errno }))) ∧
    (∀ buf len flags src_addr addrlen : Int, recvfrom w fd buf len flags src_addr addrlen (a :: env) =
      some (.ok (a.n, { w with trace := w.trace ++ [.orig .recvfrom [fd, buf, len, flags, src_addr, addrlen]],
                               errno := a.errno }))) ∧
    (∀ msg flags : Int, recvmsg w fd msg flags (a :: env) =
      some (.ok (a.n, { w with trace := w.trace ++ [.orig .recvmsg [fd, msg, flags]],
                               errno := a.errno }))) ∧
    (∀ buf count : Int, write w fd buf count (a :: env) =
      some (.ok (a.n, { w with trace := w.trace ++ [.orig .write [fd, buf, count]],
                               errno := a.errno }))) ∧
    (∀ iov iovcnt : Int, writev w fd iov iovcnt (a :: env) =
      some (.ok (a.n, { w with trace := w.trace ++ [.orig .writev [fd, iov, iovcnt]],
                               errno := a.errno }))) ∧
    (∀ buf len flags : Int, send w fd buf len flags (a :: env) =
      some (.ok (a.n, { w with trace := w.trace ++ [.orig .send [fd, buf, len, flags]],
                               errno := a.errno }))) ∧
    (∀ buf len flags dest_addr addrlen : Int, sendto w fd buf len flags dest_addr addrlen (a :: env) =
      some (.ok (a.n, { w with trace := w.trace ++ [.orig .sendto [fd, buf, len, flags, dest_addr, addrlen]],
                               errno := a.errno }))) ∧
    (∀ msg flags : Int, sendmsg w fd msg flags (a :: env) =
      some (.ok (a.n, { w with trace := w.trace ++ [.orig .sendmsg [fd, msg, flags]],
                               errno := a.errno }))) ∧
    (∀ (addr addrlen : Int) (stat : Except Int Bool) (flags : Nat),
      2 ≤ w.fdMgr.m_datas.length →
      ∃ w2 t, accept w fd addr addrlen (a :: env) stat flags = some (.ok (a.n, w2)) ∧
        w2.trace = w.trace ++ [.orig .accept [fd, addr, addrlen]] ++ t ∧
        (∀ e ∈ t, e = .fstat a.n ∨ ∃ args, e = .orig .fcntl args) ∧
        (a.n < 0 → t = [] ∧ w2.fdMgr = w.fdMgr) ∧
        ((∃ b, stat = .ok b) → w2.errno = a.errno)) := by
  refine ⟨
    fun buf count => do_io_forward w he fd hfd _ _ _ _ a env,
    fun iov iovcnt => do_io_forward w he fd hfd _ _ _ _ a env,
    fun buf len flags => do_io_forward w he fd hfd _ _ _ _ a env,
    fun buf len flags src_addr addrlen => do_io_forward w he fd hfd _ _ _ _ a env,
    fun msg flags => do_io_forward w he fd hfd _ _ _ _ a env,
    fun buf count => do_io_forward w he fd hfd _ _ _ _ a env,
    fun iov iovcnt => do_io_forward w he fd hfd _ _ _ _ a env,
    fun buf len flags => do_io_forward w he fd hfd _ _ _ _ a env,
    fun buf len flags dest_addr addrlen => do_io_forward w he fd hfd _ _ _ _ a env,
    fun msg flags => do_io_forward w he fd hfd _ _ _ _ a env,
    ?_⟩
  intro addr addrlen stat flags hlen
  unfold accept
  rw [do_io_forward w he fd hfd _ _ _ _ a env]
  by_cases hn : a.n ≥ 0
  · obtain ⟨c, w2, hget, -, -, hcase⟩ :=
      get_create_ok { w with trace := w.trace ++ [.orig .accept [fd, addr, addrlen]],
                             errno := a.errno } a.n stat flags hn hlen
    simp only [hn, if_true, hget]
    rcases hcase with ⟨h1, h2, h3⟩ | ⟨h1, h2⟩
    · refine ⟨w2, [], rfl, by simpa using h1, by simp, fun h => absurd hn (by omega), fun _ => h2⟩
    · exact ⟨w2, FdCtx.initTrace a.n stat flags, rfl, h1, initTrace_calls a.n stat flags,
        fun h => absurd hn (by omega), h2⟩
  · simp only [hn, if_false]
    exact ⟨_, [], rfl, by simp, by simp, fun _ => ⟨rfl, rfl⟩, fun _ => rfl⟩

/-- C19 on descriptor 5, not tracked (`hookEnabled`) and tracked as a regular
file (`hookFile5`): `read` and `send` make the one call of the original. -/
theorem hook_transparent_witness :
    (hookEnabled.t_hook_enable = true ∧ hookEnabled.ctx 5 = none) ∧
    (hookFile5.t_hook_enable = true ∧ hookFile5.ctx 5 = some (FdCtx.new 5 (.ok false)) ∧
      (FdCtx.new 5 (.ok false)).m_isSocket = false ∧
      (FdCtx.new 5 (.ok false)).m_isClosed = false) ∧
    read hookEnabled 5 100 10 [Attempt.mk 7 0 0 0] =
      some (.ok (7, { hookEnabled with trace := [.orig .read [5, 100, 10]], errno := 0 })) ∧
    send hookFile5 5 100 10 0 [Attempt.mk (-1) 11 0 0] =
      some (.ok (-1, { hookFile5 with trace := [.orig .send [5, 100, 10, 0]], errno := 11 })) :=
  ⟨⟨rfl, rfl⟩, ⟨rfl, rfl, rfl, rfl⟩,
   (hook_transparent hookEnabled rfl 5 (Or.inl rfl) (Attempt.mk 7 0 0 0) []).1 100 10,
   (hook_transparent hookFile5 rfl 5 (Or.inr ⟨_, rfl, rfl, rfl⟩)
      (Attempt.mk (-1) 11 0 0) []).2.2.2.2.2.2.2.1 100 10 0⟩

/-- C21, what the code does. With hooks enabled `socket` returns
`socket_f(domain, type, protocol)` at once: the call is all that happens, the
Fd Manager is the one before the call, and `get(fd)` for the returned
descriptor gives what it gave before. -/
theorem socket_enabled_not_registered (w : HookWorld) (he : w.t_hook_enable = true)
    (domain type protocol : Int) (a : Answer) (stat : Except Int Bool) (flags : Nat) :
    socket w domain type protocol a stat flags =
      .ok (a.n, { w with trace := w.trace ++ [.orig .socket [domain, type, protocol]],
                         errno := a.errno }) ∧
    HookWorld.ctx { w with trace := w.trace ++ [.orig .socket [domain, type, protocol]],
                           errno := a.errno } a.n = w.ctx a.n := by
  constructor
  · simp [socket, he, HookWorld.call]
  · rfl

/-- C21, the failing input. On `hookEnabled` (hooks enabled, nothing tracked)
`socket(2, 1, 0)` returns descriptor 70 and `get(70)` is still null; the same
call with hooks disabled (`hookStart`) does track descriptor 70. -/
theorem socket_enabled_not_registered_witness :
    hookEnabled.t_hook_enable = true ∧
    (socket hookEnabled 2 1 0 (Answer.mk 70 0) (.ok true) 2 =
      .ok (70, { hookEnabled with trace := hookEnabled.trace ++ [.orig .socket [2, 1, 0]],
                                  errno := 0 }) ∧
     HookWorld.ctx { hookEnabled with trace := hookEnabled.trace ++ [.orig .socket [2, 1, 0]],
                                      errno := 0 } 70 = hookEnabled.ctx 70) ∧
    hookEnabled.ctx 70 = none ∧
    (socket hookStart 2 1 0 (Answer.mk 70 0) (.ok true) 2).map (fun r => r.2.ctx 70) =
      .ok (some (FdCtx.new 70 (.ok true))) :=
  ⟨rfl, socket_enabled_not_registered hookEnabled rfl 2 1 0 (Answer.mk 70 0) (.ok true) 2,
   rfl, rfl⟩

/-- C22. The callable of the deadline timer of `do_io`: when the
`timer_info` is alive with `cancelled = 0` it sets `cancelled = ETIMEDOUT` and
calls `iom->cancelEvent(fd, event)`; when `cancelled` is not 0, or the
`timer_info` is gone, it changes nothing. And `do_io` on a tracked socket
without user non-blocking mode and with a finite timeout, whose first call of
the original answers -1 with `EAGAIN` and whose `addEvent` succeeds: it adds
the timer and the event, yields, cancels the timer on resumption, and then
returns -1 with `errno = ETIMEDOUT` exactly when `tinfo->cancelled` is
`ETIMEDOUT`; otherwise it goes back to `retry`, where the original is called
again. -/
theorem do_io_deadline (w : HookWorld) (fd : Int) (fn : Orig) (event : Nat) (timeout_so : Int)
    (args : List Int) (c : FdCtx) (i : Nat) (a : Attempt) (env : List Attempt)
    (he : w.t_hook_enable = true) (hc : w.ctx fd = some c)
    (hsock : c.m_isSocket = true) (huser : c.m_userNonblock = false)
    (hclosed : c.m_isClosed = false) (hto : c.getTimeout timeout_so ≠ UINT64_MAX)
    (hiom : w.iom = some i) (hn : a.n = -1) (herr : a.errno = EAGAIN) (hrt : a.rt = 0) :
    (∀ trace, do_io.deadline fd event (some (timer_info.mk 0), trace) =
      (some (timer_info.mk ETIMEDOUT), trace ++ [.cancelEvent fd event])) ∧
    (∀ v trace, v ≠ 0 → do_io.deadline fd event (some (timer_info.mk v), trace) =
      (some (timer_info.mk v), trace)) ∧
    (∀ trace, do_io.deadline fd event (none, trace) = (none, trace)) ∧
    (a.cancelled = ETIMEDOUT →
      do_io w fd fn event timeout_so args (a :: env) =
        some (.ok (-1, { w with
          trace := w.trace ++ [.orig fn (fd :: args),
            .addConditionTimer (c.getTimeout timeout_so) fd event, .addEvent fd event,
            .yield, .cancelTimer],
          errno := ETIMEDOUT }))) ∧
    (a.cancelled ≠ ETIMEDOUT →
      do_io w fd fn event timeout_so args (a :: env) =
        do_io.retry fd fn event args (c.getTimeout timeout_so) env
          { w with
            trace := w.trace ++ [.orig fn (fd :: args),
              .addConditionTimer (c.getTimeout timeout_so) fd event, .addEvent fd event,
              .yield, .cancelTimer],
            errno := EAGAIN }) ∧
    (∀ (b : Attempt) (rest : List Attempt) (w1 : HookWorld), b.n ≠ -1 →
      do_io.retry fd fn event args (c.getTimeout timeout_so) (b :: rest) w1 =
        some (.ok (b.n,
          { w1 with trace := w1.trace ++ [.orig fn (fd :: args)], errno := b.errno }))) := by
  have h1 : ¬ (EAGAIN = EINTR) := by decide
  refine ⟨?_, ?_, ?_, ?_, ?_, ?_⟩
  · intro trace
    simp [do_io.deadline, onTimer, do_io.onTimeout]
  · intro v trace hv
    simp [do_io.deadline, onTimer, do_io.onTimeout, hv]
  · intro trace
    simp [do_io.deadline, onTimer]
  · intro hcan
    simp [do_io, he, hc, hclosed, hsock, huser, do_io.retry, hn, herr, hiom, hto, hrt, hcan, h1]
  · intro hcan
    simp [do_io, he, hc, hclosed, hsock, huser, do_io.retry, hn, herr, hiom, hto, hrt, hcan, h1]
  · intro b rest w1 hb
    simp [do_io.retry, hb]

/-- C22 on `hookTimed5`: `read(5, ...)` answers `EAGAIN`; resumed with
`cancelled = ETIMEDOUT` the hook returns -1 with `errno = ETIMEDOUT`; resumed
with `cancelled = 0` it calls `read_f` again and returns its 7. -/
theorem do_io_deadline_witness :
    (hookTimed5.t_hook_enable = true ∧
      hookTimed5.ctx 5 = some ((FdCtx.new 5 (.ok true)).setTimeout SO_RCVTIMEO 1000) ∧
      ((FdCtx.new 5 (.ok true)).setTimeout SO_RCVTIMEO 1000).getTimeout SO_RCVTIMEO ≠ UINT64_MAX ∧
      hookTimed5.iom = some 0) ∧
    read hookTimed5 5 100 10 [Attempt.mk (-1) EAGAIN 0 ETIMEDOUT] =
      some (.ok (-1, { hookTimed5 with
        trace := hookTimed5.trace ++ [.orig .read [5, 100, 10],
          .addConditionTimer
            (((FdCtx.new 5 (.ok true)).setTimeout SO_RCVTIMEO 1000).getTimeout SO_RCVTIMEO) 5 READ,
          .addEvent 5 READ, .yield, .cancelTimer],
        errno := ETIMEDOUT })) ∧
    read hookTimed5 5 100 10 [Attempt.mk (-1) EAGAIN 0 0, Attempt.mk 7 0 0 0] =
      some (.ok (7, { hookTimed5 with
        trace := [.orig .read [5, 100, 10], .addConditionTimer 1000 5 READ,
          .addEvent 5 READ, .yield, .cancelTimer, .orig .read [5, 100, 10]],
        errno := 0 })) :=
  ⟨⟨rfl, rfl, by decide, rfl⟩,
   (do_io_deadline hookTimed5 5 .read READ SO_RCVTIMEO [100, 10] _ 0
      (Attempt.mk (-1) EAGAIN 0 ETIMEDOUT) [] rfl rfl rfl rfl rfl (by decide) rfl rfl rfl
      rfl).2.2.2.1 rfl,
   rfl⟩

theorem ctx_def (w : HookWorld) (fd : Int) :
    w.ctx fd = if fd = -1 then none else if w.fdMgr.beyond fd then none
      else w.fdMgr.m_datas.getD fd.toNat none := by
  unfold HookWorld.ctx FdManager.get
  by_cases h1 : fd = -1
  · simp [h1]
  · by_cases h2 : w.fdMgr.beyond fd = true
    · simp [h1, h2]
    · simp [h1, h2]

theorem ctx_some (w : HookWorld) (fd : Int) (c : FdCtx) (h : w.ctx fd = some c) :
    0 ≤ fd ∧ fd.toNat < w.fdMgr.m_datas.length ∧ w.fdMgr.m_datas[fd.toNat]? = some (some c) := by
  rw [ctx_def] at h
  by_cases h1 : fd = -1
  · simp [h1] at h
  · by_cases h2 : w.fdMgr.beyond fd = true
    · simp [h1, h2] at h
    · simp only [h1, h2, if_false, Bool.false_eq_true] at h
      have hb : ¬ fd < 0 ∧ ¬ ((w.fdMgr.m_datas.length : Int) ≤ fd) := by
        simpa [FdManager.beyond] using h2
      have hlt : fd.toNat < w.fdMgr.m_datas.length := by omega
      refine ⟨by omega, hlt, ?_⟩
      rw [List.getD_eq_getElem?_getD, List.getElem?_eq_getElem hlt] at h
      rw [List.getElem?_eq_getElem hlt]
      simpa using h

theorem ctx_setCtx (w : HookWorld) (fd : Int) (c c1 : FdCtx) (h : w.ctx fd = some c) :
    (w.setCtx fd c1).ctx fd = some c1 := by
  obtain ⟨h0, hlt, -⟩ := ctx_some w fd c h
  rw [ctx_def]
  have h1 : fd ≠ -1 := by omega
  have h2 : (w.setCtx fd c1).fdMgr.beyond fd = false := by
    simp [HookWorld.setCtx, FdManager.beyond]
    omega
  rw [if_neg h1, h2]
  simp [HookWorld.setCtx, List.getD_eq_getElem?_getD, List.getElem?_set_self hlt]

theorem testBit_nonblock (i : Nat) : O_NONBLOCK.testBit i = decide (11 = i) := by
  have : O_NONBLOCK = 2 ^ 11 := by decide
  rw [this, Nat.testBit_two_pow]

theorem testBit_allOnes (i : Nat) : (0xFFFFFFFF : Nat).testBit i = decide (i < 32) := by
  have : (0xFFFFFFFF : Nat) = 2 ^ 32 - 1 := by decide
  rw [this, Nat.testBit_two_pow_sub_one]

theorem or_nonblock_bit (a : Nat) : (a ||| O_NONBLOCK) &&& O_NONBLOCK = O_NONBLOCK := by
  apply Nat.eq_of_testBit_eq
  intro i
  simp only [Nat.testBit_and, Nat.testBit_or]
  cases a.testBit i <;> cases O_NONBLOCK.testBit i <;> rfl

theorem andNot_nonblock_bit (a : Nat) : andNot a O_NONBLOCK &&& O_NONBLOCK = 0 := by
  apply Nat.eq_of_testBit_eq
  intro i
  simp only [andNot, Nat.testBit_and, Nat.testBit_xor, testBit_nonblock, testBit_allOnes,
    Nat.zero_testBit]
  by_cases h : 11 = i
  · subst h
    simp
  · simp [h]

theorem andNot_or_nonblock (a : Nat) :
    andNot (a ||| O_NONBLOCK) O_NONBLOCK = andNot a O_NONBLOCK := by
  apply Nat.eq_of_testBit_eq
  intro i
  simp only [andNot, Nat.testBit_and, Nat.testBit_or, Nat.testBit_xor, testBit_nonblock,
    testBit_allOnes]
  by_cases h : 11 = i
  · subst h
    simp
  · simp [h]

theorem andNot_andNot_nonblock (a : Nat) :
    andNot (andNot a O_NONBLOCK) O_NONBLOCK = andNot a O_NONBLOCK := by
  apply Nat.eq_of_testBit_eq
  intro i
  simp only [andNot, Nat.testBit_and, Nat.testBit_xor, testBit_nonblock, testBit_allOnes]
  cases a.testBit i <;> simp

theorem nonblock_ne_zero : O_NONBLOCK ≠ 0 := by decide

theorem toWord32_lt (n : Int) : toWord32 n < 4294967296 := by
  unfold toWord32
  omega

theorem toWord32_toInt32 (n : Nat) (h : n < 4294967296) : toWord32 (toInt32 n) = n := by
  unfold toWord32 toInt32
  rw [Nat.mod_eq_of_lt h]
  split <;> omega

/-- C23. For a descriptor tracked as a socket (its context is not closed) and
a flag word `arg`: `fcntl(fd, F_SETFL, arg)` calls `fcntl_f` with a word
`arg1` whose `O_NONBLOCK` bit is the context's `m_sysNonblock` and whose other
bits are those of `arg`, and records the `O_NONBLOCK` bit of `arg` as
`m_userNonblock`; a following `fcntl(fd, F_GETFL)` calls `fcntl_f(fd, F_GETFL)`
and, whatever word `a2.n` that returns, returns a word whose `O_NONBLOCK` bit
is that of `arg` and whose other bits are those of `a2.n`. -/
theorem fcntl_setfl_getfl (w : HookWorld) (fd : Int) (c : FdCtx) (arg : Nat) (a1 a2 : Answer)
    (hc : w.ctx fd = some c) (hs : c.m_isSocket = true) (hcl : c.m_isClosed = false) :
    ∃ arg1 w1 r,
      fcntl w fd F_SETFL arg a1 = (a1.n, w1) ∧
      w1.trace = w.trace ++ [.orig .fcntl [fd, F_SETFL, (arg1 : Int)]] ∧
      (arg1 &&& O_NONBLOCK ≠ 0 ↔ c.m_sysNonblock = true) ∧
      andNot arg1 O_NONBLOCK = andNot arg O_NONBLOCK ∧
      w1.ctx fd = some (c.setUserNonblock (decide (arg &&& O_NONBLOCK ≠ 0))) ∧
      fcntl w1 fd F_GETFL 0 a2 =
        (r, { w1 with trace := w1.trace ++ [.orig .fcntl [fd, F_GETFL]], errno := a2.errno }) ∧
      (toWord32 r &&& O_NONBLOCK ≠ 0 ↔ arg &&& O_NONBLOCK ≠ 0) ∧
      andNot (toWord32 r) O_NONBLOCK = andNot (toWord32 a2.n) O_NONBLOCK := by
  have hctx1 : HookWorld.ctx
      { w.setCtx fd (c.setUserNonblock (decide (arg &&& O_NONBLOCK ≠ 0))) with
        trace := w.trace ++ [.orig .fcntl [fd, F_SETFL,
          ((if c.m_sysNonblock then arg ||| O_NONBLOCK else andNot arg O_NONBLOCK : Nat) : Int)]],
        errno := a1.errno } fd
      = some (c.setUserNonblock (decide (arg &&& O_NONBLOCK ≠ 0))) :=
    ctx_setCtx w fd c _ hc
  have hne : F_GETFL ≠ F_SETFL := by decide
  refine ⟨if c.m_sysNonblock then arg ||| O_NONBLOCK else andNot arg O_NONBLOCK,
    { w.setCtx fd (c.setUserNonblock (decide (arg &&& O_NONBLOCK ≠ 0))) with
      trace := w.trace ++ [.orig .fcntl [fd, F_SETFL,
        ((if c.m_sysNonblock then arg ||| O_NONBLOCK else andNot arg O_NONBLOCK : Nat) : Int)]],
      errno := a1.errno },
    if arg &&& O_NONBLOCK ≠ 0 then toInt32 (toWord32 a2.n ||| O_NONBLOCK)
      else toInt32 (andNot (toWord32 a2.n) O_NONBLOCK),
    ?_, rfl, ?_, ?_, hctx1, ?_, ?_, ?_⟩
  · simp [fcntl, hc, hs, hcl, FdCtx.setUserNonblock, HookWorld.call, HookWorld.setCtx]
  · cases c.m_sysNonblock with
    | true => simp [or_nonblock_bit, nonblock_ne_zero]
    | false => simp [andNot_nonblock_bit]
  · cases c.m_sysNonblock with
    | true => simp [andNot_or_nonblock]
    | false => simp [andNot_andNot_nonblock]
  · unfold fcntl
    rw [if_neg hne, if_pos rfl]
    have key := ctx_setCtx w fd c (c.setUserNonblock (decide (arg &&& O_NONBLOCK ≠ 0))) hc
    simp only [HookWorld.ctx] at key
    simp only [HookWorld.call, HookWorld.ctx, key]
    by_cases hb : arg &&& O_NONBLOCK ≠ 0
    · simp [FdCtx.setUserNonblock, hs, hcl, hb]
    · simp [FdCtx.setUserNonblock, hs, hcl, hb]
  · have hlt := toWord32_lt a2.n
    have hor : toWord32 a2.n ||| O_NONBLOCK < 4294967296 :=
      Nat.or_lt_two_pow (show toWord32 a2.n < 2 ^ 32 from hlt) (show O_NONBLOCK < 2 ^ 32 by decide)
    by_cases hb : arg &&& O_NONBLOCK ≠ 0
    · rw [if_pos hb, toWord32_toInt32 _ hor, or_nonblock_bit]
      simp [hb, nonblock_ne_zero]
    · have hle : andNot (toWord32 a2.n) O_NONBLOCK < 4294967296 :=
        lt_of_le_of_lt Nat.and_le_left hlt
      rw [if_neg hb, toWord32_toInt32 _ hle, andNot_nonblock_bit]
      simp [hb]
  · have hlt := toWord32_lt a2.n
    have hor : toWord32 a2.n ||| O_NONBLOCK < 4294967296 :=
      Nat.or_lt_two_pow (show toWord32 a2.n < 2 ^ 32 from hlt) (show O_NONBLOCK < 2 ^ 32 by decide)
    by_cases hb : arg &&& O_NONBLOCK ≠ 0
    · rw [if_pos hb, toWord32_toInt32 _ hor, andNot_or_nonblock]
    · have hle : andNot (toWord32 a2.n) O_NONBLOCK < 4294967296 :=
        lt_of_le_of_lt Nat.and_le_left hlt
      rw [if_neg hb, toWord32_toInt32 _ hle, andNot_andNot_nonblock]

/-- C23 on `hookSocket5`: `fcntl(5, F_SETFL, 2)` passes `O_NONBLOCK | 2` to
`fcntl_f`, and `fcntl(5, F_GETFL)`, to which `fcntl_f` answers
`O_NONBLOCK | 2`, returns 2. -/
theorem fcntl_setfl_getfl_witness :
    (hookSocket5.ctx 5 = some (FdCtx.new 5 (.ok true)) ∧
      (FdCtx.new 5 (.ok true)).m_isSocket = true ∧
      (FdCtx.new 5 (.ok true)).m_isClosed = false) ∧
    (fcntl hookSocket5 5 F_SETFL 2 (Answer.mk 0 0)).2.trace = [.orig .fcntl [5, 4, 2050]] ∧
    (fcntl (fcntl hookSocket5 5 F_SETFL 2 (Answer.mk 0 0)).2 5 F_GETFL 0 (Answer.mk 2050 0)).1 = 2 ∧
    ∃ arg1 w1 r,
      fcntl hookSocket5 5 F_SETFL 2 (Answer.mk 0 0) = ((Answer.mk 0 0).n, w1) ∧
      w1.trace = hookSocket5.trace ++ [.orig .fcntl [5, F_SETFL, (arg1 : Int)]] ∧
      (arg1 &&& O_NONBLOCK ≠ 0 ↔ (FdCtx.new 5 (.ok true)).m_sysNonblock = true) ∧
      andNot arg1 O_NONBLOCK = andNot 2 O_NONBLOCK ∧
      w1.ctx 5 = some ((FdCtx.new 5 (.ok true)).setUserNonblock (decide (2 &&& O_NONBLOCK ≠ 0))) ∧
      fcntl w1 5 F_GETFL 0 (Answer.mk 2050 0) =
        (r, { w1 with trace := w1.trace ++ [.orig .fcntl [5, F_GETFL]],
                      errno := (Answer.mk 2050 0).errno }) ∧
      (toWord32 r &&& O_NONBLOCK ≠ 0 ↔ 2 &&& O_NONBLOCK ≠ 0) ∧
      andNot (toWord32 r) O_NONBLOCK = andNot (toWord32 (Answer.mk 2050 0).n) O_NONBLOCK :=
  ⟨⟨rfl, rfl, rfl⟩, rfl, rfl,
   fcntl_setfl_getfl hookSocket5 5 _ 2 (Answer.mk 0 0) (Answer.mk 2050 0) rfl rfl rfl⟩

theorem getD_resize (m : FdManager) (n i : Nat) (h : m.m_datas.length ≤ n) :
    (m.resize n).m_datas.getD i none = m.m_datas.getD i none := by
  simp only [FdManager.resize, List.getD_eq_getElem?_getD]
  rw [List.take_of_length_le h]
  by_cases hi : i < m.m_datas.length
  · rw [List.getElem?_append_left hi]
  · rw [List.getElem?_append_right (by omega), List.getElem?_eq_none (by omega : m.m_datas.length ≤ i)]
    simp only [List.getElem?_replicate]
    split <;> rfl

theorem getD_set_ne (l : List (Option FdCtx)) (i j : Nat) (x : Option FdCtx) (h : i ≠ j) :
    (l.set j x).getD i none = l.getD i none := by
  simp [List.getD_eq_getElem?_getD, List.getElem?_set_ne (Ne.symm h)]

theorem getD_set_self (l : List (Option FdCtx)) (j : Nat) (x : Option FdCtx) (h : j < l.length) :
    (l.set j x).getD j none = x := by
  simp [List.getD_eq_getElem?_getD, List.getElem?_set_self h]

theorem beyond_iff (m : FdManager) (fd : Int) (hfd : 0 ≤ fd) :
    m.beyond fd = true ↔ m.m_datas.length ≤ fd.toNat := by
  simp only [FdManager.beyond, Bool.or_eq_true, decide_eq_true_eq]
  omega

/-- C24 as stated fails. On the table `FdManager()` builds (64 slots),
`get(60, true)` finds slot 60 empty and stores the new context there without
resizing: the table keeps its 64 slots, where `max(64, floor(60 * 1.5))` is
90. -/
theorem get_in_range_counterexample :
    (FdManager.new.get 60 true (FdCtx.new 60 (.ok true))).map
        (fun r => (r.2.1.m_datas.length, r.2.1.m_datas.getD 60 none, r.2.2)) =
      .ok (64, some (FdCtx.new 60 (.ok true)), true) ∧
    FdManager.new.m_datas.length = 64 ∧ max 64 (60 * 3 / 2) = 90 :=
  ⟨rfl, rfl, rfl⟩

/-- C24, amended. For `fd >= 0` on a table of at least 2 slots (the
constructor makes 64 and no call makes the table smaller):
`get(fd, false)` returns the entry of slot `fd`, null when `fd` is beyond the
table or the slot is empty, and leaves the table as it is; `get(fd, true)`
returns an entry that is there; on a miss it leaves the size unchanged when
`fd` is within the table and resizes the table to `floor(fd * 1.5)` when it is
not, which is more than `fd`, stores the new context in slot `fd` and changes
no other slot; `del(fd)` keeps the size, changes no other slot, and
`get(fd, false)` after it returns null. -/
theorem fdManager_get_del (m : FdManager) (fd : Int) (ctx : FdCtx) (hfd : 0 ≤ fd)
    (hlen : 2 ≤ m.m_datas.length) :
    m.get fd false ctx = .ok (m.m_datas.getD fd.toNat none, m, false) ∧
    (∀ c, m.m_datas.getD fd.toNat none = some c → m.get fd true ctx = .ok (some c, m, false)) ∧
    (m.m_datas.getD fd.toNat none = none →
      ∃ m1, m.get fd true ctx = .ok (some ctx, m1, true) ∧
        m1.m_datas.length
          = (if fd.toNat < m.m_datas.length then m.m_datas.length else fd.toNat * 3 / 2) ∧
        m.m_datas.length ≤ m1.m_datas.length ∧
        fd.toNat < m1.m_datas.length ∧
        m1.m_datas.getD fd.toNat none = some ctx ∧
        (∀ i, i ≠ fd.toNat → m1.m_datas.getD i none = m.m_datas.getD i none)) ∧
    (m.del fd).get fd false ctx = .ok (none, m.del fd, false) ∧
    (m.del fd).m_datas.length = m.m_datas.length ∧
    (∀ i, i ≠ fd.toNat → (m.del fd).m_datas.getD i none = m.m_datas.getD i none) := by
  have hne : fd ≠ -1 := by omega
  have hnl : ¬ fd < 0 := by omega
  refine ⟨?_, ?_, ?_, ?_, ?_, ?_⟩
  · unfold FdManager.get
    by_cases hb : m.beyond fd = true
    · have hle := (beyond_iff m fd hfd).1 hb
      simp [hne, hb, List.getD_eq_getElem?_getD, List.getElem?_eq_none hle]
    · simp [hne, hb]
  · intro c hc
    have hb : m.beyond fd = false := by
      cases h : m.beyond fd with
      | false => rfl
      | true =>
        have hle := (beyond_iff m fd hfd).1 h
        rw [List.getD_eq_getElem?_getD, List.getElem?_eq_none hle] at hc
        simp at hc
    unfold FdManager.get
    rw [List.getD_eq_getElem?_getD] at hc
    simp [hne, hb, hc]
  · intro hnone
    unfold FdManager.get
    by_cases hb : m.beyond fd = true
    · have hle := (beyond_iff m fd hfd).1 hb
      have hn : m.m_datas.length ≤ fd.toNat * 3 / 2 := by omega
      have hlen1 : (m.resize (fd.toNat * 3 / 2)).m_datas.length = fd.toNat * 3 / 2 :=
        resize_length m _ hn
      have hlt : fd.toNat < (m.resize (fd.toNat * 3 / 2)).m_datas.length := by
        rw [hlen1]
        omega
      simp only [hne, if_false, hb, Bool.not_true, Bool.and_false, Bool.false_and,
        Bool.false_eq_true, hnl, if_true, hlt]
      refine ⟨_, rfl, ?_, ?_, ?_, ?_, ?_⟩
      · rw [List.length_set, hlen1, if_neg (by omega)]
      · rw [List.length_set, hlen1]
        exact hn
      · rw [List.length_set]
        exact hlt
      · exact getD_set_self _ _ _ hlt
      · intro i hi
        rw [getD_set_ne _ _ _ _ hi, getD_resize m _ i hn]
    · have hb2 : m.beyond fd = false := by simpa using hb
      have hlt : fd.toNat < m.m_datas.length := by
        have := (beyond_iff m fd hfd).not.1 hb
        omega
      simp only [hne, if_false, hb2, Bool.not_false, Bool.true_and, Bool.false_and,
        Bool.false_eq_true, hnone, Option.isSome_none, Bool.not_true, Bool.or_false, hnl, hlt,
        if_true]
      refine ⟨_, rfl, ?_, ?_, ?_, ?_, ?_⟩
      · simp
      · simp
      · rw [List.length_set]
        exact hlt
      · exact getD_set_self _ _ _ hlt
      · intro i hi
        exact getD_set_ne _ _ _ _ hi
  · unfold FdManager.del
    by_cases hb : m.beyond fd = true
    · have hle := (beyond_iff m fd hfd).1 hb
      simp only [hb, if_true]
      unfold FdManager.get
      simp [hne, hb]
    · have hb2 : m.beyond fd = false := by simpa using hb
      have hlt : fd.toNat < m.m_datas.length := by
        have := (beyond_iff m fd hfd).not.1 hb
        omega
      have hb3 : FdManager.beyond { m_datas := m.m_datas.set fd.toNat none } fd = false := by
        cases h : FdManager.beyond { m_datas := m.m_datas.set fd.toNat none } fd with
        | false => rfl
        | true =>
          have := (beyond_iff _ fd hfd).1 h
          simp only [List.length_set] at this
          omega
      simp only [hb2, Bool.false_eq_true, if_false]
      have hg := getD_set_self m.m_datas fd.toNat none hlt
      rw [List.getD_eq_getElem?_getD] at hg
      unfold FdManager.get
      simp [hne, hb3, hg]
  · unfold FdManager.del
    split
    · rfl
    · simp
  · intro i hi
    unfold FdManager.del
    split
    · rfl
    · exact getD_set_ne _ _ _ _ hi

/-- C24, amended, on the table of the constructor: `get(70, true)` resizes it
to 105 slots and stores the context in slot 70. -/
theorem fdManager_get_del_witness :
    ((0 : Int) ≤ 70 ∧ 2 ≤ FdManager.new.m_datas.length ∧
      FdManager.new.m_datas.getD (70 : Int).toNat none = none) ∧
    ∃ m1, FdManager.new.get 70 true (FdCtx.new 70 (.ok true))
        = .ok (some (FdCtx.new 70 (.ok true)), m1, true) ∧
      m1.m_datas.length
        = (if (70 : Int).toNat < FdManager.new.m_datas.length then FdManager.new.m_datas.length
           else (70 : Int).toNat * 3 / 2) ∧
      FdManager.new.m_datas.length ≤ m1.m_datas.length ∧
      (70 : Int).toNat < m1.m_datas.length ∧
      m1.m_datas.getD (70 : Int).toNat none = some (FdCtx.new 70 (.ok true)) ∧
      (∀ i, i ≠ (70 : Int).toNat → m1.m_datas.getD i none = FdManager.new.m_datas.getD i none) :=
  ⟨⟨by decide, by decide, rfl⟩,
   (fdManager_get_del FdManager.new 70 (FdCtx.new 70 (.ok true)) (by decide)
      (by decide)).2.2.1 rfl⟩

/-! ### Timers: the front hook, termination, the frame of `cancel` and `refresh` -/

theorem setInsertAt_zero_iff (tm : TimerManager) (t : Nat) (l : List Nat) (ht : t ∉ l) :
    tm.setInsertAt t l = 0 ↔
      (tm.setInsert t l).head? = some t ∨ ∃ x, l.head? = some x ∧ tm.next x = tm.next t := by
  cases l with
  | nil => simp [TimerManager.setInsertAt, TimerManager.setInsert]
  | cons x xs =>
    have hx : x ≠ t := fun h => ht (h ▸ List.mem_cons_self _ _)
    by_cases h1 : tm.next t < tm.next x
    · simp [TimerManager.setInsertAt, TimerManager.setInsert, TimerManager.comparator, h1]
    · by_cases h2 : tm.next x < tm.next t
      · have h3 : tm.next x ≠ tm.next t := by omega
        simp [TimerManager.setInsertAt, TimerManager.setInsert, TimerManager.comparator, h1, h2,
          hx, h3]
      · have h3 : tm.next x = tm.next t := by omega
        simp [TimerManager.setInsertAt, TimerManager.setInsert, TimerManager.comparator, h1, h2,
          h3]

theorem addTimer_eq (tm : TimerManager) (ms : Nat) (cb : Option Nat) (recurring : Bool)
    (now : Int) :
    (tm.addTimer ms cb recurring now).1 = tm.heap.length ∧
    (tm.addTimer ms cb recurring now).2.1 =
      (TimerManager.setInsertAt { tm with heap := tm.heap ++ [Timer.new ms cb recurring now] }
        tm.heap.length tm.m_timers == 0 && !tm.m_tickled) ∧
    (tm.addTimer ms cb recurring now).2.2.m_timers =
      TimerManager.setInsert { tm with heap := tm.heap ++ [Timer.new ms cb recurring now] }
        tm.heap.length tm.m_timers ∧
    (tm.addTimer ms cb recurring now).2.2.m_tickled =
      (tm.m_tickled || (tm.addTimer ms cb recurring now).2.1) := by
  refine ⟨rfl, rfl, ?_, ?_⟩
  · simp only [TimerManager.addTimer, TimerManager.addTimerPtr, TimerManager.insert]
    split <;> rfl
  · simp only [TimerManager.addTimer, TimerManager.addTimerPtr, TimerManager.insert]
    split
    · rename_i h
      rw [h]
      simp
    · rename_i h
      rw [Bool.not_eq_true] at h
      rw [h]
      simp

theorem addTimers_count (adds : List (Nat × Option Nat × Bool × Int)) (tm : TimerManager) :
    (tm.addTimers adds).1 ≤ 1 ∧ (tm.m_tickled = true → (tm.addTimers adds).1 = 0) := by
  induction adds generalizing tm with
  | nil => simp [TimerManager.addTimers]
  | cons a rest ih =>
    obtain ⟨ms, cb, recurring, now⟩ := a
    obtain ⟨-, h2, -, h4⟩ := addTimer_eq tm ms cb recurring now
    have ih1 := ih (tm.addTimer ms cb recurring now).2.2
    simp only [TimerManager.addTimers]
    cases hf : (tm.addTimer ms cb recurring now).2.1 with
    | false =>
      simp only [Bool.false_eq_true, if_false, Nat.zero_add]
      refine ⟨ih1.1, ?_⟩
      intro ht
      apply ih1.2
      rw [h4, ht]
      rfl
    | true =>
      have htk : tm.m_tickled = false := by
        rw [hf] at h2
        cases h : tm.m_tickled with
        | false => rfl
        | true => rw [h] at h2; simp at h2
      have h0 := ih1.2 (by rw [h4, hf]; simp)
      simp only [if_true, h0]
      exact ⟨le_refl _, fun ht => by rw [htk] at ht; cases ht⟩

/-- C26, what `addTimer` does. `onTimerInsertedAtFront()` is called exactly
when `m_tickled` was false and either the new timer is the head of the set
after the insertion or the head of the set has the `m_next` of the new timer
(then `m_timers.insert` inserts nothing and returns the position of that
head); `m_tickled` is true afterwards when it was true or the hook was called;
in a run of `addTimer` calls the hook is called at most once, and not at all
when `m_tickled` was true at the start. -/
theorem addTimer_front_hook (tm : TimerManager) (ms : Nat) (cb : Option Nat) (recurring : Bool)
    (now : Int) (hh : ∀ y ∈ tm.m_timers, y < tm.heap.length) :
    ((tm.addTimer ms cb recurring now).2.1 = true ↔
      tm.m_tickled = false ∧
        ((tm.addTimer ms cb recurring now).2.2.m_timers.head?
            = some (tm.addTimer ms cb recurring now).1 ∨
          ∃ x, tm.m_timers.head? = some x ∧ tm.next x = now + msTicks ms)) ∧
    (tm.addTimer ms cb recurring now).2.2.m_tickled =
      (tm.m_tickled || (tm.addTimer ms cb recurring now).2.1) ∧
    (∀ adds, (tm.addTimers adds).1 ≤ 1 ∧ (tm.m_tickled = true → (tm.addTimers adds).1 = 0)) := by
  obtain ⟨h1, h2, h3, h4⟩ := addTimer_eq tm ms cb recurring now
  have hnot : tm.heap.length ∉ tm.m_timers := fun h => Nat.lt_irrefl _ (hh _ h)
  have hz := setInsertAt_zero_iff
    { tm with heap := tm.heap ++ [Timer.new ms cb recurring now] } tm.heap.length tm.m_timers hnot
  refine ⟨?_, h4, fun adds => addTimers_count adds tm⟩
  rw [h2, h3, h1]
  simp only [Bool.and_eq_true, beq_iff_eq, Bool.not_eq_true']
  rw [hz]
  constructor
  · rintro ⟨h | ⟨x, hx, he⟩, ht⟩
    · exact ⟨ht, Or.inl h⟩
    · refine ⟨ht, Or.inr ⟨x, hx, ?_⟩⟩
      have hxm : x ∈ tm.m_timers := List.mem_of_mem_head? hx
      rw [next_append_lt tm _ x (hh x hxm), next_append_new] at he
      exact he
  · rintro ⟨ht, h | ⟨x, hx, he⟩⟩
    · exact ⟨Or.inl h, ht⟩
    · refine ⟨Or.inr ⟨x, hx, ?_⟩, ht⟩
      have hxm : x ∈ tm.m_timers := List.mem_of_mem_head? hx
      rw [next_append_lt tm _ x (hh x hxm), next_append_new]
      exact he

/-- C26, the failing input. On `oneShot` (one timer due at 5 ms, `m_tickled`
false) `addTimer(5, cb 2)` at clock reading 0 calls `onTimerInsertedAtFront()`
although the new timer, handle 1, is not the head of the set: the head is
still timer 0, whose `m_next` it ties with, and the new timer is not in the
set at all. -/
theorem addTimer_front_hook_witness :
    (∀ y ∈ oneShot.m_timers, y < oneShot.heap.length) ∧
    (oneShot.addTimer 5 (some 2) false 0).2.1 = true ∧
    (oneShot.addTimer 5 (some 2) false 0).2.2.m_timers = [0] ∧
    (oneShot.addTimer 5 (some 2) false 0).1 = 1 ∧
    ((oneShot.addTimer 5 (some 2) false 0).2.1 = true ↔
      oneShot.m_tickled = false ∧
        ((oneShot.addTimer 5 (some 2) false 0).2.2.m_timers.head?
            = some (oneShot.addTimer 5 (some 2) false 0).1 ∨
          ∃ x, oneShot.m_timers.head? = some x ∧ oneShot.next x = 0 + msTicks 5)) :=
  ⟨by decide, rfl, rfl, rfl,
   (addTimer_front_hook oneShot 5 (some 2) false 0 (by decide)).1⟩

theorem expireLoop_zeroPeriod (fuel : Nat) (cbs : List (Option Nat)) :
    TimerManager.expireLoop false 5000000 fuel zeroPeriod cbs = none := by
  induction fuel generalizing cbs with
  | zero => rfl
  | succ n ih => exact ih (cbs ++ [some 1])

/-- C27, the failing inputs. A recurring timer of period 0 is due
(`zeroPeriod`, clock reading 5 ms, no rollover): each pass of the loop of
`listExpiredCb` appends the callable and reinserts the timer at `now + 0`,
which is due again, and the loop is not left after any number of passes. The
same holds when a rollover is detected while a recurring timer is pending
(`oneRecurring`, clock reading 0 after 2 h). -/
theorem listExpiredCb_not_total :
    (zeroPeriod.detectClockRollover 5000000).1 = false ∧
    (∀ cbs, zeroPeriod.expireHead 5000000 0 (Timer.mk true 0 5000000 (some 1)) [] cbs =
      (zeroPeriod, cbs ++ [some 1])) ∧
    (∀ fuel, zeroPeriod.listExpiredCb 5000000 5000000 fuel [] = none) ∧
    (oneRecurring.detectClockRollover 0).1 = true ∧
    (∀ fuel, oneRecurring.listExpiredCb 0 0 fuel [] = none) := by
  refine ⟨rfl, fun _ => rfl, ?_, rfl, ?_⟩
  · intro fuel
    exact expireLoop_zeroPeriod fuel []
  · intro fuel
    cases fuel with
    | zero => rfl
    | succ n => exact expireLoop_rolled n [some 1]

/-- C28, the failing input. In `oneShotTied` timer 0 (callable 1, due at
5 ms) is in the set and timer 1, with the same `m_next`, is not.
`cancel()` on timer 1 clears its callable, `m_timers.find` returns the
position of timer 0, which `Timer::Comparator` finds equivalent, and timer 0
is erased: the set is empty although timer 0 still has its callable.
`refresh()` on timer 1 at clock reading 1 ms erases timer 0 in the same way
and inserts timer 1. -/
theorem cancel_erases_equivalent_timer :
    oneShotTied.m_timers = [0] ∧
    Timer.cancel oneShotTied 1 =
      .ok (true, TimerManager.mk
        [Timer.mk false 5 5000000 (some 1), Timer.mk false 5 5000000 none] [] true 0) ∧
    Timer.refresh oneShotTied 1 1000000 =
      .ok (true, TimerManager.mk
        [Timer.mk false 5 5000000 (some 1), Timer.mk false 5 6000000 (some 2)] [1] true 0) ∧
    (oneShot.addTimer 5 (some 2) false 0).2.2 = oneShotTied :=
  ⟨rfl, rfl, rfl, rfl⟩

/-! ### The I/O manager: what a failed `epoll_ctl` returns, the slots -/

/-- C29, what the code does. When the `epoll_ctl` call fails (`rt` not 0) on
a registered event, `delEvent` and `cancelEvent` return `true` (the
`return -1;` of a function returning `bool`) with the table of contexts and
`m_pending_event_count` as before the call, only the `epoll_ctl` call being
logged; `cancelAll` on a non-empty mask does the same. -/
theorem failed_epoll_ctl_returns_true (s : IOManager) (fd : Int) (c : FdContext) (event : Nat)
    (rt : Int) (hsz : toInt32 s.m_fd_contexts.length > fd) (hc : s.ctxAt fd = .ok c)
    (hrt : rt ≠ 0) :
    (c.events &&& event ≠ 0 →
      s.delEvent fd event rt = .ok (true,
        { s with epoll := s.epoll ++ [EpollCtl.mk
          (if andNot c.events event ≠ 0 then EPOLL_CTL_MOD else EPOLL_CTL_DEL) fd
          (EPOLLET ||| andNot c.events event)] }) ∧
      s.cancelEvent fd event rt = .ok (true,
        { s with epoll := s.epoll ++ [EpollCtl.mk
          (if andNot c.events event ≠ 0 then EPOLL_CTL_MOD else EPOLL_CTL_DEL) fd
          (EPOLLET ||| andNot c.events event)] })) ∧
    (c.events ≠ 0 →
      s.cancelAll fd rt = .ok (true,
        { s with epoll := s.epoll ++ [EpollCtl.mk EPOLL_CTL_DEL fd 0] })) := by
  constructor
  · intro hbit
    constructor
    · unfold IOManager.delEvent
      rw [if_pos hsz]
      simp only [hc, if_neg hbit, if_pos hrt, IOManager.epoll_ctl]
    · unfold IOManager.cancelEvent
      rw [if_pos hsz]
      simp only [hc, if_neg hbit, if_pos hrt, IOManager.epoll_ctl]
  · intro hne
    unfold IOManager.cancelAll
    rw [if_pos hsz]
    simp only [hc, if_neg hne, if_pos hrt, IOManager.epoll_ctl]

/-- C29, the failing input. `READ` is registered on descriptor 5 (`testRead`)
and `epoll_ctl` returns -1: `delEvent(5, READ)`, `cancelEvent(5, READ)` and
`cancelAll(5)` return `true`, and the mask of descriptor 5 and
`m_pending_event_count` are unchanged. -/
theorem failed_epoll_ctl_returns_true_witness :
    (toInt32 testRead.m_fd_contexts.length > 5 ∧ testRead.ctxAt 5 = .ok testReadCtx ∧
      (-1 : Int) ≠ 0 ∧ testReadCtx.events &&& READ ≠ 0 ∧ testReadCtx.events ≠ 0) ∧
    testRead.delEvent 5 READ (-1) = .ok (true,
      { testRead with epoll := testRead.epoll ++ [EpollCtl.mk
        (if andNot testReadCtx.events READ ≠ 0 then EPOLL_CTL_MOD else EPOLL_CTL_DEL) 5
        (EPOLLET ||| andNot testReadCtx.events READ)] }) ∧
    testRead.cancelEvent 5 READ (-1) = .ok (true,
      { testRead with epoll := testRead.epoll ++ [EpollCtl.mk
        (if andNot testReadCtx.events READ ≠ 0 then EPOLL_CTL_MOD else EPOLL_CTL_DEL) 5
        (EPOLLET ||| andNot testReadCtx.events READ)] }) ∧
    testRead.cancelAll 5 (-1) = .ok (true,
      { testRead with epoll := testRead.epoll ++ [EpollCtl.mk EPOLL_CTL_DEL 5 0] }) :=
  ⟨⟨by decide, rfl, by decide, by decide, by decide⟩,
   ((failed_epoll_ctl_returns_true testRead 5 testReadCtx READ (-1) (by decide) rfl
      (by decide)).1 (by decide)).1,
   ((failed_epoll_ctl_returns_true testRead 5 testReadCtx READ (-1) (by decide) rfl
      (by decide)).1 (by decide)).2,
   (failed_epoll_ctl_returns_true testRead 5 testReadCtx READ (-1) (by decide) rfl
      (by decide)).2 (by decide)⟩

theorem sched_fresh (i : Nat) : (FdContext.fresh i).Sched := ⟨Or.inl rfl, Or.inl rfl⟩

theorem sched_setEventContext {c : FdContext} (hc : c.Sched) (ev x : Nat) {e : EventContext}
    (he : e.Sched) :
    (FdContext.setEventContext (FdContext.mk c.read c.write c.fd x) ev e).Sched := by
  unfold FdContext.setEventContext
  split
  · exact ⟨he, hc.2⟩
  · split
    · exact ⟨hc.1, he⟩
    · exact hc

theorem sched_set {l : List FdContext} (h : ∀ c ∈ l, c.Sched) (i : Nat) {c1 : FdContext}
    (h1 : c1.Sched) : ∀ c ∈ l.set i c1, c.Sched := by
  intro c hc
  rcases List.mem_or_eq_of_mem_set hc with hc | rfl
  · exact h c hc
  · exact h1

theorem triggerEvent_sched {c c1 : FdContext} {ev : Nat} {scheds scheds1 : List Scheduler}
    (hc : c.Sched) (h : c.triggerEvent ev scheds = .ok (c1, scheds1)) : c1.Sched := by
  unfold FdContext.triggerEvent at h
  split at h
  · cases h
  · dsimp only at h
    split at h
    · cases h
    · split at h
      · cases h
      · cases h
        exact sched_setEventContext hc ev _ (Or.inl rfl)

theorem fireIf_sched {cond : Bool} {ev : Nat} {c c1 : FdContext} {scheds scheds1 : List Scheduler}
    {cnt cnt1 : Nat} (hc : c.Sched)
    (h : fireIf cond ev (c, scheds, cnt) = .ok (c1, scheds1, cnt1)) : c1.Sched := by
  unfold fireIf at h
  split at h
  · dsimp only at h
    split at h
    · cases h
    · rename_i c2 s2 ht
      cases h
      exact triggerEvent_sched hc ht
  · cases h
    exact hc

theorem contextResize_sched {s : IOManager} (h : ∀ c ∈ s.m_fd_contexts, c.Sched) (n : Nat) :
    ∀ c ∈ (s.contextResize n).m_fd_contexts, c.Sched := by
  intro c hc
  unfold IOManager.contextResize at hc
  dsimp only at hc
  split at hc
  · exact h c (List.mem_of_mem_take hc)
  · rcases List.mem_append.1 hc with hc | hc
    · exact h c hc
    · obtain ⟨i, -, rfl⟩ := List.mem_map.1 hc
      exact sched_fresh i

theorem armedSlot_sched_cb {e : EventContext} (tl : ThreadLocal) (cb : Option Nat)
    (htl : tl.t_scheduler.isSome) :
    EventContext.Sched { e with scheduler := tl.t_scheduler, cb := cb } := Or.inr htl

theorem addEvent_sched {s s1 : IOManager} {fd : Int} {event : Nat} {cb : Option Nat}
    {tl : ThreadLocal} {rt r : Int} (h : ∀ c ∈ s.m_fd_contexts, c.Sched)
    (htl : tl.t_scheduler.isSome) (hok : s.addEvent fd event cb tl rt = .ok (r, s1)) :
    ∀ c ∈ s1.m_fd_contexts, c.Sched := by
  unfold IOManager.addEvent at hok
  have h0 : ∀ c ∈ (if toInt32 s.m_fd_contexts.length > fd then s
      else s.contextResize (growTo fd)).m_fd_contexts, c.Sched := by
    split
    · exact h
    · exact contextResize_sched h _
  generalize (if toInt32 s.m_fd_contexts.length > fd then s
    else s.contextResize (growTo fd)) = s0 at hok h0
  dsimp only at hok
  split at hok
  · cases hok
  · rename_i fd_ctx hctx
    obtain ⟨hfd, hget⟩ := ctxAt_ok hctx
    have hc := h0 _ (List.getElem?_mem hget)
    split at hok
    · cases hok; exact h0
    · split at hok
      · cases hok
      · split at hok
        · cases hok
        · split at hok
          · cases hok
            exact sched_set h0 _ (sched_setEventContext hc event _ (Or.inr htl))
          · split at hok
            · cases hok
              exact sched_set h0 _ (sched_setEventContext hc event _ (Or.inr htl))
            · cases hok

theorem delEvent_sched {s s1 : IOManager} {fd : Int} {event : Nat} {rt : Int} {r : Bool}
    (h : ∀ c ∈ s.m_fd_contexts, c.Sched) (hok : s.delEvent fd event rt = .ok (r, s1)) :
    ∀ c ∈ s1.m_fd_contexts, c.Sched := by
  unfold IOManager.delEvent at hok
  split at hok
  · split at hok
    · cases hok
    · rename_i fd_ctx hctx
      obtain ⟨hfd, hget⟩ := ctxAt_ok hctx
      have hc := h _ (List.getElem?_mem hget)
      split at hok
      · cases hok; exact h
      · dsimp only at hok
        split at hok
        · cases hok; exact h
        · split at hok
          · cases hok
          · cases hok
            exact sched_set h _ (sched_setEventContext hc event _ (Or.inl rfl))
  · cases hok; exact h

theorem cancelEvent_sched {s s1 : IOManager} {fd : Int} {event : Nat} {rt : Int} {r : Bool}
    (h : ∀ c ∈ s.m_fd_contexts, c.Sched) (hok : s.cancelEvent fd event rt = .ok (r, s1)) :
    ∀ c ∈ s1.m_fd_contexts, c.Sched := by
  unfold IOManager.cancelEvent at hok
  split at hok
  · split at hok
    · cases hok
    · rename_i fd_ctx hctx
      obtain ⟨hfd, hget⟩ := ctxAt_ok hctx
      have hc := h _ (List.getElem?_mem hget)
      split at hok
      · cases hok; exact h
      · dsimp only at hok
        split at hok
        · cases hok; exact h
        · split at hok
          · cases hok
          · rename_i c1 sch1 ht
            cases hok
            exact sched_set h _ (triggerEvent_sched hc ht)
  · cases hok; exact h

theorem cancelAll_sched {s s1 : IOManager} {fd : Int} {rt : Int} {r : Bool}
    (h : ∀ c ∈ s.m_fd_contexts, c.Sched) (hok : s.cancelAll fd rt = .ok (r, s1)) :
    ∀ c ∈ s1.m_fd_contexts, c.Sched := by
  unfold IOManager.cancelAll at hok
  split at hok
  · split at hok
    · cases hok
    · rename_i fd_ctx hctx
      obtain ⟨hfd, hget⟩ := ctxAt_ok hctx
      have hc := h _ (List.getElem?_mem hget)
      split at hok
      · cases hok; exact h
      · dsimp only at hok
        split at hok
        · cases hok; exact h
        · split at hok
          · cases hok
          · rename_i st1 h1
            obtain ⟨c1, sch1, cnt1⟩ := st1
            split at hok
            · cases hok
            · rename_i c2 sch2 cnt2 h2
              split at hok
              · cases hok
              · cases hok
                exact sched_set h _ (fireIf_sched (fireIf_sched hc h1) h2)
  · cases hok; exact h

theorem idleEvent_sched {s s1 : IOManager} {event : EpollEvent} {rt2 : Int}
    (h : ∀ c ∈ s.m_fd_contexts, c.Sched) (hok : s.idleEvent event rt2 = .ok s1) :
    ∀ c ∈ s1.m_fd_contexts, c.Sched := by
  unfold IOManager.idleEvent at hok
  split at hok
  · cases hok; exact h
  · rename_i i
    split at hok
    · cases hok
    · rename_i fd_ctx hget
      have hc := h _ (List.getElem?_mem hget)
      dsimp only at hok
      split at hok
      · cases hok; exact h
      · split at hok
        · cases hok; exact h
        · split at hok
          · cases hok
          · rename_i st1 h1
            obtain ⟨c1, sch1, cnt1⟩ := st1
            split at hok
            · cases hok
            · rename_i c2 sch2 cnt2 h2
              cases hok
              exact sched_set h _ (fireIf_sched (fireIf_sched hc h1) h2)

theorem ReachableOn.sched {s : IOManager} (h : ReachableOn s) :
    ∀ c ∈ s.m_fd_contexts, c.Sched := by
  induction h with
  | new tickle_fd scheds =>
    exact contextResize_sched (s := IOManager.mk [] 0 _ scheds) (fun c hc => by cases hc) 32
  | addEvent fd event cb tl rt _ hg htl hok ih => exact addEvent_sched ih htl hok
  | delEvent fd event rt _ hok ih => exact delEvent_sched ih hok
  | cancelEvent fd event rt _ hok ih => exact cancelEvent_sched ih hok
  | cancelAll fd rt _ hok ih => exact cancelAll_sched ih hok
  | idle event rt2 _ hok ih => exact idleEvent_sched ih hok
  | run scheds _ ih => exact ih

theorem ReachableOn.reachable {s : IOManager} (h : ReachableOn s) : Reachable s := by
  induction h with
  | new tickle_fd scheds => exact Reachable.new tickle_fd scheds
  | addEvent fd event cb tl rt _ hg htl hok ih => exact Reachable.addEvent fd event cb tl rt ih hg hok
  | delEvent fd event rt _ hok ih => exact Reachable.delEvent fd event rt ih hok
  | cancelEvent fd event rt _ hok ih => exact Reachable.cancelEvent fd event rt ih hok
  | cancelAll fd rt _ hok ih => exact Reachable.cancelAll fd rt ih hok
  | idle event rt2 _ hok ih => exact Reachable.idle event rt2 ih hok
  | run scheds _ ih => exact Reachable.run scheds ih

theorem testOrphan_eq :
    testManager.addEvent 5 READ (some 11) orphanThread 0 = .ok (0, testOrphan) := by
  rfl

theorem testOrphan_reachable : Reachable testOrphan :=
  Reachable.addEvent 5 READ (some 11) orphanThread 0 (Reachable.new 3 _) (by decide)
    testOrphan_eq

theorem testRead_reachableOn : ReachableOn testRead :=
  ReachableOn.addEvent 5 READ (some 11) testThread 0 (ReachableOn.new 3 _) (by decide) rfl
    testRead_eq

/-- C25 as stated fails. `addEvent(5, READ, cb)` called on a thread without a
current scheduler (`orphanThread`) leads to a reachable state in which bit
`READ` of descriptor 5 is set and the slot of `READ` holds the callable but a
null scheduler. -/
theorem eventContext_scheduler_counterexample :
    Reachable testOrphan ∧
    testOrphan.m_fd_contexts[5]? = some
      { read := { scheduler := none, fiber := none, cb := some 11 },
        write := EventContext.empty, fd := 5, events := 1 } ∧
    (1 : Nat) &&& READ ≠ 0 :=
  ⟨testOrphan_reachable, rfl, by decide⟩

/-- C25, amended. In every reachable state and for every `FdContext`: when
bit `READ` is set the slot of `READ` holds exactly one of a fiber and a
callable, and when it is clear the slot is empty; the same for `WRITE`. So for
`fd >= 0` and a direction whose bit is clear, the slot `addEvent` is about to
fill is empty (its `assert` holds) and `addEvent`, called with a callable or on
a running fiber, returns 0. When every `addEvent` was called on a thread with a
current scheduler, the slot of a set bit also records a scheduler. -/
theorem eventContext_wellformed (s : IOManager) (h : Reachable s) :
    (∀ c ∈ s.m_fd_contexts,
      (c.events &&& READ ≠ 0 →
        (c.read.cb.isSome ∧ c.read.fiber = none) ∨ (c.read.cb = none ∧ c.read.fiber.isSome)) ∧
      (c.events &&& READ = 0 → c.read = EventContext.empty) ∧
      (c.events &&& WRITE ≠ 0 →
        (c.write.cb.isSome ∧ c.write.fiber = none) ∨ (c.write.cb = none ∧ c.write.fiber.isSome)) ∧
      (c.events &&& WRITE = 0 → c.write = EventContext.empty)) ∧
    (∀ fd E, 0 ≤ fd → (E = READ ∨ E = WRITE) → (s.ctxOrFresh fd).events &&& E = 0 →
      (s.ctxOrFresh fd).getEventContext E = .ok EventContext.empty ∧
      ∀ cb tl rt, (cb.isSome = true ∨ tl.t_fiber_running = true) →
        ∃ s1, s.addEvent fd E cb tl rt = .ok (0, s1)) ∧
    (ReachableOn s → ∀ c ∈ s.m_fd_contexts,
      (c.events &&& READ ≠ 0 → c.read.scheduler.isSome) ∧
      (c.events &&& WRITE ≠ 0 → c.write.scheduler.isSome)) := by
  have hinv := h.inv
  refine ⟨?_, ?_, ?_⟩
  · intro c hc
    have hok := hinv.ctx c hc
    exact ⟨hok.read_armed, hok.read, hok.write_armed, hok.write⟩
  · intro fd E hfd hE hbit
    have hok := hinv.ctxOrFresh_ok fd
    constructor
    · rcases hE with rfl | rfl
      · rw [getEventContext_read, hok.read hbit]
      · rw [getEventContext_write, hok.write hbit]
    · intro cb tl rt hrun
      exact ⟨_, addEvent_eq hinv cb tl rt hfd hE hbit hrun⟩
  · intro hon c hc
    have hok := hinv.ctx c hc
    have hs := hon.sched c hc
    constructor
    · intro hbit
      rcases hs.1 with he | hsome
      · have ha := hok.read_armed hbit
        rw [he] at ha
        rcases ha with ⟨h1, -⟩ | ⟨-, h2⟩
        · cases h1
        · cases h2
      · exact hsome
    · intro hbit
      rcases hs.2 with he | hsome
      · have ha := hok.write_armed hbit
        rw [he] at ha
        rcases ha with ⟨h1, -⟩ | ⟨-, h2⟩
        · cases h1
        · cases h2
      · exact hsome

/-- C25, amended, on `testRead` (`READ` registered on descriptor 5 with a
callable, on the thread that built the manager). -/
theorem eventContext_wellformed_witness :
    Reachable testRead ∧ ReachableOn testRead ∧ testReadCtx ∈ testRead.m_fd_contexts ∧
    ((testReadCtx.events &&& READ ≠ 0 →
        (testReadCtx.read.cb.isSome ∧ testReadCtx.read.fiber = none) ∨
          (testReadCtx.read.cb = none ∧ testReadCtx.read.fiber.isSome)) ∧
      (testReadCtx.events &&& READ = 0 → testReadCtx.read = EventContext.empty) ∧
      (testReadCtx.events &&& WRITE ≠ 0 →
        (testReadCtx.write.cb.isSome ∧ testReadCtx.write.fiber = none) ∨
          (testReadCtx.write.cb = none ∧ testReadCtx.write.fiber.isSome)) ∧
      (testReadCtx.events &&& WRITE = 0 → testReadCtx.write = EventContext.empty)) ∧
    ((testReadCtx.events &&& READ ≠ 0 → testReadCtx.read.scheduler.isSome) ∧
      (testReadCtx.events &&& WRITE ≠ 0 → testReadCtx.write.scheduler.isSome)) :=
  ⟨testRead_reachable, testRead_reachableOn, List.getElem?_mem testReadCtx_get,
   (eventContext_wellformed testRead testRead_reachable).1 testReadCtx
     (List.getElem?_mem testReadCtx_get),
   (eventContext_wellformed testRead testRead_reachable).2.2 testRead_reachableOn testReadCtx
     (List.getElem?_mem testReadCtx_get)⟩

/-! ### The closed flag -/

theorem noneClosed_new : FdManager.new.NoneClosed := by
  intro c hc
  simp [FdManager.new] at hc

theorem noneClosed_set {m : FdManager} (h : m.NoneClosed) (i : Nat) (x : Option FdCtx)
    (hx : ∀ c, x = some c → c.m_isClosed = false) :
    FdManager.NoneClosed { m_datas := m.m_datas.set i x } := by
  intro c hc
  rcases List.mem_or_eq_of_mem_set hc with hc | hc
  · exact h c hc
  · exact hx c hc.symm

theorem noneClosed_resize {m : FdManager} (h : m.NoneClosed) (n : Nat) :
    (m.resize n).NoneClosed := by
  intro c hc
  simp only [FdManager.resize, List.mem_append] at hc
  rcases hc with hc | hc
  · exact h c (List.mem_of_mem_take hc)
  · have := List.eq_of_mem_replicate hc
    cases this

theorem noneClosed_get {m m1 : FdManager} {fd : Int} {auto_create : Bool} {stat : Except Int Bool}
    {c : Option FdCtx} {b : Bool} (h : m.NoneClosed)
    (hg : m.get fd auto_create (FdCtx.new fd stat) = .ok (c, m1, b)) : m1.NoneClosed := by
  have key : ∀ m0 : FdManager, m0.NoneClosed →
      (if fd.toNat < m0.m_datas.length then
        (Except.ok (some (FdCtx.new fd stat),
          FdManager.mk (m0.m_datas.set fd.toNat (some (FdCtx.new fd stat))), true) :
          Except Fault (Option FdCtx × FdManager × Bool))
       else .error .outOfRange) = .ok (c, m1, b) → m1.NoneClosed := by
    intro m0 h0 hk
    split at hk
    · cases hk
      apply noneClosed_set h0
      intro c hc
      cases hc
      rfl
    · cases hk
  unfold FdManager.get at hg
  split at hg
  · cases hg; exact h
  · split at hg
    · cases hg; exact h
    · split at hg
      · cases hg; exact h
      · split at hg
        · cases hg
        · refine key (if m.beyond fd = true then m.resize (fd.toNat * 3 / 2) else m) ?_ hg
          split
          · exact noneClosed_resize h _
          · exact h

theorem noneClosed_del {m : FdManager} (h : m.NoneClosed) (fd : Int) : (m.del fd).NoneClosed := by
  unfold FdManager.del
  split
  · exact h
  · exact noneClosed_set h _ none (fun c hc => by cases hc)

theorem noneClosed_hookGet {w w1 : HookWorld} {fd : Int} {auto_create : Bool}
    {stat : Except Int Bool} {flags : Nat} {c : Option FdCtx} (h : w.fdMgr.NoneClosed)
    (hg : w.get fd auto_create stat flags = .ok (c, w1)) : w1.fdMgr.NoneClosed := by
  unfold HookWorld.get at hg
  split at hg
  · cases hg
  · rename_i c0 m b hm
    have := noneClosed_get h hm
    split at hg
    · cases hg; exact this
    · cases hg; exact this

theorem ctx_mem (w : HookWorld) (fd : Int) (c : FdCtx) (h : w.ctx fd = some c) :
    some c ∈ w.fdMgr.m_datas :=
  List.getElem?_mem (ctx_some w fd c h).2.2

theorem retry_fdMgr (fd : Int) (fn : Orig) (event : Nat) (args : List Int) (timeout : Nat)
    (env : List Attempt) (w w1 : HookWorld) (r : Int)
    (h : do_io.retry fd fn event args timeout env w = some (.ok (r, w1))) :
    w1.fdMgr = w.fdMgr := by
  induction env generalizing w with
  | nil => simp [do_io.retry] at h
  | cons a env ih =>
    rw [do_io.retry] at h
    cases hd : decide (timeout ≠ UINT64_MAX) <;> simp only [hd, Bool.false_eq_true, if_false,
      if_true] at h
    all_goals
      split at h
      · have h2 := ih _ h
        exact h2
      · split at h
        · split at h
          · cases h
          · split at h
            · simp only [Option.some.injEq, Except.ok.injEq, Prod.mk.injEq] at h
              rw [← h.2]
            · split at h
              · simp only [Option.some.injEq, Except.ok.injEq, Prod.mk.injEq] at h
                rw [← h.2]
              · have h2 := ih _ h
                exact h2
        · simp only [Option.some.injEq, Except.ok.injEq, Prod.mk.injEq] at h
          rw [← h.2]

theorem forward_fdMgr (w w1 : HookWorld) (fn : Orig) (args : List Int) (env : List Attempt)
    (r : Int) (h : w.forward fn args env = some (.ok (r, w1))) : w1.fdMgr = w.fdMgr := by
  cases env with
  | nil => simp [HookWorld.forward] at h
  | cons a env =>
    simp only [HookWorld.forward, HookWorld.call, Option.some.injEq, Except.ok.injEq,
      Prod.mk.injEq] at h
    rw [← h.2]

theorem do_io_fdMgr (w w1 : HookWorld) (fd : Int) (fn : Orig) (event : Nat) (timeout_so : Int)
    (args : List Int) (env : List Attempt) (r : Int)
    (h : do_io w fd fn event timeout_so args env = some (.ok (r, w1))) :
    w1.fdMgr = w.fdMgr := by
  unfold do_io at h
  split at h
  · exact forward_fdMgr _ _ _ _ _ _ h
  · split at h
    · exact forward_fdMgr _ _ _ _ _ _ h
    · split at h
      · simp only [Option.some.injEq, Except.ok.injEq, Prod.mk.injEq] at h
        rw [← h.2]
      · split at h
        · exact forward_fdMgr _ _ _ _ _ _ h
        · exact retry_fdMgr _ _ _ _ _ _ _ _ _ h

theorem noneClosed_setCtx {w : HookWorld} (h : w.fdMgr.NoneClosed) (fd : Int) (c : FdCtx)
    (hc : c.m_isClosed = false) : (w.setCtx fd c).fdMgr.NoneClosed :=
  noneClosed_set h _ (some c) (fun x hx => by cases hx; exact hc)

theorem sleep_fdMgr {w w1 : HookWorld} {seconds : Nat} {a : Answer} {r : Int}
    (h : sleep w seconds a = .ok (r, w1)) : w1.fdMgr = w.fdMgr := by
  unfold sleep at h
  split at h
  · cases h; rfl
  · split at h
    · cases h
    · cases h; rfl

theorem usleep_fdMgr {w w1 : HookWorld} {usec : Nat} {a : Answer} {r : Int}
    (h : usleep w usec a = .ok (r, w1)) : w1.fdMgr = w.fdMgr := by
  unfold usleep at h
  split at h
  · cases h; rfl
  · split at h
    · cases h
    · cases h; rfl

theorem nanosleep_fdMgr {w w1 : HookWorld} {req rem : Int} {reqVal : Option (Int × Int)}
    {a : Answer} {r : Int} (h : nanosleep w req rem reqVal a = .ok (r, w1)) :
    w1.fdMgr = w.fdMgr := by
  unfold nanosleep at h
  split at h
  · cases h; rfl
  · split at h
    · cases h
    · split at h
      · cases h
      · cases h; rfl

theorem keeps_ite (m : FdManager) (c : Prop) [Decidable c] (a b : Except Fault (Int × HookWorld))
    (ha : ∀ r w1, a = .ok (r, w1) → w1.fdMgr = m) (hb : ∀ r w1, b = .ok (r, w1) → w1.fdMgr = m) :
    ∀ r w1, (if c then a else b) = .ok (r, w1) → w1.fdMgr = m := by
  split
  · exact ha
  · exact hb

theorem fdMgr_ite (m : FdManager) (c : Prop) [Decidable c] (a b : HookWorld)
    (ha : a.fdMgr = m) (hb : b.fdMgr = m) : (if c then a else b).fdMgr = m := by
  split
  · exact ha
  · exact hb

theorem getsockopt_tail (m : FdManager) (W : HookWorld) (fd : Int) (g : Answer) (error : Int)
    (hW : W.fdMgr = m) :
    ∀ r w1, (let r6 := getsockopt W fd SOL_SOCKET 4 0 0 g
             if r6.1 ≠ 0 then (Except.ok (-1, r6.2) : Except Fault (Int × HookWorld))
             else if error = 0 then .ok (0, r6.2)
             else .ok (-1, { r6.2 with errno := error })) = .ok (r, w1) → w1.fdMgr = m := by
  intro r w1 h
  simp only [getsockopt, HookWorld.call] at h
  split at h
  · cases h; exact hW
  · split at h
    · cases h; exact hW
    · cases h; exact hW

theorem connect_fdMgr {w w1 : HookWorld} {fd addr addrlen : Int} {timeout_ms : Nat} {a : Answer}
    {rt cancelled : Int} {g : Answer} {error : Int} {r : Int}
    (h : connect_with_timeout w fd addr addrlen timeout_ms a rt cancelled g error = .ok (r, w1)) :
    w1.fdMgr = w.fdMgr := by
  have key : ∀ x : Except Fault (Int × HookWorld),
      x = connect_with_timeout w fd addr addrlen timeout_ms a rt cancelled g error →
      ∀ r w1, x = .ok (r, w1) → w1.fdMgr = w.fdMgr := by
    intro x hx
    rw [hx]
    unfold connect_with_timeout
    refine keeps_ite _ _ _ _ ?_ ?_
    · intro r w1 h; cases h; rfl
    · cases hc : w.ctx fd with
      | none => intro r w1 h; cases h; rfl
      | some ctx =>
        refine keeps_ite _ _ _ _ ?_ ?_
        · intro r w1 h; cases h; rfl
        · refine keeps_ite _ _ _ _ ?_ ?_
          · intro r w1 h; cases h; rfl
          · refine keeps_ite _ _ _ _ ?_ ?_
            · intro r w1 h; cases h; rfl
            · refine keeps_ite _ _ _ _ ?_ ?_
              · intro r w1 h; cases h; rfl
              · refine keeps_ite _ _ _ _ ?_ ?_
                · intro r w1 h; cases h; rfl
                · cases hi : (w.call Orig.connect [fd, addr, addrlen] a).2.iom with
                  | none => intro r w1 h; cases h
                  | some v =>
                    show ∀ r w1, (_ : Except Fault (Int × HookWorld)) = .ok (r, w1) → w1.fdMgr = w.fdMgr
                    refine keeps_ite _ _ _ _ ?_ ?_
                    · intro r w1 h
                      cases h
                      refine fdMgr_ite _ _ _ _ ?_ ?_
                      · refine fdMgr_ite _ _ _ _ ?_ ?_
                        · refine fdMgr_ite _ _ _ _ rfl rfl
                        · refine fdMgr_ite _ _ _ _ rfl rfl
                      · refine fdMgr_ite _ _ _ _ ?_ ?_
                        · refine fdMgr_ite _ _ _ _ rfl rfl
                        · refine fdMgr_ite _ _ _ _ rfl rfl
                    · refine getsockopt_tail _ _ _ _ _ ?_
                      refine fdMgr_ite _ _ _ _ ?_ ?_
                      · refine fdMgr_ite _ _ _ _ ?_ ?_
                        · refine fdMgr_ite _ _ _ _ rfl rfl
                        · refine fdMgr_ite _ _ _ _ rfl rfl
                      · refine fdMgr_ite _ _ _ _ ?_ ?_
                        · refine fdMgr_ite _ _ _ _ rfl rfl
                        · refine fdMgr_ite _ _ _ _ rfl rfl
  exact key _ rfl r w1 h

theorem noneClosed_ctx {w : HookWorld} (h : w.fdMgr.NoneClosed) {fd : Int} {c : FdCtx}
    (hc : w.ctx fd = some c) : c.m_isClosed = false :=
  h c (ctx_mem w fd c hc)

theorem socket_noneClosed {w w1 : HookWorld} {domain type protocol : Int} {a : Answer}
    {stat : Except Int Bool} {flags : Nat} {r : Int} (h : w.fdMgr.NoneClosed)
    (hs : socket w domain type protocol a stat flags = .ok (r, w1)) : w1.fdMgr.NoneClosed := by
  unfold socket at hs
  split at hs
  · cases hs; exact h
  · simp only [HookWorld.call] at hs
    split at hs
    · cases hs; exact h
    · split at hs
      · cases hs
      · rename_i c w2 hg
        cases hs
        exact noneClosed_hookGet (w := { w with trace := w.trace ++ [.orig .socket [domain, type, protocol]], errno := a.errno }) h hg

theorem accept_noneClosed {w w1 : HookWorld} {sockfd addr addrlen : Int} {env : List Attempt}
    {stat : Except Int Bool} {flags : Nat} {r : Int} (h : w.fdMgr.NoneClosed)
    (hs : accept w sockfd addr addrlen env stat flags = some (.ok (r, w1))) :
    w1.fdMgr.NoneClosed := by
  unfold accept at hs
  split at hs
  · cases hs
  · cases hs
  · rename_i fd w0 hd
    have h0 : w0.fdMgr.NoneClosed := by
      rw [do_io_fdMgr _ _ _ _ _ _ _ _ _ hd]; exact h
    split at hs
    · split at hs
      · cases hs
      · rename_i c w2 hg
        cases hs
        exact noneClosed_hookGet h0 hg
    · cases hs; exact h0

theorem close_fdMgr (w : HookWorld) (fd : Int) (a : Answer) :
    (close w fd a).2.fdMgr = w.fdMgr ∨ (close w fd a).2.fdMgr = w.fdMgr.del fd := by
  unfold close
  split
  · left; rfl
  · split
    · right
      cases w.iom <;> rfl
    · left; rfl

theorem fcntl_noneClosed {w : HookWorld} (h : w.fdMgr.NoneClosed) (fd cmd : Int) (arg : Nat)
    (a : Answer) : (fcntl w fd cmd arg a).2.fdMgr.NoneClosed := by
  unfold fcntl
  split
  · split
    · exact h
    · rename_i ctx hc
      split
      · exact h
      · exact noneClosed_setCtx h fd _ (noneClosed_ctx (c := ctx) h hc)
  · split
    · show (match (w.call Orig.fcntl [fd, cmd] a).2.ctx fd with
        | none => w.call Orig.fcntl [fd, cmd] a
        | some ctx =>
          if (ctx.m_isClosed || !ctx.m_isSocket) = true then w.call Orig.fcntl [fd, cmd] a
          else
            if ctx.m_userNonblock = true then
              (toInt32 (toWord32 (w.call Orig.fcntl [fd, cmd] a).1 ||| O_NONBLOCK),
                (w.call Orig.fcntl [fd, cmd] a).2)
            else (toInt32 (andNot (toWord32 (w.call Orig.fcntl [fd, cmd] a).1) O_NONBLOCK),
                (w.call Orig.fcntl [fd, cmd] a).2)).2.fdMgr.NoneClosed
      split
      · exact h
      · split
        · exact h
        · split
          · exact h
          · exact h
    · split
      · exact h
      · exact h

theorem ioctl_noneClosed {w w1 : HookWorld} {fd : Int} {request : Nat} {arg : Int}
    {argVal : Option Int} {a : Answer} {r : Int} (h : w.fdMgr.NoneClosed)
    (hs : ioctl w fd request arg argVal a = .ok (r, w1)) : w1.fdMgr.NoneClosed := by
  unfold ioctl at hs
  split at hs
  · split at hs
    · cases hs
    · split at hs
      · cases hs; exact h
      · rename_i ctx hc
        split at hs
        · cases hs; exact h
        · cases hs
          exact noneClosed_setCtx h fd _ (noneClosed_ctx (c := ctx) h hc)
  · cases hs; exact h

theorem setTimeout_closed (c : FdCtx) (type : Int) (v : Nat) :
    (c.setTimeout type v).m_isClosed = c.m_isClosed := by
  unfold FdCtx.setTimeout
  split <;> rfl

theorem setsockopt_noneClosed {w w1 : HookWorld} {sockfd level optname optval optlen : Int}
    {tv : Option (Int × Int)} {a : Answer} {r : Int} (h : w.fdMgr.NoneClosed)
    (hs : setsockopt w sockfd level optname optval optlen tv a = .ok (r, w1)) :
    w1.fdMgr.NoneClosed := by
  unfold setsockopt at hs
  split at hs
  · cases hs; exact h
  · split at hs
    · split at hs
      · cases hs; exact h
      · rename_i ctx hc
        split at hs
        · cases hs
        · cases hs
          exact noneClosed_setCtx h sockfd _
            (by rw [setTimeout_closed]; exact noneClosed_ctx h hc)
    · cases hs; exact h

theorem step_noneClosed {w w1 : HookWorld} {r : Int} (call : HookCall)
    (h : w.fdMgr.NoneClosed) (hs : w.step call = some (.ok (r, w1))) : w1.fdMgr.NoneClosed := by
  cases call with
  | set_hook_enable flag =>
    simp only [HookWorld.step, Option.some.injEq, Except.ok.injEq, Prod.mk.injEq] at hs
    rw [← hs.2]; exact h
  | sleep seconds a =>
    simp only [HookWorld.step, Option.some.injEq] at hs
    rw [sleep_fdMgr hs]; exact h
  | usleep usec a =>
    simp only [HookWorld.step, Option.some.injEq] at hs
    rw [usleep_fdMgr hs]; exact h
  | nanosleep req rem reqVal a =>
    simp only [HookWorld.step, Option.some.injEq] at hs
    rw [nanosleep_fdMgr hs]; exact h
  | socket domain type protocol a stat flags =>
    simp only [HookWorld.step, Option.some.injEq] at hs
    exact socket_noneClosed h hs
  | connect sockfd addr addrlen a rt cancelled g error =>
    simp only [HookWorld.step, Option.some.injEq, connect] at hs
    rw [connect_fdMgr hs]; exact h
  | accept sockfd addr addrlen env stat flags =>
    simp only [HookWorld.step] at hs
    exact accept_noneClosed h hs
  | generic fd fn event timeout_so args env =>
    simp only [HookWorld.step] at hs
    rw [do_io_fdMgr _ _ _ _ _ _ _ _ _ hs]; exact h
  | close fd a =>
    simp only [HookWorld.step, Option.some.injEq, Except.ok.injEq] at hs
    have h2 := close_fdMgr w fd a
    rw [hs] at h2
    rcases h2 with h2 | h2
    · rw [h2]; exact h
    · rw [h2]; exact noneClosed_del h fd
  | fcntl fd cmd arg a =>
    simp only [HookWorld.step, Option.some.injEq, Except.ok.injEq] at hs
    have h2 := fcntl_noneClosed h fd cmd arg a
    rw [hs] at h2
    exact h2
  | ioctl fd request arg argVal a =>
    simp only [HookWorld.step, Option.some.injEq] at hs
    exact ioctl_noneClosed h hs
  | getsockopt sockfd level optname optval optlen a =>
    simp only [HookWorld.step, Option.some.injEq, Except.ok.injEq, getsockopt, HookWorld.call,
      Prod.mk.injEq] at hs
    rw [← hs.2]; exact h
  | setsockopt sockfd level optname optval optlen tv a =>
    simp only [HookWorld.step, Option.some.injEq] at hs
    exact setsockopt_noneClosed h hs

theorem HookReach.noneClosed {w : HookWorld} (h : HookReach w) : w.fdMgr.NoneClosed := by
  induction h with
  | start flag iom => exact noneClosed_new
  | step call _ hs ih => exact step_noneClosed call ih hs

theorem lt_ite (n : Nat) (c : Prop) [Decidable c] (a b : Except Fault (Int × HookWorld))
    (ha : c → ∀ r w1, a = .ok (r, w1) → n < w1.trace.length)
    (hb : ¬ c → ∀ r w1, b = .ok (r, w1) → n < w1.trace.length) :
    ∀ r w1, (if c then a else b) = .ok (r, w1) → n < w1.trace.length := by
  split
  · rename_i h; exact ha h
  · rename_i h; exact hb h

theorem len_ite (n : Nat) (c : Prop) [Decidable c] (a b : HookWorld)
    (ha : n < a.trace.length) (hb : n < b.trace.length) :
    n < (if c then a else b).trace.length := by
  split
  · exact ha
  · exact hb

theorem len_app (n : Nat) (t l : List HookEffect) (h : n < t.length) : n < (t ++ l).length := by
  rw [List.length_append]; omega

theorem len_snoc (t : List HookEffect) (e : HookEffect) : t.length < (t ++ [e]).length := by
  simp

theorem getsockopt_tail_len (n : Nat) (W : HookWorld) (fd : Int) (g : Answer) (error : Int)
    (hW : n < W.trace.length) :
    ∀ r w1, (let r6 := getsockopt W fd SOL_SOCKET 4 0 0 g
             if r6.1 ≠ 0 then (Except.ok (-1, r6.2) : Except Fault (Int × HookWorld))
             else if error = 0 then .ok (0, r6.2)
             else .ok (-1, { r6.2 with errno := error })) = .ok (r, w1) →
      n < w1.trace.length := by
  intro r w1 h
  simp only [getsockopt, HookWorld.call] at h
  split at h
  · cases h; exact len_app _ _ _ hW
  · split at h
    · cases h; exact len_app _ _ _ hW
    · cases h; exact len_app _ _ _ hW

theorem connect_trace_lt {w w1 : HookWorld} {fd addr addrlen : Int} {timeout_ms : Nat}
    {a : Answer} {rt cancelled : Int} {g : Answer} {error : Int} {r : Int}
    (hopen : w.t_hook_enable = true → ∃ c, w.ctx fd = some c ∧ c.m_isClosed = false)
    (h : connect_with_timeout w fd addr addrlen timeout_ms a rt cancelled g error = .ok (r, w1)) :
    w.trace.length < w1.trace.length := by
  have key : ∀ x : Except Fault (Int × HookWorld),
      x = connect_with_timeout w fd addr addrlen timeout_ms a rt cancelled g error →
      ∀ r w1, x = .ok (r, w1) → w.trace.length < w1.trace.length := by
    intro x hx
    rw [hx]
    unfold connect_with_timeout
    refine lt_ite _ _ _ _ ?_ ?_
    · intro _ r w1 h; cases h; exact len_snoc _ _
    · intro hen
      obtain ⟨c, hc0, hcl⟩ := hopen (by simpa using hen)
      cases hc : w.ctx fd with
      | none => rw [hc] at hc0; cases hc0
      | some ctx =>
        rw [hc] at hc0
        cases hc0
        refine lt_ite _ _ _ _ ?_ ?_
        · intro hcl2; rw [hcl] at hcl2; cases hcl2
        · intro _
          refine lt_ite _ _ _ _ ?_ ?_
          · intro _ r w1 h; cases h; exact len_snoc _ _
          · intro _
            refine lt_ite _ _ _ _ ?_ ?_
            · intro _ r w1 h; cases h; exact len_snoc _ _
            · intro _
              refine lt_ite _ _ _ _ ?_ ?_
              · intro _ r w1 h; cases h; exact len_snoc _ _
              · intro _
                refine lt_ite _ _ _ _ ?_ ?_
                · intro _ r w1 h; cases h; exact len_snoc _ _
                · intro _
                  cases hi : (w.call Orig.connect [fd, addr, addrlen] a).2.iom with
                  | none => intro r w1 h; cases h
                  | some v =>
                    show ∀ r w1, (_ : Except Fault (Int × HookWorld)) = .ok (r, w1) → _
                    refine lt_ite _ _ _ _ ?_ ?_
                    · intro _ r w1 h
                      cases h
                      show w.trace.length < (_ : HookWorld).trace.length
                      repeat (first
                        | exact len_snoc _ _
                        | refine len_ite _ _ _ _ ?_ ?_
                        | refine len_app _ _ _ ?_)
                    · intro _
                      refine getsockopt_tail_len _ _ _ _ _ ?_
                      repeat (first
                        | exact len_snoc _ _
                        | refine len_ite _ _ _ _ ?_ ?_
                        | refine len_app _ _ _ ?_)
  exact key _ rfl r w1 h

theorem hookTracked5_reach : HookReach hookTracked5 :=
  HookReach.step (r := 0) (.set_hook_enable true)
    (HookReach.step (r := 5) (.socket 2 1 0 ⟨5, 0⟩ (.ok true) 0) (HookReach.start false none) rfl)
    rfl

theorem ctx_congr {w w2 : HookWorld} (h : w2.fdMgr = w.fdMgr) (fd : Int) : w2.ctx fd = w.ctx fd := by
  unfold HookWorld.ctx; rw [h]

theorem close_tracked (w : HookWorld) (fd : Int) (a : Answer) (c : FdCtx)
    (he : w.t_hook_enable = true) (hc : w.ctx fd = some c) :
    (close w fd a).2.fdMgr = w.fdMgr.del fd := by
  unfold close
  rw [he, hc]
  cases w.iom <;> rfl

theorem ctx_del_self (w w2 : HookWorld) (fd : Int) (h : w2.fdMgr = w.fdMgr.del fd) :
    w2.ctx fd = none := by
  rw [ctx_def, h]
  by_cases h1 : fd = -1
  · rw [if_pos h1]
  · rw [if_neg h1]
    by_cases hb : w.fdMgr.beyond fd = true
    · have : (w.fdMgr.del fd).beyond fd = true := by
        unfold FdManager.del; rw [if_pos hb]; exact hb
      rw [if_pos this]
    · have hd : w.fdMgr.del fd = { m_datas := w.fdMgr.m_datas.set fd.toNat none } := by
        unfold FdManager.del; rw [if_neg hb]
      rw [hd]
      split
      · rfl
      · have h0 : 0 ≤ fd := by
          simp only [FdManager.beyond, Bool.or_eq_true, decide_eq_true_eq, not_or] at hb
          omega
        have hlt : fd.toNat < w.fdMgr.m_datas.length := by
          have := (beyond_iff w.fdMgr fd h0).not.mp hb
          omega
        exact getD_set_self _ _ _ hlt

theorem ctx_del_ne (w w2 : HookWorld) (fd fd2 : Int) (h : w2.fdMgr = w.fdMgr.del fd)
    (hne : fd2 ≠ fd) : w2.ctx fd2 = w.ctx fd2 := by
  rw [ctx_def, ctx_def, h]
  by_cases h1 : fd2 = -1
  · rw [if_pos h1, if_pos h1]
  · rw [if_neg h1, if_neg h1]
    by_cases hb : w.fdMgr.beyond fd = true
    · have : w.fdMgr.del fd = w.fdMgr := by
        unfold FdManager.del; rw [if_pos hb]
      rw [this]
    · have hd : w.fdMgr.del fd = { m_datas := w.fdMgr.m_datas.set fd.toNat none } := by
        unfold FdManager.del; rw [if_neg hb]
      rw [hd]
      have hbe : FdManager.beyond { m_datas := w.fdMgr.m_datas.set fd.toNat none } fd2 =
          w.fdMgr.beyond fd2 := by
        simp [FdManager.beyond]
      rw [hbe]
      by_cases hb2 : w.fdMgr.beyond fd2 = true
      · rw [if_pos hb2, if_pos hb2]
      · rw [if_neg hb2, if_neg hb2]
        have h0 : 0 ≤ fd := by
          simp only [FdManager.beyond, Bool.or_eq_true, decide_eq_true_eq, not_or] at hb
          omega
        have h2 : 0 ≤ fd2 := by
          simp only [FdManager.beyond, Bool.or_eq_true, decide_eq_true_eq, not_or] at hb2
          omega
        exact getD_set_ne _ _ _ _ (by omega)

theorem do_io_open (w : HookWorld) (h : w.fdMgr.NoneClosed) (fd : Int) (fn : Orig) (event : Nat)
    (timeout_so : Int) (args : List Int) (env : List Attempt) :
    do_io w fd fn event timeout_so args env =
      if !w.t_hook_enable then w.forward fn (fd :: args) env
      else
        match w.ctx fd with
        | none => w.forward fn (fd :: args) env
        | some ctx =>
          if !ctx.m_isSocket || ctx.m_userNonblock then w.forward fn (fd :: args) env
          else do_io.retry fd fn event args (ctx.getTimeout timeout_so) env w := by
  unfold do_io
  cases hc : w.ctx fd with
  | none => rfl
  | some ctx =>
    have := noneClosed_ctx h hc
    simp [this]

theorem connect_ebadf_iff (w : HookWorld) (h : w.fdMgr.NoneClosed) (fd addr addrlen : Int)
    (timeout_ms : Nat) (a : Answer) (rt cancelled : Int) (g : Answer) (error : Int) :
    connect_with_timeout w fd addr addrlen timeout_ms a rt cancelled g error =
        .ok (-1, { w with errno := EBADF }) ↔
      w.t_hook_enable = true ∧ w.ctx fd = none := by
  constructor
  · intro hr
    by_contra hn
    have hopen : w.t_hook_enable = true → ∃ c, w.ctx fd = some c ∧ c.m_isClosed = false := by
      intro he
      cases hc : w.ctx fd with
      | none => exact absurd ⟨he, hc⟩ hn
      | some c => exact ⟨c, rfl, noneClosed_ctx h hc⟩
    have := connect_trace_lt hopen hr
    exact lt_irrefl _ this
  · rintro ⟨he, hc⟩
    unfold connect_with_timeout
    rw [he, hc]
    rfl

/-- C30: in every world the hooks reach from the Fd Manager as constructed,
(1) no context of the table has `m_isClosed` set, and neither does the context
`get(fd)` returns for any `fd`; (2) the setters of `FdCtx` leave `m_isClosed`
as it is and a new context has it false; (3) `do_io` is what it would be
without its `ctx->isClosed()` test; (4) `connect_with_timeout`, for every
timeout, returns -1 with `errno` `EBADF` and no other effect only when hooks
are enabled and `get(fd)` is null, never on account of the closed flag;
(5) the hooked `close(fd)` of a tracked descriptor leaves the table as
`del(fd)` makes it: slot `fd` is empty, every other descriptor has the context
it had, and the world after it is again reachable. -/
theorem closed_flag_never_set (w : HookWorld) (h : HookReach w) :
    ((∀ c, some c ∈ w.fdMgr.m_datas → c.m_isClosed = false) ∧
      (∀ fd c, w.ctx fd = some c → c.m_isClosed = false)) ∧
    ((∀ (c : FdCtx) (v : Bool), (c.setUserNonblock v).m_isClosed = c.m_isClosed ∧
        (c.setSysNonblock v).m_isClosed = c.m_isClosed) ∧
      (∀ (c : FdCtx) (type : Int) (v : Nat), (c.setTimeout type v).m_isClosed = c.m_isClosed) ∧
      (∀ (fd : Int) (stat : Except Int Bool), (FdCtx.new fd stat).m_isClosed = false)) ∧
    (∀ fd fn event timeout_so args env,
      do_io w fd fn event timeout_so args env =
        if !w.t_hook_enable then w.forward fn (fd :: args) env
        else
          match w.ctx fd with
          | none => w.forward fn (fd :: args) env
          | some ctx =>
            if !ctx.m_isSocket || ctx.m_userNonblock then w.forward fn (fd :: args) env
            else do_io.retry fd fn event args (ctx.getTimeout timeout_so) env w) ∧
    (∀ fd addr addrlen timeout_ms a rt cancelled g error,
      connect_with_timeout w fd addr addrlen timeout_ms a rt cancelled g error =
          .ok (-1, { w with errno := EBADF }) ↔
        w.t_hook_enable = true ∧ w.ctx fd = none) ∧
    (∀ fd a c, w.t_hook_enable = true → w.ctx fd = some c →
      (close w fd a).2.fdMgr = w.fdMgr.del fd ∧
      (close w fd a).2.ctx fd = none ∧
      (∀ fd2, fd2 ≠ fd → (close w fd a).2.ctx fd2 = w.ctx fd2) ∧
      HookReach (close w fd a).2) := by
  have hn := h.noneClosed
  refine ⟨⟨hn, fun fd c hc => noneClosed_ctx hn hc⟩, ⟨fun c v => ⟨rfl, rfl⟩,
    fun c type v => setTimeout_closed c type v, fun fd stat => rfl⟩,
    fun fd fn event timeout_so args env => do_io_open w hn fd fn event timeout_so args env,
    fun fd addr addrlen timeout_ms a rt cancelled g error =>
      connect_ebadf_iff w hn fd addr addrlen timeout_ms a rt cancelled g error, ?_⟩
  intro fd a c he hc
  have hd := close_tracked w fd a c he hc
  exact ⟨hd, ctx_del_self w _ fd hd, fun fd2 hne => ctx_del_ne w _ fd fd2 hd hne,
    HookReach.step (r := (close w fd a).1) (.close fd a) h rfl⟩

/-- C30 at the world reached by `socket` returning descriptor 5 with hooks
disabled and `set_hook_enable(true)`: the world is reachable, descriptor 5 is
tracked with `m_isClosed` false, and after `close(5)` slot 5 is empty and the
table is again the one the constructor builds. -/
theorem closed_flag_never_set_witness :
    HookReach hookTracked5 ∧
      hookTracked5.ctx 5 = some (FdCtx.new 5 (.ok true)) ∧
      (FdCtx.new 5 (.ok true)).m_isClosed = false ∧
      (close hookTracked5 5 ⟨0, 0⟩).2.ctx 5 = none ∧
      (close hookTracked5 5 ⟨0, 0⟩).2.fdMgr = FdManager.new :=
  ⟨hookTracked5_reach, rfl,
    (closed_flag_never_set hookTracked5 hookTracked5_reach).1.2 5 _ rfl,
    ((closed_flag_never_set hookTracked5 hookTracked5_reach).2.2.2.2 5 ⟨0, 0⟩
      (FdCtx.new 5 (.ok true)) rfl rfl).2.1,
    by decide⟩

/-! ### Hooks with the flag false -/

end coroutine
